import Mathlib

/-!
# Channel-layout negotiation of mpv (audio/chmap_sel.c)

A shallow embedding of `audio/chmap_sel.c`: the acceptance predicate
`test_layout`, the speaker substitution `replace_speakers`, the up/down-mix
search `mp_chmap_sel_fallback`, the default lookup `mp_chmap_sel_get_def` and
the orchestrator `mp_chmap_sel_adjust`, followed by theorems about them.

The channel-map value type and its primitive operations live in
`audio/chmap.h` / `audio/chmap.c`, which are not part of the sources at hand.
Their constants and operations are taken as parameters (`chmap_env`), so the
theorems hold for every implementation of that header that meets the stated
hypotheses; `env0` is the instance that follows section 6 of the
specification.
-/

/-! ## The channel-map value -/

/-- A channel map, `struct mp_chmap`: `num` speakers `speaker[0 .. num-1]`.
The list holds exactly the first `num` entries of the C array, so `num` is its
length. -/
structure mp_chmap where
  speaker : List Nat
deriving DecidableEq, Repr

/-- The channel count `map->num`. -/
def mp_chmap.num (m : mp_chmap) : Nat := m.speaker.length

/-- Modelled from the spec: the interface of the header audio/chmap.h (and the
storage size of audio/chmap_sel.h) that chmap_sel.c consumes, section 6 of the
specification: the channel limit, the speaker identifiers and the primitive
operations on channel maps. None of them is defined in the sources at hand, so
they are parameters of the embedding. -/
structure chmap_env where
  /-- The bound on `num`, the length of `speaker[]`. -/
  MP_NUM_CHANNELS : Nat
  /-- The number of speaker identifiers; valid ids are `0 .. COUNT-1`. -/
  MP_SPEAKER_ID_COUNT : Nat
  MP_SPEAKER_ID_FL : Nat
  MP_SPEAKER_ID_FR : Nat
  MP_SPEAKER_ID_FC : Nat
  MP_SPEAKER_ID_BL : Nat
  MP_SPEAKER_ID_BR : Nat
  MP_SPEAKER_ID_SL : Nat
  MP_SPEAKER_ID_SR : Nat
  MP_SPEAKER_ID_SDL : Nat
  MP_SPEAKER_ID_SDR : Nat
  /-- The first of the placeholder ("unknown-N") speakers. -/
  MP_SPEAKER_ID_UNKNOWN0 : Nat
  /-- The inline capacity `MP_ARRAY_SIZE(s->chmaps_storage)`. -/
  chmaps_storage_size : Nat
  /-- `is_valid(map)`. -/
  mp_chmap_is_valid : mp_chmap → Bool
  /-- The test for the sentinel "unknown layout of N channels". -/
  mp_chmap_is_unknown : mp_chmap → Bool
  /-- `contains(a, b)`. -/
  mp_chmap_contains : mp_chmap → mp_chmap → Bool
  /-- `diff(a, b)`, the value stored through the third argument. -/
  mp_chmap_diff : mp_chmap → mp_chmap → mp_chmap
  /-- `equals_reordered(a, b)`. -/
  mp_chmap_equals_reordered : mp_chmap → mp_chmap → Bool
  /-- `reorder_to_native(map)`, the map left behind. -/
  mp_chmap_reorder_to_waveext : mp_chmap → mp_chmap
  /-- `is_native_order(map)`. -/
  mp_chmap_is_waveext : mp_chmap → Bool
  /-- `from_channel_count(n)`, the map stored through the first argument. -/
  mp_chmap_from_channels : Int → mp_chmap
  /-- The legacy ALSA default for `n` channels; empty when there is none. -/
  mp_chmap_from_channels_alsa : Int → mp_chmap

/-- The value of `INT_MAX` (limits.h) for a 32-bit `int`. -/
def INT_MAX : Nat := 2147483647

/-- The largest value of the `uint8_t` field `num`. -/
def UINT8_MAX : Nat := 255

/-- The empty map, `(struct mp_chmap) {0}`. -/
def mp_chmap_empty : mp_chmap := ⟨[]⟩

/-- Modelled from the spec: the missing macro MP_CHMAP_INIT_STEREO of
audio/chmap.h, "standard stereo" (front-left, front-right). -/
def MP_CHMAP_INIT_STEREO (E : chmap_env) : mp_chmap :=
  ⟨[E.MP_SPEAKER_ID_FL, E.MP_SPEAKER_ID_FR]⟩

/-- Modelled from the spec: the missing macro MP_CHMAP_INIT_MONO of
audio/chmap.h, "standard mono" (center). -/
def MP_CHMAP_INIT_MONO (E : chmap_env) : mp_chmap :=
  ⟨[E.MP_SPEAKER_ID_FC]⟩

/-! ## The selection criteria -/

/-- The criteria set, `struct mp_chmap_sel`. `chmaps` holds the `num_chmaps`
stored maps in insertion order; `tmp` says whether a talloc context is
attached (`s->tmp != NULL`). -/
structure mp_chmap_sel where
  allow_any : Bool
  allow_waveext : Bool
  speakers : List Bool
  chmaps : List mp_chmap
  tmp : Bool
deriving DecidableEq, Repr

/-- The entry count `s->num_chmaps`. -/
def mp_chmap_sel.num_chmaps (s : mp_chmap_sel) : Nat := s.chmaps.length

/-- The zero-initialised criteria set `{0}`, optionally with `.tmp` set by the
caller. -/
def mp_chmap_sel_zero (E : chmap_env) (tmp : Bool) : mp_chmap_sel :=
  ⟨false, false, List.replicate E.MP_SPEAKER_ID_COUNT false, [], tmp⟩

/-- The table `speaker_replacements` (chmap_sel.c lines 25-30). -/
def speaker_replacements (E : chmap_env) : List (mp_chmap × mp_chmap) :=
  [ (⟨[E.MP_SPEAKER_ID_SL, E.MP_SPEAKER_ID_SR]⟩, ⟨[E.MP_SPEAKER_ID_BL, E.MP_SPEAKER_ID_BR]⟩),
    (⟨[E.MP_SPEAKER_ID_SL, E.MP_SPEAKER_ID_SR]⟩, ⟨[E.MP_SPEAKER_ID_SDL, E.MP_SPEAKER_ID_SDR]⟩) ]

/-- The inner loop of `replace_speakers` for one slot: the first index `i`
with `src[i] == sp` gives `dst[i]`; `none` when no index matches. -/
def replace_slot (src dst : List Nat) (sp : Nat) : Option Nat :=
  match (src.zip dst).find? (fun p => p.1 == sp) with
  | some p => some p.2
  | none => none

/-- One direction of `replace_speakers`: the trial map `t` and the flag
`replaced`. -/
def replace_dir (src dst : mp_chmap) (map : mp_chmap) : Bool × mp_chmap :=
  (map.speaker.any (fun sp => (replace_slot src.speaker dst.speaker sp).isSome),
   ⟨map.speaker.map (fun sp => (replace_slot src.speaker dst.speaker sp).getD sp)⟩)

/-- The function `replace_speakers` (chmap_sel.c lines 34-59). `none` is the
failed assertion `list[0].num == list[1].num`. The first direction tried
(`dir = 0`) has `from = 1`, `to = 0`. -/
def replace_speakers (E : chmap_env) (map : mp_chmap) (list : mp_chmap × mp_chmap) :
    Option (Bool × mp_chmap) :=
  if list.1.num ≠ list.2.num then none
  else if E.mp_chmap_is_valid map = false then some (false, map)
  else
    let d0 := replace_dir list.2 list.1 map
    if d0.1 && E.mp_chmap_is_valid d0.2 then some (true, d0.2)
    else
      let d1 := replace_dir list.1 list.2 map
      if d1.1 && E.mp_chmap_is_valid d1.2 then some (true, d1.2)
      else some (false, map)

/-- The function `mp_chmap_sel_add_any`. -/
def mp_chmap_sel_add_any (s : mp_chmap_sel) : mp_chmap_sel :=
  { s with allow_any := true }

/-- The function `mp_chmap_sel_add_waveext`. -/
def mp_chmap_sel_add_waveext (s : mp_chmap_sel) : mp_chmap_sel :=
  { s with allow_waveext := true }

/-- The function `mp_chmap_sel_add_map` (chmap_sel.c lines 86-100): an invalid
map is dropped; a full inline storage without a talloc context drops the map;
otherwise the map is appended. -/
def mp_chmap_sel_add_map (E : chmap_env) (s : mp_chmap_sel) (map : mp_chmap) :
    mp_chmap_sel :=
  if E.mp_chmap_is_valid map = false then s
  else if s.num_chmaps = E.chmaps_storage_size ∧ s.tmp = false then s
  else { s with chmaps := s.chmaps ++ [map] }

/-- The function `mp_chmap_sel_add_alsa_def`: `n` runs over
`0 .. MP_NUM_CHANNELS-1`. -/
def mp_chmap_sel_add_alsa_def (E : chmap_env) (s : mp_chmap_sel) : mp_chmap_sel :=
  (List.range E.MP_NUM_CHANNELS).foldl
    (fun (acc : mp_chmap_sel) (n : Nat) =>
      let t := E.mp_chmap_from_channels_alsa (Int.ofNat n)
      if t.num ≠ 0 then mp_chmap_sel_add_map E acc t else acc) s

/-- The function `mp_chmap_sel_add_waveext_def`: `n` runs over
`1 .. MP_NUM_CHANNELS-1`. -/
def mp_chmap_sel_add_waveext_def (E : chmap_env) (s : mp_chmap_sel) : mp_chmap_sel :=
  (List.range' 1 (E.MP_NUM_CHANNELS - 1)).foldl
    (fun (acc : mp_chmap_sel) (n : Nat) =>
      mp_chmap_sel_add_map E acc (E.mp_chmap_from_channels (Int.ofNat n))) s

/-- The function `mp_chmap_sel_add_speaker`; `none` is the failed assertion
`id >= 0 && id < MP_SPEAKER_ID_COUNT`. -/
def mp_chmap_sel_add_speaker (E : chmap_env) (s : mp_chmap_sel) (id : Int) :
    Option mp_chmap_sel :=
  if 0 ≤ id ∧ id < (E.MP_SPEAKER_ID_COUNT : Int) then
    some { s with speakers := s.speakers.set id.toNat true }
  else none

/-! ## The acceptance predicate -/

/-- The function `test_speakers`: every speaker of the map is looked up in
`s->speakers[]`. The array has `MP_SPEAKER_ID_COUNT` entries; an index past
its end, which C leaves undefined, reads as false here. -/
def test_speakers (s : mp_chmap_sel) (map : mp_chmap) : Bool :=
  map.speaker.all (fun sp => s.speakers.getD sp false)

/-- The function `test_maps`: the first stored map equal to `map` up to
reordering replaces `map`. -/
def test_maps (E : chmap_env) (s : mp_chmap_sel) (map : mp_chmap) : Bool × mp_chmap :=
  match s.chmaps.find? (fun e => E.mp_chmap_equals_reordered e map) with
  | some e => (true, e)
  | none => (false, map)

/-- The function `test_waveext`. -/
def test_waveext (E : chmap_env) (s : mp_chmap_sel) (map : mp_chmap) : Bool × mp_chmap :=
  if s.allow_waveext then
    let t := E.mp_chmap_reorder_to_waveext map
    if E.mp_chmap_is_waveext t then (true, t) else (false, map)
  else (false, map)

/-- The function `test_layout` (chmap_sel.c lines 153-160): the result and the
map as left behind by the call. -/
def test_layout (E : chmap_env) (s : mp_chmap_sel) (map : mp_chmap) : Bool × mp_chmap :=
  if E.mp_chmap_is_valid map = false then (false, map)
  else if s.allow_any then (true, map)
  else
    let w := test_waveext E s map
    if w.1 then w
    else if test_speakers s w.2 then (true, w.2)
    else test_maps E s w.2

/-! ## Fallback search, default lookup, orchestrator -/

/-- The locals of `mp_chmap_sel_fallback`. -/
structure fallback_state where
  best_upmix_diff : Nat
  best_downmix_diff : Nat
  best_upmix : mp_chmap
  best_downmix : mp_chmap
deriving DecidableEq, Repr

/-- The initial locals: both costs `INT_MAX`; the two maps are uninitialised
in C and are read only after an assignment, here they start empty. -/
def fallback_init : fallback_state := ⟨INT_MAX, INT_MAX, mp_chmap_empty, mp_chmap_empty⟩

/-- One iteration of the loop of `mp_chmap_sel_fallback` on the stored map
`e`. -/
def fallback_step (E : chmap_env) (map : mp_chmap) (st : fallback_state) (e : mp_chmap) : fallback_state :=
  let st1 :=
    if E.mp_chmap_contains e map && decide (st.best_upmix_diff > (E.mp_chmap_diff e map).num) then
      { st with best_upmix_diff := (E.mp_chmap_diff e map).num, best_upmix := e }
    else st
  if E.mp_chmap_contains map e && decide (st1.best_downmix_diff > (E.mp_chmap_diff map e).num) then
    { st1 with best_downmix_diff := (E.mp_chmap_diff map e).num, best_downmix := e }
  else st1

/-- The function `mp_chmap_sel_fallback` (chmap_sel.c lines 204-238): the
result and the map as left behind. -/
def mp_chmap_sel_fallback (E : chmap_env) (s : mp_chmap_sel) (map : mp_chmap) : Bool × mp_chmap :=
  let st := s.chmaps.foldl (fallback_step E map) fallback_init
  if st.best_upmix_diff < INT_MAX then (true, st.best_upmix)
  else if st.best_downmix_diff < INT_MAX then (true, st.best_downmix)
  else (false, map)

/-- The function `mp_chmap_sel_get_def` (chmap_sel.c lines 244-265). -/
def mp_chmap_sel_get_def (E : chmap_env) (s : mp_chmap_sel) (map : mp_chmap) (num : Int) :
    Bool × mp_chmap :=
  if (map.num : Int) ≠ num then
    let t := E.mp_chmap_reorder_to_waveext (E.mp_chmap_from_channels num)
    let r := test_layout E s t
    let map1 :=
      if r.1 then r.2
      else
        match s.chmaps.find? (fun e => decide ((e.num : Int) = num)) with
        | some e => e
        | none => mp_chmap_empty
    (decide (map1.num > 0), map1)
  else (decide (map.num > 0), map)

/-- The loop over `speaker_replacements` in `mp_chmap_sel_adjust`: the accepted
map of the first entry whose substitution of `map` succeeds and is accepted.
The outer `none` is a failed assertion of `replace_speakers`. -/
def adjust_replacements (E : chmap_env) (s : mp_chmap_sel) (map : mp_chmap) :
    List (mp_chmap × mp_chmap) → Option (Option mp_chmap)
  | [] => some none
  | r :: rest =>
    match replace_speakers E map r with
    | none => none
    | some (b, t) =>
      if b && (test_layout E s t).1 then some (some (test_layout E s t).2)
      else adjust_replacements E s map rest

/-- The last resort of `mp_chmap_sel_adjust` (lines 191-199): stereo, then
mono, then the empty map. -/
def adjust_last_resort (E : chmap_env) (s : mp_chmap_sel) : Bool × mp_chmap :=
  let st := test_layout E s (MP_CHMAP_INIT_STEREO E)
  if st.1 then (true, st.2)
  else
    let mo := test_layout E s (MP_CHMAP_INIT_MONO E)
    if mo.1 then (true, mo.2)
    else (false, mp_chmap_empty)

/-- The function `mp_chmap_sel_adjust` (chmap_sel.c lines 168-200): the result
and the map as left behind. `none` is a failed assertion. -/
def mp_chmap_sel_adjust (E : chmap_env) (s : mp_chmap_sel) (map0 : mp_chmap) :
    Option (Bool × mp_chmap) :=
  let r0 := test_layout E s map0
  if r0.1 then some (true, r0.2)
  else
    let map := r0.2
    let g := mp_chmap_sel_get_def E s mp_chmap_empty (map.num : Int)
    if E.mp_chmap_is_unknown map && g.1 && (test_layout E s g.2).1 then
      some (true, (test_layout E s g.2).2)
    else
      match adjust_replacements E s map (speaker_replacements E) with
      | none => none
      | some (some t) => some (true, t)
      | some none =>
        let f := mp_chmap_sel_fallback E s map
        if f.1 then some (true, f.2)
        else some (adjust_last_resort E s)

/-! ## Building a criteria set -/

/-- The accumulation operations of chmap_sel.c, as data. -/
inductive sel_op where
  | add_any
  | add_waveext
  | add_alsa_def
  | add_map (map : mp_chmap)
  | add_waveext_def
  | add_speaker (id : Int)
deriving DecidableEq, Repr

/-- The effect of one accumulation operation; `none` is the failed assertion
of `mp_chmap_sel_add_speaker`. -/
def sel_apply (E : chmap_env) (s : mp_chmap_sel) : sel_op → Option mp_chmap_sel
  | .add_any => some (mp_chmap_sel_add_any s)
  | .add_waveext => some (mp_chmap_sel_add_waveext s)
  | .add_alsa_def => some (mp_chmap_sel_add_alsa_def E s)
  | .add_map map => some (mp_chmap_sel_add_map E s map)
  | .add_waveext_def => some (mp_chmap_sel_add_waveext_def E s)
  | .add_speaker id => mp_chmap_sel_add_speaker E s id

/-- The criteria set obtained from `s` by a sequence of accumulation
operations, in order. -/
def sel_apply_all (E : chmap_env) (s : mp_chmap_sel) : List sel_op → Option mp_chmap_sel
  | [] => some s
  | op :: ops =>
    match sel_apply E s op with
    | none => none
    | some s1 => sel_apply_all E s1 ops

/-- A criteria set built from the zero-initialised one. -/
def sel_build (E : chmap_env) (tmp : Bool) (ops : List sel_op) : Option mp_chmap_sel :=
  sel_apply_all E (mp_chmap_sel_zero E tmp) ops

/-! ## An instance of the parameters

The identifiers are numbered in the waveext bit order; the native order is the
increasing order of the identifiers. The instance is used to evaluate the
definitions on the layouts named in tests/all.c. -/

/-- Insertion into an increasing list. -/
def insert_sorted (x : Nat) : List Nat → List Nat
  | [] => [x]
  | y :: ys => if x ≤ y then x :: y :: ys else y :: insert_sorted x ys

/-- Sorting by insertion. -/
def sort_speakers : List Nat → List Nat
  | [] => []
  | x :: xs => insert_sorted x (sort_speakers xs)

/-- Strictly increasing. -/
def increasing : List Nat → Bool
  | [] => true
  | [_] => true
  | x :: y :: ys => decide (x < y) && increasing (y :: ys)

/-- The default layouts per channel count of the instance; the instance uses
the same table for the legacy ALSA defaults. -/
def env0_from_channels (n : Int) : mp_chmap :=
  if n = 1 then ⟨[2]⟩
  else if n = 2 then ⟨[0, 1]⟩
  else if n = 3 then ⟨[0, 1, 3]⟩
  else if n = 4 then ⟨[0, 1, 2, 8]⟩
  else if n = 5 then ⟨[0, 1, 2, 4, 5]⟩
  else if n = 6 then ⟨[0, 1, 2, 3, 4, 5]⟩
  else if n = 7 then ⟨[0, 1, 2, 3, 8, 9, 10]⟩
  else if n = 8 then ⟨[0, 1, 2, 3, 4, 5, 9, 10]⟩
  else ⟨[]⟩

/-- Modelled from the spec: the missing function mp_chmap_is_valid of
audio/chmap.c. Section 6: "true iff length > 0, length ≤ max, no duplicate
speakers"; by section 3 every entry of a map is a speaker identifier, that is
a value in `[0, SPEAKER_COUNT)`, which for entries stored as plain integers is
part of the check. -/
def spec_is_valid (max count : Nat) (src : mp_chmap) : Bool :=
  decide (0 < src.num) && decide (src.num ≤ max) &&
    src.speaker.all (fun sp => decide (sp < count)) && decide src.speaker.Nodup

/-- Modelled from the spec: the missing function E.mp_chmap_contains of
audio/chmap.c. Section 6: "true iff every speaker in `b` appears in `a`". -/
def spec_contains (a b : mp_chmap) : Bool :=
  b.speaker.all (fun sp => a.speaker.contains sp)

/-- Modelled from the spec: the missing function E.mp_chmap_diff of
audio/chmap.c. Section 6: "speakers present in `a` but absent from `b`, order
= order of appearance in `a`". -/
def spec_diff (a b : mp_chmap) : mp_chmap :=
  ⟨a.speaker.filter (fun sp => !(b.speaker.contains sp))⟩

/-- Modelled from the spec: the missing function E.mp_chmap_equals_reordered of
audio/chmap.c. Section 6: "true iff `a` and `b` contain exactly the same
speaker set (same cardinality, same elements), regardless of order". -/
def spec_equals_reordered (a b : mp_chmap) : Bool :=
  decide (a.num = b.num) && spec_contains a b && spec_contains b a

/-- Modelled from the spec: the missing function mp_chmap_is_unknown of
audio/chmap.c. Section 6: the sentinel "unknown layout of N channels (valid
count, undefined order)", whose speakers are the placeholders
`UNKNOWN0, UNKNOWN0 + 1, ...` (section 3, and tests/all.c lines 123-125). -/
def spec_is_unknown (max count unknown0 : Nat) (src : mp_chmap) : Bool :=
  spec_is_valid max count src &&
    decide (src.speaker = (List.range src.num).map (fun n => unknown0 + n))

/-- Modelled from the spec: the native ("waveext") order of the instance is
the increasing order of the speaker identifiers; reordering sorts a valid map
and leaves an invalid one. -/
def env0_reorder_to_waveext (m : mp_chmap) : mp_chmap :=
  if spec_is_valid 8 72 m then ⟨sort_speakers m.speaker⟩ else m

/-- Modelled from the spec: a native-order layout of the instance is a valid
map of increasing, non-placeholder speakers. -/
def env0_is_waveext (m : mp_chmap) : Bool :=
  spec_is_valid 8 72 m && increasing m.speaker && m.speaker.all (fun sp => decide (sp < 64))

/-- The instance: 8 channels, 72 speaker ids, placeholders from 64, inline
storage of 20 maps, and the primitive operations as section 6 of the
specification defines them. -/
def env0 : chmap_env where
  MP_NUM_CHANNELS := 8
  MP_SPEAKER_ID_COUNT := 72
  MP_SPEAKER_ID_FL := 0
  MP_SPEAKER_ID_FR := 1
  MP_SPEAKER_ID_FC := 2
  MP_SPEAKER_ID_BL := 4
  MP_SPEAKER_ID_BR := 5
  MP_SPEAKER_ID_SL := 9
  MP_SPEAKER_ID_SR := 10
  MP_SPEAKER_ID_SDL := 33
  MP_SPEAKER_ID_SDR := 34
  MP_SPEAKER_ID_UNKNOWN0 := 64
  chmaps_storage_size := 20
  mp_chmap_is_valid := spec_is_valid 8 72
  mp_chmap_is_unknown := spec_is_unknown 8 72 64
  mp_chmap_contains := spec_contains
  mp_chmap_diff := spec_diff
  mp_chmap_equals_reordered := spec_equals_reordered
  mp_chmap_reorder_to_waveext := env0_reorder_to_waveext
  mp_chmap_is_waveext := env0_is_waveext
  mp_chmap_from_channels := env0_from_channels
  mp_chmap_from_channels_alsa := env0_from_channels

/-- The layout "mono": fc. -/
def chmap_mono : mp_chmap := ⟨[2]⟩
/-- The layout "stereo": fl-fr. -/
def chmap_stereo : mp_chmap := ⟨[0, 1]⟩
/-- The layout "2.1": fl-fr-lfe. -/
def chmap_2_1 : mp_chmap := ⟨[0, 1, 3]⟩
/-- The layout "3.1": fl-fr-fc-lfe. -/
def chmap_3_1 : mp_chmap := ⟨[0, 1, 2, 3]⟩
/-- The layout "5.1": fl-fr-fc-lfe-bl-br. -/
def chmap_5_1 : mp_chmap := ⟨[0, 1, 2, 3, 4, 5]⟩
/-- The layout "5.1(side)": fl-fr-fc-lfe-sl-sr. -/
def chmap_5_1_side : mp_chmap := ⟨[0, 1, 2, 3, 9, 10]⟩
/-- The layout "7.1": fl-fr-fc-lfe-bl-br-sl-sr. -/
def chmap_7_1 : mp_chmap := ⟨[0, 1, 2, 3, 4, 5, 9, 10]⟩
/-- The layout "7.1" with its first two channels exchanged (tests/all.c
lines 139-142). -/
def chmap_7_1_swapped : mp_chmap := ⟨[1, 0, 2, 3, 4, 5, 9, 10]⟩
/-- The layout "5.0": fl-fr-fc-bl-br. -/
def chmap_5_0 : mp_chmap := ⟨[0, 1, 2, 4, 5]⟩
/-- The map of two placeholder speakers (tests/all.c lines 123-125). -/
def chmap_unknown2 : mp_chmap := ⟨[64, 65]⟩

/-- The update of one (cost, map) pair of the fallback loop. -/
def best_step (cand : mp_chmap → Bool) (cost : mp_chmap → Nat) (acc : Nat × mp_chmap)
    (e : mp_chmap) : Nat × mp_chmap :=
  if cand e && decide (acc.1 > cost e) then (cost e, e) else acc

/-- The candidate test and cost of the up-mix search. -/
def upmix_fold (E : chmap_env) (s : mp_chmap_sel) (map : mp_chmap) : Nat × mp_chmap :=
  s.chmaps.foldl (best_step (fun e => E.mp_chmap_contains e map)
    (fun e => (E.mp_chmap_diff e map).num)) (INT_MAX, mp_chmap_empty)

/-- The candidate test and cost of the down-mix search. -/
def downmix_fold (E : chmap_env) (s : mp_chmap_sel) (map : mp_chmap) : Nat × mp_chmap :=
  s.chmaps.foldl (best_step (fun e => E.mp_chmap_contains map e)
    (fun e => (E.mp_chmap_diff map e).num)) (INT_MAX, mp_chmap_empty)

/-- The invariant of the criteria set: every stored map is a valid layout. -/
def chmaps_all_valid (E : chmap_env) (s : mp_chmap_sel) : Prop :=
  ∀ e ∈ s.chmaps, E.mp_chmap_is_valid e = true

/-- The inline storage of the instance filled with 20 copies of stereo, no
allocation context attached. -/
def sel_full_storage : mp_chmap_sel :=
  ⟨false, false, List.replicate 72 false, List.replicate 20 chmap_stereo, false⟩

/-- The outcome of a run of `mp_chmap_sel_adjust` in which every read of
`s->speakers[]` is checked against the size of the array. -/
inductive checked (α : Type) where
  | out_of_range
  | assert_failed
  | done (a : α)
deriving DecidableEq, Repr

/-- The read `s->speakers[sp]` (chmap_sel.c line 123). The array has
`MP_SPEAKER_ID_COUNT` entries; `none` is a read outside of it. -/
def speakers_read (E : chmap_env) (s : mp_chmap_sel) (sp : Nat) : Option Bool :=
  if sp < E.MP_SPEAKER_ID_COUNT then some (s.speakers.getD sp false) else none

/-- The loop of `test_speakers` over the speakers of the map, with checked
reads: it stops at the first speaker that is not whitelisted. -/
def test_speakers_checked (E : chmap_env) (s : mp_chmap_sel) : List Nat → Option Bool
  | [] => some true
  | sp :: rest =>
    match speakers_read E s sp with
    | none => none
    | some false => some false
    | some true => test_speakers_checked E s rest

/-- The function `test_layout` with checked reads: `test_speakers` is reached
only after the validity check, `allow_any` and `test_waveext` have been
passed. -/
def test_layout_checked (E : chmap_env) (s : mp_chmap_sel) (map : mp_chmap) :
    Option (Bool × mp_chmap) :=
  if E.mp_chmap_is_valid map = false then some (false, map)
  else if s.allow_any then some (true, map)
  else
    let w := test_waveext E s map
    if w.1 then some w
    else
      match test_speakers_checked E s w.2.speaker with
      | none => none
      | some true => some (true, w.2)
      | some false => some (test_maps E s w.2)

/-- The function `mp_chmap_sel_get_def` with checked reads. -/
def mp_chmap_sel_get_def_checked (E : chmap_env) (s : mp_chmap_sel) (map : mp_chmap)
    (num : Int) : Option (Bool × mp_chmap) :=
  if (map.num : Int) ≠ num then
    let t := E.mp_chmap_reorder_to_waveext (E.mp_chmap_from_channels num)
    match test_layout_checked E s t with
    | none => none
    | some r =>
      let map1 :=
        if r.1 then r.2
        else
          match s.chmaps.find? (fun e => decide ((e.num : Int) = num)) with
          | some e => e
          | none => mp_chmap_empty
      some (decide (map1.num > 0), map1)
  else some (decide (map.num > 0), map)

/-- The loop over `speaker_replacements` with checked reads; `test_layout` is
called only on a map that `replace_speakers` returned true for. -/
def adjust_replacements_checked (E : chmap_env) (s : mp_chmap_sel) (map : mp_chmap) :
    List (mp_chmap × mp_chmap) → checked (Option mp_chmap)
  | [] => .done none
  | r :: rest =>
    match replace_speakers E map r with
    | none => .assert_failed
    | some (false, _) => adjust_replacements_checked E s map rest
    | some (true, t) =>
      match test_layout_checked E s t with
      | none => .out_of_range
      | some (true, t1) => .done (some t1)
      | some (false, _) => adjust_replacements_checked E s map rest

/-- The last resort of `mp_chmap_sel_adjust` with checked reads. -/
def adjust_last_resort_checked (E : chmap_env) (s : mp_chmap_sel) : Option (Bool × mp_chmap) :=
  match test_layout_checked E s (MP_CHMAP_INIT_STEREO E) with
  | none => none
  | some (true, t) => some (true, t)
  | some (false, _) =>
    match test_layout_checked E s (MP_CHMAP_INIT_MONO E) with
    | none => none
    | some (true, t) => some (true, t)
    | some (false, _) => some (false, mp_chmap_empty)

/-- The unknown-layout step of `mp_chmap_sel_adjust` (lines 172-178) with
checked reads: the accepted default, if there is one. -/
def adjust_unknown_checked (E : chmap_env) (s : mp_chmap_sel) (map : mp_chmap) :
    Option (Option mp_chmap) :=
  if E.mp_chmap_is_unknown map then
    match mp_chmap_sel_get_def_checked E s mp_chmap_empty (map.num : Int) with
    | none => none
    | some (false, _) => some none
    | some (true, t) =>
      match test_layout_checked E s t with
      | none => none
      | some (true, t1) => some (some t1)
      | some (false, _) => some none
  else some none

/-- The function `mp_chmap_sel_adjust` with checked reads. -/
def mp_chmap_sel_adjust_checked (E : chmap_env) (s : mp_chmap_sel) (map0 : mp_chmap) :
    checked (Bool × mp_chmap) :=
  match test_layout_checked E s map0 with
  | none => .out_of_range
  | some (true, t) => .done (true, t)
  | some (false, map) =>
    match adjust_unknown_checked E s map with
    | none => .out_of_range
    | some (some t) => .done (true, t)
    | some none =>
      match adjust_replacements_checked E s map (speaker_replacements E) with
      | .out_of_range => .out_of_range
      | .assert_failed => .assert_failed
      | .done (some t) => .done (true, t)
      | .done none =>
        let f := mp_chmap_sel_fallback E s map
        if f.1 then .done (true, f.2)
        else
          match adjust_last_resort_checked E s with
          | none => .out_of_range
          | some r => .done r

/-- The image of a result of `mp_chmap_sel_adjust` among the checked
outcomes. -/
def checked_of (r : Option (Bool × mp_chmap)) : checked (Bool × mp_chmap) :=
  match r with
  | none => .assert_failed
  | some p => .done p

/-- Modelled from the spec: the missing function mp_chmap_contains of
audio/chmap.c as section 8 and tests/all.c pin it down where section 6 leaves
the order of the channels open. Only layouts in native order made of standard
speakers take part in a containment (section 8: "a whitelisted map built from
unknown/placeholder speaker identifiers never participates", "a permutation
of a standard layout must not satisfy the containment test"; tests/all.c lines
118-149, "reject_unknown" and "reject_non_lavc_chmaps"); between such layouts
containment is that of section 6. -/
def lavc_contains (a b : mp_chmap) : Bool :=
  env0_is_waveext a && env0_is_waveext b && spec_contains a b

/-- The instance `env0` with the containment test that depends on the channel
order. It meets every assertion of tests/all.c. -/
def env1 : chmap_env :=
  { env0 with mp_chmap_contains := lavc_contains }

/-- The layout "6.1(back)": fl-fr-fc-lfe-bl-br-bc. -/
def chmap_6_1_back : mp_chmap := ⟨[0, 1, 2, 3, 4, 5, 8]⟩
/-- The layout "7.1(rear)": fl-fr-fc-lfe-bl-br-sdl-sdr. -/
def chmap_7_1_rear : mp_chmap := ⟨[0, 1, 2, 3, 4, 5, 33, 34]⟩

/-! ## Lemmas on the fallback loop -/

theorem fallback_fold_upmix (E : chmap_env) (map : mp_chmap) (l : List mp_chmap) (st : fallback_state) :
    ((l.foldl (fallback_step E map) st).best_upmix_diff, (l.foldl (fallback_step E map) st).best_upmix)
      = l.foldl (best_step (fun e => E.mp_chmap_contains e map) (fun e => (E.mp_chmap_diff e map).num))
          (st.best_upmix_diff, st.best_upmix) := by
  induction l generalizing st with
  | nil => rfl
  | cons e l ih =>
    simp only [List.foldl_cons]
    rw [ih]
    congr 1
    unfold fallback_step best_step
    dsimp only
    split_ifs <;> rfl

theorem fallback_fold_downmix (E : chmap_env) (map : mp_chmap) (l : List mp_chmap) (st : fallback_state) :
    ((l.foldl (fallback_step E map) st).best_downmix_diff, (l.foldl (fallback_step E map) st).best_downmix)
      = l.foldl (best_step (fun e => E.mp_chmap_contains map e) (fun e => (E.mp_chmap_diff map e).num))
          (st.best_downmix_diff, st.best_downmix) := by
  induction l generalizing st with
  | nil => rfl
  | cons e l ih =>
    simp only [List.foldl_cons]
    rw [ih]
    congr 1
    unfold fallback_step best_step
    dsimp only
    split_ifs <;> rfl

theorem best_fold_none (cand : mp_chmap → Bool) (cost : mp_chmap → Nat) (acc : Nat × mp_chmap)
    (l : List mp_chmap) (h : ∀ x ∈ l, cand x = false) :
    l.foldl (best_step cand cost) acc = acc := by
  induction l generalizing acc with
  | nil => rfl
  | cons e l ih =>
    simp only [List.foldl_cons]
    have he : cand e = false := h e (List.mem_cons_self _ _)
    have : best_step cand cost acc e = acc := by simp [best_step, he]
    rw [this]
    exact ih acc (fun x hx => h x (List.mem_cons_of_mem _ hx))

/-- The fold of `best_step` from a cost above every candidate's cost ends at
the first candidate of least cost. -/
theorem best_fold_first_min (cand : mp_chmap → Bool) (cost : mp_chmap → Nat) (B : Nat)
    (d : mp_chmap) (l : List mp_chmap)
    (hB : ∀ x ∈ l, cand x = true → cost x < B) (hex : ∃ x ∈ l, cand x = true) :
    ∃ pre out post, l = pre ++ out :: post ∧
      l.foldl (best_step cand cost) (B, d) = (cost out, out) ∧ cand out = true ∧
      (∀ x ∈ pre, cand x = true → cost out < cost x) ∧
      (∀ x ∈ post, cand x = true → cost out ≤ cost x) := by
  induction l using List.reverseRecOn with
  | nil => obtain ⟨x, hx, _⟩ := hex; simp at hx
  | append_singleton l e ih =>
    rw [List.foldl_append]
    simp only [List.foldl_cons, List.foldl_nil]
    have hB1 : ∀ x ∈ l, cand x = true → cost x < B :=
      fun x hx hc => hB x (List.mem_append_left _ hx) hc
    by_cases hl : ∃ x ∈ l, cand x = true
    · obtain ⟨pre, out, post, hsplit, hfold, hc, hpre, hpost⟩ := ih hB1 hl
      rw [hfold]
      by_cases hstep : cand e = true ∧ cost out > cost e
      · refine ⟨l, e, [], rfl, ?_, hstep.1, ?_, ?_⟩
        · simp [best_step, hstep.1, hstep.2]
        · intro x hx hcx
          rw [hsplit] at hx
          rcases List.mem_append.1 hx with h1 | h1
          · exact lt_trans hstep.2 (hpre x h1 hcx)
          · rcases List.mem_cons.1 h1 with h2 | h2
            · rw [h2]; exact hstep.2
            · exact lt_of_lt_of_le hstep.2 (hpost x h2 hcx)
        · intro x hx; simp at hx
      · refine ⟨pre, out, post ++ [e], ?_, ?_, hc, hpre, ?_⟩
        · rw [hsplit]; simp
        · have : (cand e && decide (cost out > cost e)) = false := by
            by_cases hce : cand e = true
            · have : ¬ cost out > cost e := fun h => hstep ⟨hce, h⟩
              simp [this]
            · simp [hce]
          simp [best_step, this]
        · intro x hx hcx
          rcases List.mem_append.1 hx with h1 | h1
          · exact hpost x h1 hcx
          · have hxe : x = e := by simpa using h1
            subst hxe
            by_contra hlt
            exact hstep ⟨hcx, not_le.1 hlt⟩
    · have hnone : ∀ x ∈ l, cand x = false := by
        intro x hx
        by_contra hcx
        exact hl ⟨x, hx, by simpa using hcx⟩
      rw [best_fold_none cand cost (B, d) l hnone]
      obtain ⟨x, hx, hcx⟩ := hex
      have hce : cand e = true := by
        rcases List.mem_append.1 hx with h1 | h1
        · rw [hnone x h1] at hcx; exact absurd hcx (by simp)
        · have hxe : x = e := by simpa using h1
          rw [← hxe]; exact hcx
      have hlt : cost e < B := hB e (by simp) hce
      refine ⟨l, e, [], rfl, ?_, hce, ?_, ?_⟩
      · simp [best_step, hce, hlt]
      · intro y hy hcy; rw [hnone y hy] at hcy; exact absurd hcy (by simp)
      · intro y hy; simp at hy

/-- The fold of `best_step` either keeps its start or ends at a candidate of
the list, with that candidate's cost. -/
theorem best_fold_mem (cand : mp_chmap → Bool) (cost : mp_chmap → Nat) (acc : Nat × mp_chmap)
    (l : List mp_chmap) :
    l.foldl (best_step cand cost) acc = acc ∨
      ∃ out ∈ l, l.foldl (best_step cand cost) acc = (cost out, out) ∧ cand out = true ∧
        cost out < acc.1 := by
  induction l generalizing acc with
  | nil => exact Or.inl rfl
  | cons e l ih =>
    simp only [List.foldl_cons]
    by_cases hstep : cand e = true ∧ acc.1 > cost e
    · have h1 : best_step cand cost acc e = (cost e, e) := by
        simp [best_step, hstep.1, hstep.2]
      rw [h1]
      rcases ih (cost e, e) with h | ⟨out, hout, hf, hc, hlt⟩
      · exact Or.inr ⟨e, List.mem_cons_self _ _, h, hstep.1, hstep.2⟩
      · exact Or.inr ⟨out, List.mem_cons_of_mem _ hout, hf, hc, lt_trans hlt hstep.2⟩
    · have h1 : best_step cand cost acc e = acc := by
        have : (cand e && decide (acc.1 > cost e)) = false := by
          by_cases hce : cand e = true
          · have : ¬ acc.1 > cost e := fun h => hstep ⟨hce, h⟩
            simp [this]
          · simp [hce]
        simp [best_step, this]
      rw [h1]
      rcases ih acc with h | ⟨out, hout, hf, hc, hlt⟩
      · exact Or.inl h
      · exact Or.inr ⟨out, List.mem_cons_of_mem _ hout, hf, hc, hlt⟩

theorem mp_chmap_sel_fallback_eq (E : chmap_env) (s : mp_chmap_sel) (map : mp_chmap) :
    mp_chmap_sel_fallback E s map =
      if (upmix_fold E s map).1 < INT_MAX then (true, (upmix_fold E s map).2)
      else if (downmix_fold E s map).1 < INT_MAX then (true, (downmix_fold E s map).2)
      else (false, map) := by
  have hu : upmix_fold E s map =
      ((s.chmaps.foldl (fallback_step E map) fallback_init).best_upmix_diff,
       (s.chmaps.foldl (fallback_step E map) fallback_init).best_upmix) :=
    (fallback_fold_upmix E map s.chmaps fallback_init).symm
  have hd : downmix_fold E s map =
      ((s.chmaps.foldl (fallback_step E map) fallback_init).best_downmix_diff,
       (s.chmaps.foldl (fallback_step E map) fallback_init).best_downmix) :=
    (fallback_fold_downmix E map s.chmaps fallback_init).symm
  rw [hu, hd]
  rfl

theorem uint8_lt_int_max (n : Nat) (h : n ≤ UINT8_MAX) : n < INT_MAX := by
  unfold UINT8_MAX at h
  unfold INT_MAX
  omega

/-- With an up-mix candidate stored, the search returns the first candidate of
least cost. -/
theorem fallback_upmix_first_min (E : chmap_env) (s : mp_chmap_sel) (map : mp_chmap)
    (hfit : ∀ e ∈ s.chmaps, (E.mp_chmap_diff e map).num ≤ UINT8_MAX)
    (hex : ∃ e ∈ s.chmaps, E.mp_chmap_contains e map = true) :
    ∃ pre out post, s.chmaps = pre ++ out :: post ∧
      mp_chmap_sel_fallback E s map = (true, out) ∧ E.mp_chmap_contains out map = true ∧
      (∀ x ∈ pre, E.mp_chmap_contains x map = true →
        (E.mp_chmap_diff out map).num < (E.mp_chmap_diff x map).num) ∧
      (∀ x ∈ post, E.mp_chmap_contains x map = true →
        (E.mp_chmap_diff out map).num ≤ (E.mp_chmap_diff x map).num) := by
  have hB : ∀ x ∈ s.chmaps, (fun e => E.mp_chmap_contains e map) x = true →
      (fun e => (E.mp_chmap_diff e map).num) x < INT_MAX := by
    intro x hx _
    exact uint8_lt_int_max _ (hfit x hx)
  obtain ⟨pre, out, post, hsplit, hfold, hc, hpre, hpost⟩ :=
    best_fold_first_min _ _ INT_MAX mp_chmap_empty s.chmaps hB hex
  refine ⟨pre, out, post, hsplit, ?_, hc, hpre, hpost⟩
  have hout : out ∈ s.chmaps := by rw [hsplit]; simp
  have hlt : (E.mp_chmap_diff out map).num < INT_MAX := hB out hout hc
  rw [mp_chmap_sel_fallback_eq]
  have hu : upmix_fold E s map = ((E.mp_chmap_diff out map).num, out) := hfold
  rw [hu]
  simp [hlt]

/-- Without an up-mix candidate but with a down-mix candidate stored, the
search returns the first down-mix candidate of least cost. -/
theorem fallback_downmix_first_min (E : chmap_env) (s : mp_chmap_sel) (map : mp_chmap)
    (hfit : ∀ e ∈ s.chmaps, (E.mp_chmap_diff map e).num ≤ UINT8_MAX)
    (hno : ∀ e ∈ s.chmaps, E.mp_chmap_contains e map = false)
    (hex : ∃ e ∈ s.chmaps, E.mp_chmap_contains map e = true) :
    ∃ pre out post, s.chmaps = pre ++ out :: post ∧
      mp_chmap_sel_fallback E s map = (true, out) ∧ E.mp_chmap_contains map out = true ∧
      (∀ x ∈ pre, E.mp_chmap_contains map x = true →
        (E.mp_chmap_diff map out).num < (E.mp_chmap_diff map x).num) ∧
      (∀ x ∈ post, E.mp_chmap_contains map x = true →
        (E.mp_chmap_diff map out).num ≤ (E.mp_chmap_diff map x).num) := by
  have hB : ∀ x ∈ s.chmaps, (fun e => E.mp_chmap_contains map e) x = true →
      (fun e => (E.mp_chmap_diff map e).num) x < INT_MAX := by
    intro x hx _
    exact uint8_lt_int_max _ (hfit x hx)
  obtain ⟨pre, out, post, hsplit, hfold, hc, hpre, hpost⟩ :=
    best_fold_first_min _ _ INT_MAX mp_chmap_empty s.chmaps hB hex
  refine ⟨pre, out, post, hsplit, ?_, hc, hpre, hpost⟩
  have hout : out ∈ s.chmaps := by rw [hsplit]; simp
  have hlt : (E.mp_chmap_diff map out).num < INT_MAX := hB out hout hc
  rw [mp_chmap_sel_fallback_eq]
  have hu : upmix_fold E s map = (INT_MAX, mp_chmap_empty) :=
    best_fold_none _ _ _ s.chmaps hno
  have hd : downmix_fold E s map = ((E.mp_chmap_diff map out).num, out) := hfold
  rw [hu, hd]
  simp [hlt]

/-- Without any candidate the search fails and leaves the map. -/
theorem fallback_no_candidate (E : chmap_env) (s : mp_chmap_sel) (map : mp_chmap)
    (hup : ∀ e ∈ s.chmaps, E.mp_chmap_contains e map = false)
    (hdown : ∀ e ∈ s.chmaps, E.mp_chmap_contains map e = false) :
    mp_chmap_sel_fallback E s map = (false, map) := by
  rw [mp_chmap_sel_fallback_eq]
  have hu : upmix_fold E s map = (INT_MAX, mp_chmap_empty) :=
    best_fold_none _ _ _ s.chmaps hup
  have hd : downmix_fold E s map = (INT_MAX, mp_chmap_empty) :=
    best_fold_none _ _ _ s.chmaps hdown
  rw [hu, hd]
  simp

/-- The outcome of the search: failure leaves the map, success yields a
stored map. -/
theorem fallback_result (E : chmap_env) (s : mp_chmap_sel) (map : mp_chmap) :
    mp_chmap_sel_fallback E s map = (false, map) ∨
      ∃ out ∈ s.chmaps, mp_chmap_sel_fallback E s map = (true, out) := by
  rw [mp_chmap_sel_fallback_eq]
  by_cases h1 : (upmix_fold E s map).1 < INT_MAX
  · right
    rcases best_fold_mem (fun e => E.mp_chmap_contains e map)
        (fun e => (E.mp_chmap_diff e map).num) (INT_MAX, mp_chmap_empty) s.chmaps with h | h
    · have : upmix_fold E s map = (INT_MAX, mp_chmap_empty) := h
      rw [this] at h1
      exact absurd h1 (lt_irrefl _)
    · obtain ⟨out, hout, hf, _, _⟩ := h
      have : upmix_fold E s map = ((E.mp_chmap_diff out map).num, out) := hf
      refine ⟨out, hout, ?_⟩
      rw [if_pos h1, this]
  · by_cases h2 : (downmix_fold E s map).1 < INT_MAX
    · right
      rcases best_fold_mem (fun e => E.mp_chmap_contains map e)
          (fun e => (E.mp_chmap_diff map e).num) (INT_MAX, mp_chmap_empty) s.chmaps with h | h
      · have : downmix_fold E s map = (INT_MAX, mp_chmap_empty) := h
        rw [this] at h2
        exact absurd h2 (lt_irrefl _)
      · obtain ⟨out, hout, hf, _, _⟩ := h
        have : downmix_fold E s map = ((E.mp_chmap_diff map out).num, out) := hf
        refine ⟨out, hout, ?_⟩
        rw [if_neg h1, if_pos h2, this]
    · left
      rw [if_neg h1, if_neg h2]

/-! ## Lemmas on the acceptance predicate -/

theorem test_waveext_false (E : chmap_env) (s : mp_chmap_sel) (map : mp_chmap)
    (h : (test_waveext E s map).1 = false) : (test_waveext E s map).2 = map := by
  unfold test_waveext at h ⊢
  by_cases h1 : s.allow_waveext = true
  · by_cases h2 : E.mp_chmap_is_waveext (E.mp_chmap_reorder_to_waveext map) = true
    · simp [h1, h2] at h
    · simp [h1, h2]
  · simp [h1]

theorem test_waveext_true (E : chmap_env) (s : mp_chmap_sel) (map : mp_chmap)
    (h : (test_waveext E s map).1 = true) :
    E.mp_chmap_is_waveext (test_waveext E s map).2 = true := by
  unfold test_waveext at h ⊢
  by_cases h1 : s.allow_waveext = true
  · by_cases h2 : E.mp_chmap_is_waveext (E.mp_chmap_reorder_to_waveext map) = true
    · simp [h1, h2]
    · simp [h1, h2] at h
  · simp [h1] at h

theorem test_maps_true (E : chmap_env) (s : mp_chmap_sel) (map : mp_chmap) (h : (test_maps E s map).1 = true) :
    (test_maps E s map).2 ∈ s.chmaps := by
  unfold test_maps at h ⊢
  cases hf : s.chmaps.find? (fun e => E.mp_chmap_equals_reordered e map) with
  | none => rw [hf] at h; simp at h
  | some e => simp only []; exact List.mem_of_find?_eq_some hf

theorem test_maps_false (E : chmap_env) (s : mp_chmap_sel) (map : mp_chmap) (h : (test_maps E s map).1 = false) :
    (test_maps E s map).2 = map := by
  unfold test_maps at h ⊢
  cases hf : s.chmaps.find? (fun e => E.mp_chmap_equals_reordered e map) with
  | none => rfl
  | some e => rw [hf] at h; simp at h

/-- A rejected candidate is left as it was. -/
theorem test_layout_false (E : chmap_env) (s : mp_chmap_sel) (map : mp_chmap)
    (h : (test_layout E s map).1 = false) : (test_layout E s map).2 = map := by
  unfold test_layout at h ⊢
  by_cases h1 : E.mp_chmap_is_valid map = false
  · simp [h1]
  · by_cases h2 : s.allow_any = true
    · simp [h1, h2] at h
    · by_cases h3 : (test_waveext E s map).1 = true
      · simp [h1, h2, h3] at h
      · have h3f : (test_waveext E s map).1 = false := by simpa using h3
        have hw := test_waveext_false E s map h3f
        by_cases h4 : test_speakers s map = true
        · simp [h1, h2, h3f, hw, h4] at h
        · simp only [h1, h2, h3f, hw, h4] at h ⊢
          simp only [if_false, Bool.false_eq_true] at h ⊢
          exact test_maps_false E s map h

/-- An accepted candidate is left as a valid layout, when the native-order
test accepts only valid layouts and the stored maps are valid. -/
theorem test_layout_true_valid (E : chmap_env)
    (hwv : ∀ t, E.mp_chmap_is_waveext t = true → E.mp_chmap_is_valid t = true)
    (s : mp_chmap_sel) (hs : ∀ e ∈ s.chmaps, E.mp_chmap_is_valid e = true) (map : mp_chmap)
    (h : (test_layout E s map).1 = true) : E.mp_chmap_is_valid (test_layout E s map).2 = true := by
  unfold test_layout at h ⊢
  by_cases h1 : E.mp_chmap_is_valid map = false
  · simp [h1] at h
  · have hv : E.mp_chmap_is_valid map = true := by simpa using h1
    by_cases h2 : s.allow_any = true
    · simp [h1, h2, hv]
    · by_cases h3 : (test_waveext E s map).1 = true
      · simp only [h1, h2, h3, if_true, if_false] 
        exact hwv _ (test_waveext_true E s map h3)
      · have h3f : (test_waveext E s map).1 = false := by simpa using h3
        have hw := test_waveext_false E s map h3f
        by_cases h4 : test_speakers s map = true
        · simp [h1, h2, h3f, hw, h4, hv]
        · simp only [h1, h2, h3f, hw, h4] at h ⊢
          simp only [if_false, Bool.false_eq_true] at h ⊢
          exact hs _ (test_maps_true E s map h)


/-! ## The stored maps of a built criteria set are valid -/

theorem add_map_valid (E : chmap_env) (s : mp_chmap_sel) (map : mp_chmap)
    (hs : ∀ e ∈ s.chmaps, E.mp_chmap_is_valid e = true) :
    ∀ e ∈ (mp_chmap_sel_add_map E s map).chmaps, E.mp_chmap_is_valid e = true := by
  unfold mp_chmap_sel_add_map
  by_cases h1 : E.mp_chmap_is_valid map = false
  · simpa [h1] using hs
  · by_cases h2 : s.num_chmaps = E.chmaps_storage_size ∧ s.tmp = false
    · simpa [h1, h2] using hs
    · rw [if_neg h1, if_neg h2]
      intro e he
      rcases List.mem_append.1 he with h | h
      · exact hs e h
      · have : e = map := by simpa using h
        rw [this]; simpa using h1

theorem add_alsa_def_valid (E : chmap_env) (s : mp_chmap_sel)
    (hs : ∀ e ∈ s.chmaps, E.mp_chmap_is_valid e = true) :
    ∀ e ∈ (mp_chmap_sel_add_alsa_def E s).chmaps, E.mp_chmap_is_valid e = true := by
  unfold mp_chmap_sel_add_alsa_def
  generalize List.range E.MP_NUM_CHANNELS = l
  induction l generalizing s with
  | nil => simpa using hs
  | cons n l ih =>
    simp only [List.foldl_cons]
    apply ih
    by_cases h : (E.mp_chmap_from_channels_alsa (Int.ofNat n)).num ≠ 0
    · rw [if_pos h]
      exact add_map_valid E s _ hs
    · rw [if_neg h]
      exact hs

theorem add_waveext_def_valid (E : chmap_env) (s : mp_chmap_sel)
    (hs : ∀ e ∈ s.chmaps, E.mp_chmap_is_valid e = true) :
    ∀ e ∈ (mp_chmap_sel_add_waveext_def E s).chmaps, E.mp_chmap_is_valid e = true := by
  unfold mp_chmap_sel_add_waveext_def
  generalize List.range' 1 (E.MP_NUM_CHANNELS - 1) = l
  induction l generalizing s with
  | nil => simpa using hs
  | cons n l ih =>
    rw [List.foldl_cons]
    apply ih
    exact add_map_valid E s _ hs

theorem sel_apply_valid (E : chmap_env) (s s1 : mp_chmap_sel) (op : sel_op)
    (hs : ∀ e ∈ s.chmaps, E.mp_chmap_is_valid e = true) (h : sel_apply E s op = some s1) :
    ∀ e ∈ s1.chmaps, E.mp_chmap_is_valid e = true := by
  cases op with
  | add_any => simp [sel_apply, mp_chmap_sel_add_any] at h; rw [← h]; exact hs
  | add_waveext => simp [sel_apply, mp_chmap_sel_add_waveext] at h; rw [← h]; exact hs
  | add_alsa_def => simp [sel_apply] at h; rw [← h]; exact add_alsa_def_valid E s hs
  | add_map map => simp [sel_apply] at h; rw [← h]; exact add_map_valid E s map hs
  | add_waveext_def => simp [sel_apply] at h; rw [← h]; exact add_waveext_def_valid E s hs
  | add_speaker id =>
    simp only [sel_apply, mp_chmap_sel_add_speaker] at h
    by_cases hid : 0 ≤ id ∧ id < (E.MP_SPEAKER_ID_COUNT : Int)
    · rw [if_pos hid] at h
      simp at h
      rw [← h]; exact hs
    · rw [if_neg hid] at h; simp at h

theorem sel_apply_all_valid (E : chmap_env) (ops : List sel_op) (s s1 : mp_chmap_sel)
    (hs : ∀ e ∈ s.chmaps, E.mp_chmap_is_valid e = true) (h : sel_apply_all E s ops = some s1) :
    ∀ e ∈ s1.chmaps, E.mp_chmap_is_valid e = true := by
  induction ops generalizing s with
  | nil => simp [sel_apply_all] at h; rw [← h]; exact hs
  | cons op ops ih =>
    simp only [sel_apply_all] at h
    cases hop : sel_apply E s op with
    | none => rw [hop] at h; simp at h
    | some s2 =>
      rw [hop] at h
      exact ih s2 (sel_apply_valid E s s2 op hs hop) h

/-- Every stored map of a criteria set built by the accumulation operations
is a valid layout. -/
theorem sel_build_valid (E : chmap_env) (tmp : Bool) (ops : List sel_op) (s : mp_chmap_sel)
    (h : sel_build E tmp ops = some s) : ∀ e ∈ s.chmaps, E.mp_chmap_is_valid e = true := by
  refine sel_apply_all_valid E ops (mp_chmap_sel_zero E tmp) s ?_ h
  intro e he
  simp [mp_chmap_sel_zero] at he

/-! ## Lemmas on the orchestrator -/

/-- The substitution loop over the table of the source never fails an
assertion, and a map it returns is the result of an acceptance. -/
theorem adjust_replacements_table (E : chmap_env) (s : mp_chmap_sel) (map : mp_chmap) :
    ∃ r, adjust_replacements E s map (speaker_replacements E) = some r ∧
      ∀ t, r = some t → ∃ t0, (test_layout E s t0).1 = true ∧ t = (test_layout E s t0).2 := by
  have key : ∀ rs : List (mp_chmap × mp_chmap), (∀ p ∈ rs, p.1.num = p.2.num) →
      ∃ r, adjust_replacements E s map rs = some r ∧
        ∀ t, r = some t → ∃ t0, (test_layout E s t0).1 = true ∧ t = (test_layout E s t0).2 := by
    intro rs
    induction rs with
    | nil => intro _; exact ⟨none, rfl, by simp⟩
    | cons p rs ih =>
      intro hp
      have hlen : p.1.num = p.2.num := hp p (List.mem_cons_self _ _)
      obtain ⟨r, hr, hrt⟩ := ih (fun q hq => hp q (List.mem_cons_of_mem _ hq))
      have hsome : ∃ b t, replace_speakers E map p = some (b, t) := by
        unfold replace_speakers
        rw [if_neg (by simpa using hlen)]
        by_cases h1 : E.mp_chmap_is_valid map = false
        · exact ⟨_, _, by rw [if_pos h1]⟩
        · rw [if_neg h1]
          by_cases h2 : ((replace_dir p.2 p.1 map).1 &&
              E.mp_chmap_is_valid (replace_dir p.2 p.1 map).2) = true
          · exact ⟨_, _, by rw [if_pos h2]⟩
          · by_cases h3 : ((replace_dir p.1 p.2 map).1 &&
                E.mp_chmap_is_valid (replace_dir p.1 p.2 map).2) = true
            · exact ⟨_, _, by rw [if_neg h2, if_pos h3]⟩
            · exact ⟨_, _, by rw [if_neg h2, if_neg h3]⟩
      obtain ⟨b, t, hbt⟩ := hsome
      simp only [adjust_replacements, hbt]
      by_cases hacc : (b && (test_layout E s t).1) = true
      · rw [if_pos hacc]
        refine ⟨_, rfl, ?_⟩
        intro t1 ht1
        have : (test_layout E s t).2 = t1 := by simpa using ht1
        refine ⟨t, ?_, this.symm⟩
        simp at hacc
        exact hacc.2
      · rw [if_neg hacc]
        exact ⟨r, hr, hrt⟩
  apply key
  intro p hp
  simp [speaker_replacements] at hp
  rcases hp with h | h <;> rw [h] <;> rfl

/-- The outcome of `mp_chmap_sel_adjust`: it returns, and a failure leaves the
empty map while a success leaves either the result of an acceptance or a
stored map. -/
theorem adjust_outcome (E : chmap_env) (s : mp_chmap_sel) (map : mp_chmap) :
    mp_chmap_sel_adjust E s map = some (false, mp_chmap_empty) ∨
      (∃ t0, (test_layout E s t0).1 = true ∧
        mp_chmap_sel_adjust E s map = some (true, (test_layout E s t0).2)) ∨
      (∃ out ∈ s.chmaps, mp_chmap_sel_adjust E s map = some (true, out)) := by
  unfold mp_chmap_sel_adjust
  by_cases h0 : (test_layout E s map).1 = true
  · right; left
    exact ⟨map, h0, by simp only [h0, if_true]⟩
  · have h0f : (test_layout E s map).1 = false := by simpa using h0
    have hmap := test_layout_false E s map h0f
    simp only [h0f, hmap, Bool.false_eq_true, if_false]
    by_cases h1 : (E.mp_chmap_is_unknown map &&
        (mp_chmap_sel_get_def E s mp_chmap_empty (map.num : Int)).1 &&
        (test_layout E s (mp_chmap_sel_get_def E s mp_chmap_empty (map.num : Int)).2).1) = true
    · right; left
      refine ⟨(mp_chmap_sel_get_def E s mp_chmap_empty (map.num : Int)).2, ?_, ?_⟩
      · simp at h1; exact h1.2
      · rw [if_pos h1]
    · rw [if_neg h1]
      obtain ⟨r, hr, hrt⟩ := adjust_replacements_table E s map
      rw [hr]
      cases r with
      | some t =>
        right; left
        obtain ⟨t0, ht0, ht⟩ := hrt t rfl
        exact ⟨t0, ht0, by simp only [ht]⟩
      | none =>
        simp only []
        rcases fallback_result E s map with hf | ⟨out, hout, hf⟩
        · rw [hf]
          simp only [Bool.false_eq_true, if_false]
          unfold adjust_last_resort
          by_cases h2 : (test_layout E s (MP_CHMAP_INIT_STEREO E)).1 = true
          · right; left
            exact ⟨_, h2, by rw [if_pos h2]⟩
          · by_cases h3 : (test_layout E s (MP_CHMAP_INIT_MONO E)).1 = true
            · right; left
              exact ⟨_, h3, by rw [if_neg h2, if_pos h3]⟩
            · left
              rw [if_neg h2, if_neg h3]
        · right; right
          exact ⟨out, hout, by rw [hf]; simp⟩

/-! ## The instance meets the hypotheses used below -/

theorem env0_waveext_valid :
    ∀ t, env0.mp_chmap_is_waveext t = true → env0.mp_chmap_is_valid t = true := by
  intro t h
  have h1 : (spec_is_valid 8 72 t && increasing t.speaker &&
      t.speaker.all (fun sp => decide (sp < 64))) = true := h
  have h2 : spec_is_valid 8 72 t = true := by
    simp only [Bool.and_eq_true] at h1
    exact h1.1.1
  exact h2

theorem env0_empty_not_valid : env0.mp_chmap_is_valid mp_chmap_empty = false := by
  decide

/-! ## Claims -/

/-- C1: for a criteria set built from the zero-initialised one by the
accumulation operations and any input map, `mp_chmap_sel_adjust` returns, and
it ends in one of two states: result true with a valid output map, or result
false with the empty output map (`num = 0`); so the result is true exactly when
the output is valid. The native-order test of the absent chmap.c is assumed to
accept only valid layouts and the validity test to reject the empty map. -/
theorem adjust_result_agrees_with_validity (E : chmap_env)
    (hwv : ∀ t, E.mp_chmap_is_waveext t = true → E.mp_chmap_is_valid t = true)
    (hempty : E.mp_chmap_is_valid mp_chmap_empty = false)
    (tmp : Bool) (ops : List sel_op) (s : mp_chmap_sel)
    (hb : sel_build E tmp ops = some s) (map : mp_chmap) :
    ∃ r out, mp_chmap_sel_adjust E s map = some (r, out) ∧
      ((r = true ∧ E.mp_chmap_is_valid out = true) ∨
        (r = false ∧ out = mp_chmap_empty ∧ out.num = 0)) ∧
      (r = true ↔ E.mp_chmap_is_valid out = true) := by
  have hs := sel_build_valid E tmp ops s hb
  rcases adjust_outcome E s map with h | ⟨t0, ht0, h⟩ | ⟨out, hout, h⟩
  · refine ⟨false, mp_chmap_empty, h, Or.inr ⟨rfl, rfl, rfl⟩, ?_⟩
    rw [hempty]
  · have hv := test_layout_true_valid E hwv s hs t0 ht0
    exact ⟨true, _, h, Or.inl ⟨rfl, hv⟩, by simp [hv]⟩
  · have hv := hs out hout
    exact ⟨true, out, h, Or.inl ⟨rfl, hv⟩, by simp [hv]⟩

/-- Witness of C1: the criteria built by adding the map 7.1 and the speaker 3
to the zero-initialised set, and the input 5.1. -/
theorem adjust_result_agrees_with_validity_witness :
    sel_build env0 false [sel_op.add_map chmap_7_1, sel_op.add_speaker 3] =
        some ⟨false, false, (List.replicate 72 false).set 3 true, [chmap_7_1], false⟩ ∧
      ∃ r out, mp_chmap_sel_adjust env0
          ⟨false, false, (List.replicate 72 false).set 3 true, [chmap_7_1], false⟩ chmap_5_1
            = some (r, out) ∧
        ((r = true ∧ env0.mp_chmap_is_valid out = true) ∨
          (r = false ∧ out = mp_chmap_empty ∧ out.num = 0)) ∧
        (r = true ↔ env0.mp_chmap_is_valid out = true) :=
  ⟨by decide,
   adjust_result_agrees_with_validity env0 env0_waveext_valid env0_empty_not_valid false
     [sel_op.add_map chmap_7_1, sel_op.add_speaker 3] _ (by decide) chmap_5_1⟩

/-- C2: whenever some stored map contains every speaker of the requested map,
`mp_chmap_sel_fallback` returns true and its output is a stored map that
contains every speaker of the requested map, whatever down-mix candidates are
stored. The costs `diff.num` are values of a `uint8_t` field. -/
theorem fallback_prefers_upmix (E : chmap_env) (s : mp_chmap_sel) (map : mp_chmap)
    (hfit : ∀ e ∈ s.chmaps, (E.mp_chmap_diff e map).num ≤ UINT8_MAX)
    (hex : ∃ e ∈ s.chmaps, E.mp_chmap_contains e map = true) :
    (mp_chmap_sel_fallback E s map).1 = true ∧
      (mp_chmap_sel_fallback E s map).2 ∈ s.chmaps ∧
      E.mp_chmap_contains (mp_chmap_sel_fallback E s map).2 map = true := by
  obtain ⟨pre, out, post, hsplit, hf, hc, _, _⟩ := fallback_upmix_first_min E s map hfit hex
  rw [hf]
  refine ⟨rfl, ?_, hc⟩
  rw [hsplit]
  simp

/-- Witness of C2: with 5.0 and 7.1 stored and 5.1 requested, the down-mix 5.0
would drop one speaker and the up-mix 7.1 adds two; the result is 7.1. -/
theorem fallback_prefers_upmix_witness :
    (env0.mp_chmap_contains chmap_5_1 chmap_5_0 = true ∧
      (env0.mp_chmap_diff chmap_5_1 chmap_5_0).num = 1 ∧
      (env0.mp_chmap_diff chmap_7_1 chmap_5_1).num = 2 ∧
      mp_chmap_sel_fallback env0 ⟨false, false, [], [chmap_5_0, chmap_7_1], false⟩ chmap_5_1
        = (true, chmap_7_1)) ∧
    ((mp_chmap_sel_fallback env0 ⟨false, false, [], [chmap_5_0, chmap_7_1], false⟩ chmap_5_1).1
        = true ∧
      (mp_chmap_sel_fallback env0 ⟨false, false, [], [chmap_5_0, chmap_7_1], false⟩ chmap_5_1).2
        ∈ [chmap_5_0, chmap_7_1] ∧
      env0.mp_chmap_contains
        (mp_chmap_sel_fallback env0 ⟨false, false, [], [chmap_5_0, chmap_7_1], false⟩
          chmap_5_1).2 chmap_5_1 = true) :=
  ⟨by decide,
   fallback_prefers_upmix env0 ⟨false, false, [], [chmap_5_0, chmap_7_1], false⟩ chmap_5_1
     (by decide) ⟨chmap_7_1, by decide, by decide⟩⟩

/-- C3: whenever some stored map contains every speaker of the requested map,
the map returned by `mp_chmap_sel_fallback` is the stored up-mix candidate of
least `diff(e, requested).num`, and the first inserted among those: the stored
list splits as `pre ++ out :: post` where every candidate in `pre` costs
strictly more than `out` and every candidate in `post` at least as much. -/
theorem fallback_closest_upmix (E : chmap_env) (s : mp_chmap_sel) (map : mp_chmap)
    (hfit : ∀ e ∈ s.chmaps, (E.mp_chmap_diff e map).num ≤ UINT8_MAX)
    (hex : ∃ e ∈ s.chmaps, E.mp_chmap_contains e map = true) :
    ∃ pre out post, s.chmaps = pre ++ out :: post ∧
      mp_chmap_sel_fallback E s map = (true, out) ∧ E.mp_chmap_contains out map = true ∧
      (∀ x ∈ pre, E.mp_chmap_contains x map = true →
        (E.mp_chmap_diff out map).num < (E.mp_chmap_diff x map).num) ∧
      (∀ x ∈ post, E.mp_chmap_contains x map = true →
        (E.mp_chmap_diff out map).num ≤ (E.mp_chmap_diff x map).num) :=
  fallback_upmix_first_min E s map hfit hex

/-- Witness of C3 (tests/all.c lines 89-103): stored 7.1, 5.1, 2.1, stereo,
mono, requested 3.1, result 5.1. -/
theorem fallback_closest_upmix_witness :
    mp_chmap_sel_fallback env0
        ⟨false, false, [], [chmap_7_1, chmap_5_1, chmap_2_1, chmap_stereo, chmap_mono], false⟩
        chmap_3_1 = (true, chmap_5_1) ∧
    ∃ pre out post,
      [chmap_7_1, chmap_5_1, chmap_2_1, chmap_stereo, chmap_mono] = pre ++ out :: post ∧
      mp_chmap_sel_fallback env0
        ⟨false, false, [], [chmap_7_1, chmap_5_1, chmap_2_1, chmap_stereo, chmap_mono], false⟩
        chmap_3_1 = (true, out) ∧ env0.mp_chmap_contains out chmap_3_1 = true ∧
      (∀ x ∈ pre, env0.mp_chmap_contains x chmap_3_1 = true →
        (env0.mp_chmap_diff out chmap_3_1).num < (env0.mp_chmap_diff x chmap_3_1).num) ∧
      (∀ x ∈ post, env0.mp_chmap_contains x chmap_3_1 = true →
        (env0.mp_chmap_diff out chmap_3_1).num ≤ (env0.mp_chmap_diff x chmap_3_1).num) :=
  ⟨by decide,
   fallback_closest_upmix env0
     ⟨false, false, [], [chmap_7_1, chmap_5_1, chmap_2_1, chmap_stereo, chmap_mono], false⟩
     chmap_3_1 (by decide) ⟨chmap_7_1, by decide, by decide⟩⟩

/-- C4: when no stored map contains every speaker of the requested map but
some stored map is contained in it, `mp_chmap_sel_fallback` returns true with
the stored down-mix candidate of least `diff(requested, e).num`, the first
inserted among those. -/
theorem fallback_closest_downmix (E : chmap_env) (s : mp_chmap_sel) (map : mp_chmap)
    (hfit : ∀ e ∈ s.chmaps, (E.mp_chmap_diff map e).num ≤ UINT8_MAX)
    (hno : ∀ e ∈ s.chmaps, E.mp_chmap_contains e map = false)
    (hex : ∃ e ∈ s.chmaps, E.mp_chmap_contains map e = true) :
    ∃ pre out post, s.chmaps = pre ++ out :: post ∧
      mp_chmap_sel_fallback E s map = (true, out) ∧ E.mp_chmap_contains map out = true ∧
      (∀ x ∈ pre, E.mp_chmap_contains map x = true →
        (E.mp_chmap_diff map out).num < (E.mp_chmap_diff map x).num) ∧
      (∀ x ∈ post, E.mp_chmap_contains map x = true →
        (E.mp_chmap_diff map out).num ≤ (E.mp_chmap_diff map x).num) :=
  fallback_downmix_first_min E s map hfit hno hex

/-- Witness of C4 (tests/all.c lines 64-75): stored 5.1, requested 7.1, result
5.1. -/
theorem fallback_closest_downmix_witness :
    mp_chmap_sel_fallback env0 ⟨false, false, [], [chmap_5_1], false⟩ chmap_7_1
        = (true, chmap_5_1) ∧
    ∃ pre out post, [chmap_5_1] = pre ++ out :: post ∧
      mp_chmap_sel_fallback env0 ⟨false, false, [], [chmap_5_1], false⟩ chmap_7_1
        = (true, out) ∧ env0.mp_chmap_contains chmap_7_1 out = true ∧
      (∀ x ∈ pre, env0.mp_chmap_contains chmap_7_1 x = true →
        (env0.mp_chmap_diff chmap_7_1 out).num < (env0.mp_chmap_diff chmap_7_1 x).num) ∧
      (∀ x ∈ post, env0.mp_chmap_contains chmap_7_1 x = true →
        (env0.mp_chmap_diff chmap_7_1 out).num ≤ (env0.mp_chmap_diff chmap_7_1 x).num) :=
  ⟨by decide,
   fallback_closest_downmix env0 ⟨false, false, [], [chmap_5_1], false⟩ chmap_7_1
     (by decide) (by decide) ⟨chmap_5_1, by decide, by decide⟩⟩

/-- C5: `mp_chmap_sel_fallback` returns false if and only if no stored map
`e` satisfies `contains(e, requested)` or `contains(requested, e)`. -/
theorem fallback_fails_iff_unrelated (E : chmap_env) (s : mp_chmap_sel) (map : mp_chmap)
    (hfit : ∀ e ∈ s.chmaps, (E.mp_chmap_diff e map).num ≤ UINT8_MAX ∧
      (E.mp_chmap_diff map e).num ≤ UINT8_MAX) :
    (mp_chmap_sel_fallback E s map).1 = false ↔
      ∀ e ∈ s.chmaps, E.mp_chmap_contains e map = false ∧ E.mp_chmap_contains map e = false := by
  constructor
  · intro hfalse
    have hup : ∀ e ∈ s.chmaps, E.mp_chmap_contains e map = false := by
      intro e he
      by_contra hc
      have hc1 : E.mp_chmap_contains e map = true := by simpa using hc
      obtain ⟨_, out, _, _, hf, _⟩ :=
        fallback_upmix_first_min E s map (fun x hx => (hfit x hx).1) ⟨e, he, hc1⟩
      rw [hf] at hfalse
      exact absurd hfalse (by simp)
    intro e he
    refine ⟨hup e he, ?_⟩
    by_contra hc
    have hc1 : E.mp_chmap_contains map e = true := by simpa using hc
    obtain ⟨_, out, _, _, hf, _⟩ :=
      fallback_downmix_first_min E s map (fun x hx => (hfit x hx).2) hup ⟨e, he, hc1⟩
    rw [hf] at hfalse
    exact absurd hfalse (by simp)
  · intro h
    rw [fallback_no_candidate E s map (fun e he => (h e he).1) (fun e he => (h e he).2)]

/-- Witness of C5 (tests/all.c lines 77-87): stereo stored, mono requested:
no containment in either direction and no match. -/
theorem fallback_fails_iff_unrelated_witness :
    (env0.mp_chmap_contains chmap_stereo chmap_mono = false ∧
      env0.mp_chmap_contains chmap_mono chmap_stereo = false ∧
      mp_chmap_sel_fallback env0 ⟨false, false, [], [chmap_stereo], false⟩ chmap_mono
        = (false, chmap_mono)) ∧
    ((mp_chmap_sel_fallback env0 ⟨false, false, [], [chmap_stereo], false⟩ chmap_mono).1 = false ↔
      ∀ e ∈ [chmap_stereo], env0.mp_chmap_contains e chmap_mono = false ∧
        env0.mp_chmap_contains chmap_mono e = false) :=
  ⟨by decide,
   fallback_fails_iff_unrelated env0 ⟨false, false, [], [chmap_stereo], false⟩ chmap_mono
     (by decide)⟩

/-- C6: when `mp_chmap_sel_fallback` returns false the requested map is left
as it was passed in; when it returns true the output is one of the stored
maps, with its stored channel order. -/
theorem fallback_frame (E : chmap_env) (s : mp_chmap_sel) (map : mp_chmap) :
    ((mp_chmap_sel_fallback E s map).1 = false → (mp_chmap_sel_fallback E s map).2 = map) ∧
    ((mp_chmap_sel_fallback E s map).1 = true → (mp_chmap_sel_fallback E s map).2 ∈ s.chmaps) := by
  rcases fallback_result E s map with h | ⟨out, hout, h⟩
  · rw [h]; simp
  · rw [h]; simpa using hout

/-- C7: for the criteria on which only `mp_chmap_sel_add_any` has been called
and every valid input map, `mp_chmap_sel_adjust` returns true and leaves the
map unchanged. -/
theorem adjust_add_any_keeps_valid (E : chmap_env) (tmp : Bool) (map : mp_chmap)
    (hv : E.mp_chmap_is_valid map = true) :
    mp_chmap_sel_adjust E (mp_chmap_sel_add_any (mp_chmap_sel_zero E tmp)) map
      = some (true, map) := by
  have h : test_layout E (mp_chmap_sel_add_any (mp_chmap_sel_zero E tmp)) map = (true, map) := by
    simp [test_layout, hv, mp_chmap_sel_add_any]
  simp [mp_chmap_sel_adjust, h]

/-- Witness of C7: the input 7.1 with its first two channels exchanged is
returned in the caller's order. -/
theorem adjust_add_any_keeps_valid_witness :
    env0.mp_chmap_is_valid chmap_7_1_swapped = true ∧
    mp_chmap_sel_adjust env0 (mp_chmap_sel_add_any (mp_chmap_sel_zero env0 false))
      chmap_7_1_swapped = some (true, chmap_7_1_swapped) :=
  ⟨by decide, adjust_add_any_keeps_valid env0 false chmap_7_1_swapped (by decide)⟩

/-- The substitution loop of `mp_chmap_sel_adjust` on an invalid map: no
substitution is tried. -/
theorem adjust_replacements_invalid (E : chmap_env) (s : mp_chmap_sel) (map : mp_chmap)
    (hinv : E.mp_chmap_is_valid map = false) :
    adjust_replacements E s map (speaker_replacements E) = some none := by
  simp [adjust_replacements, speaker_replacements, replace_speakers, hinv, mp_chmap.num]

/-- Counterexample to C8: with only `mp_chmap_sel_add_any` called, the empty
(invalid) input is not answered by false and the empty map: the last resort
accepts stereo, so the call returns true with standard stereo. -/
theorem adjust_add_any_invalid_counterexample :
    env0.mp_chmap_is_valid mp_chmap_empty = false ∧
    mp_chmap_sel_adjust env0 (mp_chmap_sel_add_any (mp_chmap_sel_zero env0 false))
      mp_chmap_empty = some (true, MP_CHMAP_INIT_STEREO env0) ∧
    mp_chmap_sel_adjust env0 (mp_chmap_sel_add_any (mp_chmap_sel_zero env0 false))
      mp_chmap_empty ≠ some (false, mp_chmap_empty) := by
  decide

/-- C8, amended: for the criteria on which only `mp_chmap_sel_add_any` has
been called and every input map that is not a valid layout, the input itself
is not accepted and `mp_chmap_sel_adjust` falls through to its last resort:
it returns true and sets the map to standard stereo. Standard stereo is
assumed valid, and the unknown-layout test to hold of valid maps only. -/
theorem adjust_add_any_invalid_gives_stereo (E : chmap_env) (tmp : Bool) (map : mp_chmap)
    (hunk : ∀ m, E.mp_chmap_is_unknown m = true → E.mp_chmap_is_valid m = true)
    (hst : E.mp_chmap_is_valid (MP_CHMAP_INIT_STEREO E) = true)
    (hinv : E.mp_chmap_is_valid map = false) :
    (test_layout E (mp_chmap_sel_add_any (mp_chmap_sel_zero E tmp)) map).1 = false ∧
    mp_chmap_sel_adjust E (mp_chmap_sel_add_any (mp_chmap_sel_zero E tmp)) map
      = some (true, MP_CHMAP_INIT_STEREO E) := by
  have h0 : test_layout E (mp_chmap_sel_add_any (mp_chmap_sel_zero E tmp)) map = (false, map) := by
    simp [test_layout, hinv]
  have hu : E.mp_chmap_is_unknown map = false := by
    by_contra hc
    have hc1 : E.mp_chmap_is_unknown map = true := by simpa using hc
    rw [hunk map hc1] at hinv
    exact absurd hinv (by simp)
  have hr := adjust_replacements_invalid E (mp_chmap_sel_add_any (mp_chmap_sel_zero E tmp)) map hinv
  have hf : mp_chmap_sel_fallback E (mp_chmap_sel_add_any (mp_chmap_sel_zero E tmp)) map
      = (false, map) :=
    fallback_no_candidate E _ map
      (fun e he => by simp [mp_chmap_sel_add_any, mp_chmap_sel_zero] at he)
      (fun e he => by simp [mp_chmap_sel_add_any, mp_chmap_sel_zero] at he)
  have hl : adjust_last_resort E (mp_chmap_sel_add_any (mp_chmap_sel_zero E tmp))
      = (true, MP_CHMAP_INIT_STEREO E) := by
    simp [adjust_last_resort, test_layout, hst, mp_chmap_sel_add_any]
  refine ⟨by rw [h0], ?_⟩
  unfold mp_chmap_sel_adjust
  simp only [h0, hu, hr, hf, hl, Bool.false_and, Bool.false_eq_true, if_false]

/-- Witness of C8, amended: the input with a duplicate speaker `[3, 3]`. -/
theorem adjust_add_any_invalid_gives_stereo_witness :
    (∀ m, env0.mp_chmap_is_unknown m = true → env0.mp_chmap_is_valid m = true) ∧
    env0.mp_chmap_is_valid (MP_CHMAP_INIT_STEREO env0) = true ∧
    env0.mp_chmap_is_valid ⟨[3, 3]⟩ = false ∧
    (test_layout env0 (mp_chmap_sel_add_any (mp_chmap_sel_zero env0 false)) ⟨[3, 3]⟩).1 = false ∧
    mp_chmap_sel_adjust env0 (mp_chmap_sel_add_any (mp_chmap_sel_zero env0 false)) ⟨[3, 3]⟩
      = some (true, MP_CHMAP_INIT_STEREO env0) :=
  have hunk : ∀ m, env0.mp_chmap_is_unknown m = true → env0.mp_chmap_is_valid m = true := by
    intro m h
    have h1 : (spec_is_valid 8 72 m &&
        decide (m.speaker = (List.range m.num).map (fun n => 64 + n))) = true := h
    simp only [Bool.and_eq_true] at h1
    exact h1.1
  ⟨hunk, by decide, by decide,
   adjust_add_any_invalid_gives_stereo env0 false ⟨[3, 3]⟩ hunk (by decide) (by decide)⟩

/-- A map returned by the search is a stored candidate of one of the two
kinds. -/
theorem fallback_result_kind (E : chmap_env) (s : mp_chmap_sel) (map : mp_chmap)
    (h : (mp_chmap_sel_fallback E s map).1 = true) :
    (mp_chmap_sel_fallback E s map).2 ∈ s.chmaps ∧
      (E.mp_chmap_contains (mp_chmap_sel_fallback E s map).2 map = true ∨
        E.mp_chmap_contains map (mp_chmap_sel_fallback E s map).2 = true) := by
  rw [mp_chmap_sel_fallback_eq] at h ⊢
  by_cases h1 : (upmix_fold E s map).1 < INT_MAX
  · rw [if_pos h1]
    rcases best_fold_mem (fun e => E.mp_chmap_contains e map)
        (fun e => (E.mp_chmap_diff e map).num) (INT_MAX, mp_chmap_empty) s.chmaps with hk | hk
    · have : upmix_fold E s map = (INT_MAX, mp_chmap_empty) := hk
      rw [this] at h1
      exact absurd h1 (lt_irrefl _)
    · obtain ⟨out, hout, hf, hc, _⟩ := hk
      have : upmix_fold E s map = ((E.mp_chmap_diff out map).num, out) := hf
      rw [this]
      exact ⟨hout, Or.inl hc⟩
  · rw [if_neg h1] at h ⊢
    by_cases h2 : (downmix_fold E s map).1 < INT_MAX
    · rw [if_pos h2]
      rcases best_fold_mem (fun e => E.mp_chmap_contains map e)
          (fun e => (E.mp_chmap_diff map e).num) (INT_MAX, mp_chmap_empty) s.chmaps with hk | hk
      · have : downmix_fold E s map = (INT_MAX, mp_chmap_empty) := hk
        rw [this] at h2
        exact absurd h2 (lt_irrefl _)
      · obtain ⟨out, hout, hf, hc, _⟩ := hk
        have : downmix_fold E s map = ((E.mp_chmap_diff map out).num, out) := hf
        rw [this]
        exact ⟨hout, Or.inr hc⟩
    · rw [if_neg h2] at h
      exact absurd h (by simp)

theorem spec_contains_mem (a b : mp_chmap) (h : spec_contains a b = true) :
    ∀ sp ∈ b.speaker, sp ∈ a.speaker := by
  intro sp hsp
  unfold spec_contains at h
  rw [List.all_eq_true] at h
  simpa using h sp hsp

/-- With the operations of section 6, a stored map whose channel order is a
permutation of 7.1 contains every speaker of 5.1 and is returned for it. -/
theorem fallback_section6_ignores_order :
    mp_chmap_sel_fallback env0 ⟨false, false, [], [chmap_7_1_swapped], false⟩ chmap_5_1
      = (true, chmap_7_1_swapped) := by
  decide

/-- The assertions of tests/all.c on `mp_chmap_diff` and `mp_chmap_contains`
hold of the instance `env1`. -/
theorem env1_meets_helper_tests :
    env1.mp_chmap_diff chmap_3_1 chmap_2_1 = ⟨[env1.MP_SPEAKER_ID_FC]⟩ ∧
    (env1.mp_chmap_diff chmap_3_1 chmap_6_1_back).num = 0 ∧
    env1.mp_chmap_diff chmap_6_1_back chmap_3_1
      = ⟨[env1.MP_SPEAKER_ID_BL, env1.MP_SPEAKER_ID_BR, 8]⟩ ∧
    env1.mp_chmap_contains chmap_3_1 chmap_2_1 = true ∧
    env1.mp_chmap_contains chmap_2_1 chmap_3_1 = false ∧
    env1.mp_chmap_contains chmap_mono chmap_stereo = false ∧
    env1.mp_chmap_contains chmap_stereo chmap_mono = false := by
  decide

/-- The assertions of tests/all.c on `mp_chmap_sel_fallback` hold of the
instance `env1`; the last one, lines 134-149, fails for `env0`. -/
theorem env1_meets_fallback_tests :
    mp_chmap_sel_fallback env1
      (mp_chmap_sel_add_map env1 (mp_chmap_sel_zero env1 false) chmap_7_1) chmap_5_1
      = (true, chmap_7_1) ∧
    mp_chmap_sel_fallback env1
      (mp_chmap_sel_add_map env1 (mp_chmap_sel_zero env1 false) chmap_5_1) chmap_7_1
      = (true, chmap_5_1) ∧
    (mp_chmap_sel_fallback env1
      (mp_chmap_sel_add_map env1 (mp_chmap_sel_zero env1 false) chmap_stereo) chmap_mono).1
      = false ∧
    mp_chmap_sel_fallback env1
      ([chmap_7_1, chmap_5_1, chmap_2_1, chmap_stereo, chmap_mono].foldl
        (mp_chmap_sel_add_map env1) (mp_chmap_sel_zero env1 false)) chmap_3_1
      = (true, chmap_5_1) ∧
    mp_chmap_sel_fallback env1
      (mp_chmap_sel_add_map env1 (mp_chmap_sel_zero env1 false) chmap_7_1_rear) chmap_5_1
      = (true, chmap_7_1_rear) ∧
    mp_chmap_sel_fallback env1
      (mp_chmap_sel_add_map env1 (mp_chmap_sel_zero env1 false) chmap_unknown2) chmap_5_1
      = (false, chmap_5_1) ∧
    mp_chmap_sel_fallback env1
      (mp_chmap_sel_add_map env1 (mp_chmap_sel_zero env1 false) chmap_7_1_swapped) chmap_5_1
      = (false, chmap_5_1) := by
  decide

theorem replicate_false_getD (n i : Nat) : (List.replicate n false).getD i false = false := by
  induction n generalizing i with
  | zero => simp
  | succ n ih =>
    cases i with
    | zero => simp [List.replicate_succ]
    | succ i => simp [List.replicate_succ, ih]

/-- The zero-initialised criteria set accepts no map. -/
theorem test_layout_zero (E : chmap_env) (hempty : E.mp_chmap_is_valid mp_chmap_empty = false)
    (tmp : Bool) (map : mp_chmap) :
    test_layout E (mp_chmap_sel_zero E tmp) map = (false, map) := by
  unfold test_layout
  by_cases h1 : E.mp_chmap_is_valid map = false
  · rw [if_pos h1]
  · rw [if_neg h1]
    have ha : (mp_chmap_sel_zero E tmp).allow_any = false := rfl
    have hw : test_waveext E (mp_chmap_sel_zero E tmp) map = (false, map) := by
      simp [test_waveext, mp_chmap_sel_zero]
    have hsp : test_speakers (mp_chmap_sel_zero E tmp) map = false := by
      cases map with
      | mk sp =>
        cases sp with
        | nil => exact absurd hempty h1
        | cons x xs =>
          simp [test_speakers, mp_chmap_sel_zero, replicate_false_getD]
    have hm : test_maps E (mp_chmap_sel_zero E tmp) map = (false, map) := by
      simp [test_maps, mp_chmap_sel_zero]
    simp only [ha, hw, hsp, hm, Bool.false_eq_true, if_false]

/-- When no map is accepted, the substitution loop yields nothing. -/
theorem adjust_replacements_reject_all (E : chmap_env) (s : mp_chmap_sel) (map : mp_chmap)
    (h : ∀ m, (test_layout E s m).1 = false) :
    adjust_replacements E s map (speaker_replacements E) = some none := by
  obtain ⟨r, hr, hrt⟩ := adjust_replacements_table E s map
  cases r with
  | none => exact hr
  | some t =>
    obtain ⟨t0, ht0, _⟩ := hrt t rfl
    rw [h t0] at ht0
    exact absurd ht0 (by simp)

/-- C11: by default all layouts are rejected. For the zero-initialised
criteria set and every input map, `mp_chmap_sel_adjust` returns false and sets
the map to the empty map, `mp_chmap_sel_fallback` returns false, and
`mp_chmap_sel_get_def` called with an empty map and any count returns false.
The validity test of the absent chmap.c is assumed to reject the empty map. -/
theorem zero_criteria_reject_everything (E : chmap_env)
    (hempty : E.mp_chmap_is_valid mp_chmap_empty = false)
    (tmp : Bool) (map : mp_chmap) (num : Int) :
    mp_chmap_sel_adjust E (mp_chmap_sel_zero E tmp) map = some (false, mp_chmap_empty) ∧
    mp_chmap_sel_fallback E (mp_chmap_sel_zero E tmp) map = (false, map) ∧
    mp_chmap_sel_get_def E (mp_chmap_sel_zero E tmp) mp_chmap_empty num
      = (false, mp_chmap_empty) := by
  have hz : ∀ m, test_layout E (mp_chmap_sel_zero E tmp) m = (false, m) :=
    test_layout_zero E hempty tmp
  have hf : ∀ m, mp_chmap_sel_fallback E (mp_chmap_sel_zero E tmp) m = (false, m) := by
    intro m
    exact fallback_no_candidate E _ m
      (fun e he => by simp [mp_chmap_sel_zero] at he)
      (fun e he => by simp [mp_chmap_sel_zero] at he)
  have hg : ∀ n : Int, mp_chmap_sel_get_def E (mp_chmap_sel_zero E tmp) mp_chmap_empty n
      = (false, mp_chmap_empty) := by
    intro n
    unfold mp_chmap_sel_get_def
    by_cases hn : ((mp_chmap_empty.num : Nat) : Int) ≠ n
    · rw [if_pos hn]
      have hc : (mp_chmap_sel_zero E tmp).chmaps = [] := rfl
      simp only [hz, hc, List.find?_nil, Bool.false_eq_true, if_false]
      simp [mp_chmap_empty, mp_chmap.num]
    · rw [if_neg hn]
      simp [mp_chmap_empty, mp_chmap.num]
  have hr := adjust_replacements_reject_all E (mp_chmap_sel_zero E tmp) map
    (fun m => by rw [hz m])
  have hl : adjust_last_resort E (mp_chmap_sel_zero E tmp) = (false, mp_chmap_empty) := by
    simp [adjust_last_resort, hz]
  refine ⟨?_, hf map, hg num⟩
  unfold mp_chmap_sel_adjust
  simp only [hz, hg, hr, hf, hl, Bool.and_false, Bool.false_and, Bool.false_eq_true, if_false]

/-- Witness of C11: the instance, the input 5.1 and the count 6. -/
theorem zero_criteria_reject_everything_witness :
    env0.mp_chmap_is_valid mp_chmap_empty = false ∧
    mp_chmap_sel_adjust env0 (mp_chmap_sel_zero env0 false) chmap_5_1
      = some (false, mp_chmap_empty) ∧
    mp_chmap_sel_fallback env0 (mp_chmap_sel_zero env0 false) chmap_5_1 = (false, chmap_5_1) ∧
    mp_chmap_sel_get_def env0 (mp_chmap_sel_zero env0 false) mp_chmap_empty 6
      = (false, mp_chmap_empty) :=
  ⟨by decide, zero_criteria_reject_everything env0 (by decide) false chmap_5_1 6⟩

/-! ## Criteria accumulation -/

/-- Counterexample to C12: twenty calls of `mp_chmap_sel_add_map` on the
zero-initialised set without an allocation context fill the inline storage;
the next call with the valid map mono appends nothing. -/
theorem add_map_full_storage_counterexample :
    sel_build env0 false (List.replicate 20 (sel_op.add_map chmap_stereo))
      = some sel_full_storage ∧
    env0.mp_chmap_is_valid chmap_mono = true ∧
    mp_chmap_sel_add_map env0 sel_full_storage chmap_mono = sel_full_storage ∧
    (mp_chmap_sel_add_map env0 sel_full_storage chmap_mono).num_chmaps
      ≠ sel_full_storage.num_chmaps + 1 ∧
    chmap_mono ∉ (mp_chmap_sel_add_map env0 sel_full_storage chmap_mono).chmaps := by
  decide

/-- C12, amended: for every criteria state and every valid map `m`,
`mp_chmap_sel_add_map` appends a copy of `m` (one more entry, the last entry
is `m`, the earlier entries are unchanged and in the same order, nothing else
changes) unless the collection holds exactly as many maps as the inline
storage and no allocation context is attached; in that case the map is dropped
and the criteria are unchanged. With an allocation context attached the map is
always appended, so the number of stored maps is not bounded. -/
theorem add_map_appends_unless_full (E : chmap_env) (s : mp_chmap_sel) (m : mp_chmap)
    (hv : E.mp_chmap_is_valid m = true) :
    (¬ (s.num_chmaps = E.chmaps_storage_size ∧ s.tmp = false) →
      mp_chmap_sel_add_map E s m = { s with chmaps := s.chmaps ++ [m] } ∧
      (mp_chmap_sel_add_map E s m).num_chmaps = s.num_chmaps + 1 ∧
      (mp_chmap_sel_add_map E s m).chmaps.getLast? = some m ∧
      (mp_chmap_sel_add_map E s m).chmaps.take s.num_chmaps = s.chmaps) ∧
    (s.num_chmaps = E.chmaps_storage_size ∧ s.tmp = false →
      mp_chmap_sel_add_map E s m = s) ∧
    (s.tmp = true → (mp_chmap_sel_add_map E s m).chmaps = s.chmaps ++ [m] ∧
      (mp_chmap_sel_add_map E s m).tmp = true) := by
  have hnf : ¬ (E.mp_chmap_is_valid m = false) := by simp [hv]
  refine ⟨?_, ?_, ?_⟩
  · intro hfull
    have h : mp_chmap_sel_add_map E s m = { s with chmaps := s.chmaps ++ [m] } := by
      unfold mp_chmap_sel_add_map
      rw [if_neg hnf, if_neg hfull]
    rw [h]
    refine ⟨rfl, ?_, ?_, ?_⟩
    · simp [mp_chmap_sel.num_chmaps]
    · simp
    · simp [mp_chmap_sel.num_chmaps]
  · intro hfull
    unfold mp_chmap_sel_add_map
    rw [if_neg hnf, if_pos hfull]
  · intro ht
    have hfull : ¬ (s.num_chmaps = E.chmaps_storage_size ∧ s.tmp = false) := by
      simp [ht]
    have h : mp_chmap_sel_add_map E s m = { s with chmaps := s.chmaps ++ [m] } := by
      unfold mp_chmap_sel_add_map
      rw [if_neg hnf, if_neg hfull]
    rw [h]
    exact ⟨rfl, ht⟩

/-- Witness of C12, amended: mono is appended to a set holding 7.1 and 5.1. -/
theorem add_map_appends_unless_full_witness :
    env0.mp_chmap_is_valid chmap_mono = true ∧
    mp_chmap_sel_add_map env0 ⟨false, false, List.replicate 72 false, [chmap_7_1, chmap_5_1], false⟩
        chmap_mono
      = ⟨false, false, List.replicate 72 false, [chmap_7_1, chmap_5_1, chmap_mono], false⟩ ∧
    mp_chmap_sel_add_map env0 sel_full_storage chmap_mono = sel_full_storage :=
  ⟨by decide,
   ((add_map_appends_unless_full env0
      ⟨false, false, List.replicate 72 false, [chmap_7_1, chmap_5_1], false⟩ chmap_mono
      (by decide)).1 (by decide)).1,
   (add_map_appends_unless_full env0 sel_full_storage chmap_mono (by decide)).2.1
     (by decide)⟩

/-- C13: for every criteria state and every map that is not a valid layout,
`mp_chmap_sel_add_map` changes nothing (stored maps, whitelist, both flags) and
returns normally. -/
theorem add_map_invalid_is_noop (E : chmap_env) (s : mp_chmap_sel) (m : mp_chmap)
    (hinv : E.mp_chmap_is_valid m = false) :
    mp_chmap_sel_add_map E s m = s := by
  unfold mp_chmap_sel_add_map
  rw [if_pos hinv]

/-- Witness of C13: the map `[3, 3]` with a duplicate speaker is dropped. -/
theorem add_map_invalid_is_noop_witness :
    env0.mp_chmap_is_valid ⟨[3, 3]⟩ = false ∧
    mp_chmap_sel_add_map env0 ⟨false, true, List.replicate 72 false, [chmap_7_1], true⟩ ⟨[3, 3]⟩
      = ⟨false, true, List.replicate 72 false, [chmap_7_1], true⟩ :=
  ⟨by decide,
   add_map_invalid_is_noop env0 ⟨false, true, List.replicate 72 false, [chmap_7_1], true⟩
     ⟨[3, 3]⟩ (by decide)⟩

/-- C14: every stored map is a valid layout. The invariant holds for the
zero-initialised criteria set and is preserved by each accumulation operation
with arbitrary arguments: `mp_chmap_sel_add_any`, `mp_chmap_sel_add_waveext`,
`mp_chmap_sel_add_speaker` (when its assertion holds), `mp_chmap_sel_add_map`,
`mp_chmap_sel_add_waveext_def` and `mp_chmap_sel_add_alsa_def`. -/
theorem chmaps_all_valid_invariant (E : chmap_env) (s : mp_chmap_sel)
    (hs : chmaps_all_valid E s) :
    (∀ tmp, chmaps_all_valid E (mp_chmap_sel_zero E tmp)) ∧
    chmaps_all_valid E (mp_chmap_sel_add_any s) ∧
    chmaps_all_valid E (mp_chmap_sel_add_waveext s) ∧
    (∀ id s1, mp_chmap_sel_add_speaker E s id = some s1 → chmaps_all_valid E s1) ∧
    (∀ m, chmaps_all_valid E (mp_chmap_sel_add_map E s m)) ∧
    chmaps_all_valid E (mp_chmap_sel_add_waveext_def E s) ∧
    chmaps_all_valid E (mp_chmap_sel_add_alsa_def E s) := by
  refine ⟨?_, hs, hs, ?_, ?_, ?_, ?_⟩
  · intro tmp e he
    simp [mp_chmap_sel_zero] at he
  · intro id s1 h
    exact sel_apply_valid E s s1 (sel_op.add_speaker id) hs h
  · intro m
    exact add_map_valid E s m hs
  · exact add_waveext_def_valid E s hs
  · exact add_alsa_def_valid E s hs

/-- Witness of C14: the set holding 7.1. -/
theorem chmaps_all_valid_invariant_witness :
    chmaps_all_valid env0 ⟨false, false, List.replicate 72 false, [chmap_7_1], false⟩ ∧
    chmaps_all_valid env0 (mp_chmap_sel_add_map env0
      ⟨false, false, List.replicate 72 false, [chmap_7_1], false⟩ ⟨[3, 3]⟩) ∧
    chmaps_all_valid env0 (mp_chmap_sel_add_waveext_def env0
      ⟨false, false, List.replicate 72 false, [chmap_7_1], false⟩) :=
  have h0 : chmaps_all_valid env0 ⟨false, false, List.replicate 72 false, [chmap_7_1], false⟩ := by
    intro e he
    have : e = chmap_7_1 := by simpa using he
    rw [this]; decide
  ⟨h0,
   (chmaps_all_valid_invariant env0 _ h0).2.2.2.2.1 ⟨[3, 3]⟩,
   (chmaps_all_valid_invariant env0 _ h0).2.2.2.2.2.1⟩

/-! ## Duplicate insertion -/

/-- After the fold has passed a candidate, the recorded cost is at most that
candidate's cost. -/
theorem best_fold_le (cand : mp_chmap → Bool) (cost : mp_chmap → Nat) (l : List mp_chmap)
    (acc : Nat × mp_chmap) (x : mp_chmap) (hc : cand x = true)
    (hx : x ∈ l ∨ acc.1 ≤ cost x) :
    (l.foldl (best_step cand cost) acc).1 ≤ cost x := by
  induction l generalizing acc with
  | nil =>
    rcases hx with h | h
    · simp at h
    · exact h
  | cons e l ih =>
    simp only [List.foldl_cons]
    apply ih
    by_cases hstep : (cand e && decide (acc.1 > cost e)) = true
    · have h1 : best_step cand cost acc e = (cost e, e) := by simp [best_step, hstep]
      rw [h1]
      rcases hx with h | h
      · rcases List.mem_cons.1 h with h2 | h2
        · right; rw [h2]
        · left; exact h2
      · right
        simp only [Bool.and_eq_true, decide_eq_true_eq] at hstep
        exact le_trans (le_of_lt hstep.2) h
    · have h1 : best_step cand cost acc e = acc := by simp [best_step, hstep]
      rw [h1]
      rcases hx with h | h
      · rcases List.mem_cons.1 h with h2 | h2
        · right
          rw [← h2, hc] at hstep
          simpa using hstep
        · left; exact h2
      · right; exact h

/-- Folding once more over a map already in the list changes nothing. -/
theorem best_fold_duplicate (cand : mp_chmap → Bool) (cost : mp_chmap → Nat) (l : List mp_chmap)
    (acc : Nat × mp_chmap) (m : mp_chmap) (hm : m ∈ l) :
    (l ++ [m]).foldl (best_step cand cost) acc = l.foldl (best_step cand cost) acc := by
  rw [List.foldl_append]
  simp only [List.foldl_cons, List.foldl_nil]
  by_cases hc : cand m = true
  · have hle := best_fold_le cand cost l acc m hc (Or.inl hm)
    have : ¬ (l.foldl (best_step cand cost) acc).1 > cost m := not_lt.2 hle
    simp [best_step, this]
  · simp [best_step, hc]

/-- Searching once more past a map already in the list finds the same. -/
theorem find_duplicate (p : mp_chmap → Bool) (l : List mp_chmap) (m : mp_chmap) (hm : m ∈ l) :
    (l ++ [m]).find? p = l.find? p := by
  induction l with
  | nil => simp at hm
  | cons e l ih =>
    by_cases hp : p e = true
    · simp [List.find?, hp]
    · rcases List.mem_cons.1 hm with h | h
      · subst h
        have hpf : p m = false := by simpa using hp
        simp only [List.cons_append, List.find?, hpf]
        clear ih hm
        induction l with
        | nil => simp [List.find?, hpf]
        | cons e2 l2 ih2 =>
          by_cases hp2 : p e2 = true
          · simp [List.find?, hp2]
          · have hp2f : p e2 = false := by simpa using hp2
            simp only [List.cons_append, List.find?, hp2f]
            exact ih2
      · have hpf : p e = false := by simpa using hp
        simp only [List.cons_append, List.find?, hpf]
        exact ih h

/-- Two criteria sets that agree on acceptance, on the substitution-free
searches and on the default lookup agree on `mp_chmap_sel_adjust`. -/
theorem adjust_congr (E : chmap_env) (s s1 : mp_chmap_sel)
    (hl : ∀ m, test_layout E s1 m = test_layout E s m)
    (hf : ∀ m, mp_chmap_sel_fallback E s1 m = mp_chmap_sel_fallback E s m)
    (hg : ∀ m n, mp_chmap_sel_get_def E s1 m n = mp_chmap_sel_get_def E s m n)
    (map : mp_chmap) : mp_chmap_sel_adjust E s1 map = mp_chmap_sel_adjust E s map := by
  have hr : ∀ (rs : List (mp_chmap × mp_chmap)) (m : mp_chmap),
      adjust_replacements E s1 m rs = adjust_replacements E s m rs := by
    intro rs m
    induction rs with
    | nil => rfl
    | cons r rs ih =>
      simp only [adjust_replacements, hl, ih]
  have hlast : adjust_last_resort E s1 = adjust_last_resort E s := by
    simp only [adjust_last_resort, hl]
  unfold mp_chmap_sel_adjust
  simp only [hl, hf, hg, hr, hlast]

/-- Storing a second copy of a stored map changes no result of the acceptance
predicate, the fallback search, the default lookup and the orchestrator. -/
theorem duplicate_same_results (E : chmap_env) (s : mp_chmap_sel) (m : mp_chmap)
    (hm : m ∈ s.chmaps) :
    (∀ c, test_layout E { s with chmaps := s.chmaps ++ [m] } c = test_layout E s c) ∧
    (∀ c, mp_chmap_sel_fallback E { s with chmaps := s.chmaps ++ [m] } c
      = mp_chmap_sel_fallback E s c) ∧
    (∀ c n, mp_chmap_sel_get_def E { s with chmaps := s.chmaps ++ [m] } c n
      = mp_chmap_sel_get_def E s c n) ∧
    (∀ c, mp_chmap_sel_adjust E { s with chmaps := s.chmaps ++ [m] } c
      = mp_chmap_sel_adjust E s c) := by
  have hl : ∀ c, test_layout E { s with chmaps := s.chmaps ++ [m] } c = test_layout E s c := by
    intro c
    have hmaps : ∀ x, test_maps E { s with chmaps := s.chmaps ++ [m] } x = test_maps E s x := by
      intro x
      simp only [test_maps, find_duplicate _ s.chmaps m hm]
    simp only [test_layout, test_waveext, test_speakers, hmaps]
  have hf : ∀ c, mp_chmap_sel_fallback E { s with chmaps := s.chmaps ++ [m] } c
      = mp_chmap_sel_fallback E s c := by
    intro c
    have hu : upmix_fold E { s with chmaps := s.chmaps ++ [m] } c = upmix_fold E s c :=
      best_fold_duplicate _ _ s.chmaps _ m hm
    have hd : downmix_fold E { s with chmaps := s.chmaps ++ [m] } c = downmix_fold E s c :=
      best_fold_duplicate _ _ s.chmaps _ m hm
    rw [mp_chmap_sel_fallback_eq, mp_chmap_sel_fallback_eq, hu, hd]
  have hg : ∀ c n, mp_chmap_sel_get_def E { s with chmaps := s.chmaps ++ [m] } c n
      = mp_chmap_sel_get_def E s c n := by
    intro c n
    simp only [mp_chmap_sel_get_def, hl, find_duplicate _ s.chmaps m hm]
  exact ⟨hl, hf, hg, adjust_congr E s _ hl hf hg⟩

/-- Counterexample to C15: with the inline storage full and no allocation
context attached, adding the stored map stereo again does not grow the stored
count. -/
theorem add_map_duplicate_count_counterexample :
    env0.mp_chmap_is_valid chmap_stereo = true ∧
    chmap_stereo ∈ sel_full_storage.chmaps ∧
    sel_full_storage.num_chmaps = 20 ∧
    (mp_chmap_sel_add_map env0 sel_full_storage chmap_stereo).num_chmaps = 20 ∧
    (mp_chmap_sel_add_map env0 sel_full_storage chmap_stereo).num_chmaps
      ≠ sel_full_storage.num_chmaps + 1 := by
  decide

/-- C15, amended: for every criteria set `s`, every valid map `m` already
stored in `s` and every input, the criteria obtained by adding `m` again give
the same result (return value and output map) as `s` for
`mp_chmap_sel_adjust`, `mp_chmap_sel_fallback` and `mp_chmap_sel_get_def`; the
stored count grows by one, except when the inline storage is full and no
allocation context is attached, where the duplicate is dropped and the
criteria are unchanged. -/
theorem add_map_duplicate_harmless (E : chmap_env) (s : mp_chmap_sel) (m : mp_chmap)
    (hv : E.mp_chmap_is_valid m = true) (hm : m ∈ s.chmaps) :
    (∀ c, mp_chmap_sel_adjust E (mp_chmap_sel_add_map E s m) c = mp_chmap_sel_adjust E s c) ∧
    (∀ c, mp_chmap_sel_fallback E (mp_chmap_sel_add_map E s m) c
      = mp_chmap_sel_fallback E s c) ∧
    (∀ c n, mp_chmap_sel_get_def E (mp_chmap_sel_add_map E s m) c n
      = mp_chmap_sel_get_def E s c n) ∧
    (¬ (s.num_chmaps = E.chmaps_storage_size ∧ s.tmp = false) →
      (mp_chmap_sel_add_map E s m).num_chmaps = s.num_chmaps + 1) ∧
    (s.num_chmaps = E.chmaps_storage_size ∧ s.tmp = false →
      mp_chmap_sel_add_map E s m = s) := by
  have hnf : ¬ (E.mp_chmap_is_valid m = false) := by simp [hv]
  by_cases hfull : s.num_chmaps = E.chmaps_storage_size ∧ s.tmp = false
  · have h : mp_chmap_sel_add_map E s m = s := by
      unfold mp_chmap_sel_add_map
      rw [if_neg hnf, if_pos hfull]
    rw [h]
    exact ⟨fun _ => rfl, fun _ => rfl, fun _ _ => rfl, fun hn => absurd hfull hn, fun _ => rfl⟩
  · have h : mp_chmap_sel_add_map E s m = { s with chmaps := s.chmaps ++ [m] } := by
      unfold mp_chmap_sel_add_map
      rw [if_neg hnf, if_neg hfull]
    rw [h]
    obtain ⟨_, hf, hg, ha⟩ := duplicate_same_results E s m hm
    refine ⟨ha, hf, hg, ?_, fun hn => absurd hn hfull⟩
    intro _
    simp [mp_chmap_sel.num_chmaps]

/-- Witness of C15, amended: 5.1 is added again to the set holding 7.1 and
5.1; the requests 3.1 and stereo and the count 6 get the same answers. -/
theorem add_map_duplicate_harmless_witness :
    env0.mp_chmap_is_valid chmap_5_1 = true ∧
    (mp_chmap_sel_add_map env0
      ⟨false, false, List.replicate 72 false, [chmap_7_1, chmap_5_1], false⟩ chmap_5_1).chmaps
      = [chmap_7_1, chmap_5_1, chmap_5_1] ∧
    mp_chmap_sel_adjust env0 (mp_chmap_sel_add_map env0
      ⟨false, false, List.replicate 72 false, [chmap_7_1, chmap_5_1], false⟩ chmap_5_1) chmap_3_1
      = mp_chmap_sel_adjust env0
          ⟨false, false, List.replicate 72 false, [chmap_7_1, chmap_5_1], false⟩ chmap_3_1 ∧
    mp_chmap_sel_fallback env0 (mp_chmap_sel_add_map env0
      ⟨false, false, List.replicate 72 false, [chmap_7_1, chmap_5_1], false⟩ chmap_5_1)
      chmap_stereo
      = mp_chmap_sel_fallback env0
          ⟨false, false, List.replicate 72 false, [chmap_7_1, chmap_5_1], false⟩ chmap_stereo ∧
    mp_chmap_sel_get_def env0 (mp_chmap_sel_add_map env0
      ⟨false, false, List.replicate 72 false, [chmap_7_1, chmap_5_1], false⟩ chmap_5_1)
      mp_chmap_empty 6
      = mp_chmap_sel_get_def env0
          ⟨false, false, List.replicate 72 false, [chmap_7_1, chmap_5_1], false⟩
          mp_chmap_empty 6 :=
  ⟨by decide, by decide,
   (add_map_duplicate_harmless env0
      ⟨false, false, List.replicate 72 false, [chmap_7_1, chmap_5_1], false⟩ chmap_5_1
      (by decide) (by decide)).1 chmap_3_1,
   (add_map_duplicate_harmless env0
      ⟨false, false, List.replicate 72 false, [chmap_7_1, chmap_5_1], false⟩ chmap_5_1
      (by decide) (by decide)).2.1 chmap_stereo,
   (add_map_duplicate_harmless env0
      ⟨false, false, List.replicate 72 false, [chmap_7_1, chmap_5_1], false⟩ chmap_5_1
      (by decide) (by decide)).2.2.1 mp_chmap_empty 6⟩

/-! ## The bulk helper for the default layouts -/

theorem add_map_with_context (E : chmap_env) (s : mp_chmap_sel) (m : mp_chmap)
    (ht : s.tmp = true) :
    mp_chmap_sel_add_map E s m =
      if E.mp_chmap_is_valid m = true then { s with chmaps := s.chmaps ++ [m] } else s := by
  unfold mp_chmap_sel_add_map
  by_cases hv : E.mp_chmap_is_valid m = true
  · have hnf : ¬ (E.mp_chmap_is_valid m = false) := by simp [hv]
    have hfull : ¬ (s.num_chmaps = E.chmaps_storage_size ∧ s.tmp = false) := by simp [ht]
    rw [if_neg hnf, if_neg hfull, if_pos hv]
  · have hf : E.mp_chmap_is_valid m = false := by simpa using hv
    rw [if_pos hf, if_neg hv]

/-- With an allocation context attached, `mp_chmap_sel_add_waveext_def`
appends the valid default layouts for the counts `1 .. MP_NUM_CHANNELS - 1`, in
increasing order of the count, and nothing else. -/
theorem add_waveext_def_chmaps (E : chmap_env) (s : mp_chmap_sel) (ht : s.tmp = true) :
    (mp_chmap_sel_add_waveext_def E s).chmaps =
      s.chmaps ++ ((List.range' 1 (E.MP_NUM_CHANNELS - 1)).map
        (fun n => E.mp_chmap_from_channels (Int.ofNat n))).filter
          (fun m => E.mp_chmap_is_valid m) := by
  unfold mp_chmap_sel_add_waveext_def
  generalize List.range' 1 (E.MP_NUM_CHANNELS - 1) = l
  induction l generalizing s with
  | nil => simp
  | cons n l ih =>
    rw [List.foldl_cons, add_map_with_context E s _ ht]
    by_cases hv : E.mp_chmap_is_valid (E.mp_chmap_from_channels (Int.ofNat n)) = true
    · rw [if_pos hv,
        ih { s with chmaps := s.chmaps ++ [E.mp_chmap_from_channels (Int.ofNat n)] } ht]
      simp only [List.map_cons, List.filter_cons, if_pos hv, List.append_assoc,
        List.singleton_append]
    · rw [if_neg hv, ih s ht]
      simp only [List.map_cons, List.filter_cons, if_neg hv]

/-- C16, on the instance with `MP_NUM_CHANNELS = 8`: the default layout for 8
channels (7.1) is a valid layout, yet `mp_chmap_sel_add_waveext_def`, called on
the zero-initialised set with an allocation context, stores the defaults for 1
to 7 channels only, in increasing order of the count. -/
theorem add_waveext_def_misses_max_channels :
    env0.MP_NUM_CHANNELS = 8 ∧
    env0.mp_chmap_is_valid (env0.mp_chmap_from_channels 8) = true ∧
    (mp_chmap_sel_add_waveext_def env0 (mp_chmap_sel_zero env0 true)).chmaps
      = [env0.mp_chmap_from_channels 1, env0.mp_chmap_from_channels 2,
         env0.mp_chmap_from_channels 3, env0.mp_chmap_from_channels 4,
         env0.mp_chmap_from_channels 5, env0.mp_chmap_from_channels 6,
         env0.mp_chmap_from_channels 7] ∧
    env0.mp_chmap_from_channels 8
      ∉ (mp_chmap_sel_add_waveext_def env0 (mp_chmap_sel_zero env0 true)).chmaps := by
  decide

/-! ## Whitelisting a speaker -/

/-- C17: `mp_chmap_sel_add_speaker` succeeds exactly when
`0 ≤ id < MP_SPEAKER_ID_COUNT`; it then marks speaker `id` as whitelisted and
changes nothing else (the other whitelist entries, both flags, the stored maps
and the allocation context); for an id out of range the assertion fails and
nothing is written. The whitelist is the array of `MP_SPEAKER_ID_COUNT`
entries of the C struct. -/
theorem add_speaker_exact (E : chmap_env) (s : mp_chmap_sel) (id : Int)
    (hlen : s.speakers.length = E.MP_SPEAKER_ID_COUNT) :
    ((mp_chmap_sel_add_speaker E s id).isSome = true ↔
      (0 ≤ id ∧ id < (E.MP_SPEAKER_ID_COUNT : Int))) ∧
    (¬ (0 ≤ id ∧ id < (E.MP_SPEAKER_ID_COUNT : Int)) → mp_chmap_sel_add_speaker E s id = none) ∧
    (∀ s1, mp_chmap_sel_add_speaker E s id = some s1 →
      s1.speakers.getD id.toNat false = true ∧
      (∀ j, j ≠ id.toNat → s1.speakers.getD j false = s.speakers.getD j false) ∧
      s1.speakers.length = s.speakers.length ∧
      s1.allow_any = s.allow_any ∧ s1.allow_waveext = s.allow_waveext ∧
      s1.chmaps = s.chmaps ∧ s1.tmp = s.tmp) := by
  unfold mp_chmap_sel_add_speaker
  by_cases hid : 0 ≤ id ∧ id < (E.MP_SPEAKER_ID_COUNT : Int)
  · rw [if_pos hid]
    refine ⟨by simp [hid], fun hn => absurd hid hn, ?_⟩
    intro s1 h1
    have hs1 : { s with speakers := s.speakers.set id.toNat true } = s1 := by
      simpa using h1
    rw [← hs1]
    have hlt : id.toNat < s.speakers.length := by
      rw [hlen]
      omega
    refine ⟨?_, ?_, by simp, rfl, rfl, rfl, rfl⟩
    · simp [List.getD_eq_getElem?_getD, List.getElem?_set, hlt]
    · intro j hj
      have hj1 : ¬ id.toNat = j := fun h => hj h.symm
      simp [List.getD_eq_getElem?_getD, List.getElem?_set, hj1]
  · rw [if_neg hid]
    refine ⟨by simp [hid], fun _ => rfl, ?_⟩
    intro s1 h1
    simp at h1

/-- Witness of C17: speaker 3 is whitelisted on the zero-initialised set of
the instance; the ids 72 and -1 fail the assertion. -/
theorem add_speaker_exact_witness :
    (mp_chmap_sel_zero env0 false).speakers.length = env0.MP_SPEAKER_ID_COUNT ∧
    mp_chmap_sel_add_speaker env0 (mp_chmap_sel_zero env0 false) 3
      = some ⟨false, false, (List.replicate 72 false).set 3 true, [], false⟩ ∧
    mp_chmap_sel_add_speaker env0 (mp_chmap_sel_zero env0 false) 72 = none ∧
    mp_chmap_sel_add_speaker env0 (mp_chmap_sel_zero env0 false) (-1) = none ∧
    ((mp_chmap_sel_add_speaker env0 (mp_chmap_sel_zero env0 false) 3).isSome = true ↔
      ((0 : Int) ≤ 3 ∧ (3 : Int) < (env0.MP_SPEAKER_ID_COUNT : Int))) :=
  ⟨by decide, by decide, by decide, by decide,
   (add_speaker_exact env0 (mp_chmap_sel_zero env0 false) 3 (by decide)).1⟩

/-! ## The default lookup -/

theorem find_first (p : mp_chmap → Bool) (pre post : List mp_chmap) (e : mp_chmap)
    (he : p e = true) (hpre : ∀ x ∈ pre, p x = false) :
    (pre ++ e :: post).find? p = some e := by
  induction pre with
  | nil => simp [List.find?, he]
  | cons x pre ih =>
    have hx : p x = false := hpre x (List.mem_cons_self _ _)
    simp only [List.cons_append, List.find?, hx]
    exact ih (fun y hy => hpre y (List.mem_cons_of_mem _ hy))

theorem find_none (p : mp_chmap → Bool) (l : List mp_chmap) (h : ∀ x ∈ l, p x = false) :
    l.find? p = none := by
  induction l with
  | nil => rfl
  | cons x l ih =>
    have hx : p x = false := h x (List.mem_cons_self _ _)
    simp only [List.find?, hx]
    exact ih (fun y hy => h y (List.mem_cons_of_mem _ hy))

/-- C18: when the map already has exactly `num` channels,
`mp_chmap_sel_get_def` leaves the map untouched and returns true exactly when
`num > 0`. -/
theorem get_def_same_count (E : chmap_env) (s : mp_chmap_sel) (map : mp_chmap) (num : Int)
    (h : (map.num : Int) = num) :
    mp_chmap_sel_get_def E s map num = (decide (0 < num), map) := by
  unfold mp_chmap_sel_get_def
  have hn : ¬ ((map.num : Int) ≠ num) := by simp [h]
  rw [if_neg hn]
  have : decide (map.num > 0) = decide (0 < num) := by
    rw [← h]
    simp
  rw [this]

/-- Witness of C18: the map 5.1 and the count 6 under criteria that store
only stereo, and the empty map with the count 0. -/
theorem get_def_same_count_witness :
    mp_chmap_sel_get_def env0 ⟨false, false, List.replicate 72 false, [chmap_stereo], false⟩
      chmap_5_1 6 = (true, chmap_5_1) ∧
    mp_chmap_sel_get_def env0 ⟨false, false, List.replicate 72 false, [chmap_stereo], false⟩
      mp_chmap_empty 0 = (false, mp_chmap_empty) :=
  ⟨get_def_same_count env0 _ chmap_5_1 6 (by decide),
   get_def_same_count env0 _ mp_chmap_empty 0 (by decide)⟩

/-- C19: when the map does not have `num` channels: if the generic default
layout for `num` channels, reordered to native order, is accepted by
`test_layout`, `mp_chmap_sel_get_def` outputs its accepted form; otherwise it
outputs the first stored map, in insertion order, with exactly `num` channels;
if there is none it outputs the empty map and returns false. The return value
is `num > 0` of the output. -/
theorem get_def_other_count (E : chmap_env) (s : mp_chmap_sel) (map : mp_chmap) (num : Int)
    (h : (map.num : Int) ≠ num) :
    ((test_layout E s (E.mp_chmap_reorder_to_waveext (E.mp_chmap_from_channels num))).1 = true →
      mp_chmap_sel_get_def E s map num =
        (decide (0 < (test_layout E s
            (E.mp_chmap_reorder_to_waveext (E.mp_chmap_from_channels num))).2.num),
          (test_layout E s (E.mp_chmap_reorder_to_waveext (E.mp_chmap_from_channels num))).2)) ∧
    ((test_layout E s (E.mp_chmap_reorder_to_waveext (E.mp_chmap_from_channels num))).1 = false →
      (∀ pre e post, s.chmaps = pre ++ e :: post → (e.num : Int) = num →
        (∀ x ∈ pre, (x.num : Int) ≠ num) →
        mp_chmap_sel_get_def E s map num = (decide (0 < e.num), e)) ∧
      ((∀ x ∈ s.chmaps, (x.num : Int) ≠ num) →
        mp_chmap_sel_get_def E s map num = (false, mp_chmap_empty))) := by
  unfold mp_chmap_sel_get_def
  rw [if_pos h]
  refine ⟨?_, ?_⟩
  · intro hacc
    simp only [hacc, if_true]
  · intro hrej
    simp only [hrej, Bool.false_eq_true, if_false]
    refine ⟨?_, ?_⟩
    · intro pre e post hsplit he hpre
      have hf : s.chmaps.find? (fun e => decide ((e.num : Int) = num)) = some e := by
        rw [hsplit]
        exact find_first _ pre post e (by simpa using he)
          (fun x hx => by simpa using hpre x hx)
      rw [hf]
    · intro hnone
      have hf : s.chmaps.find? (fun e => decide ((e.num : Int) = num)) = none :=
        find_none _ s.chmaps (fun x hx => by simpa using hnone x hx)
      rw [hf]
      simp [mp_chmap_empty, mp_chmap.num]

/-- Witness of C19: under criteria storing stereo, 5.1(side) and 5.1 (no
flags, no whitelist) the default for 6 channels, 5.1, is accepted in its stored
form; under criteria storing 5.1(side) and 7.1 with its first two channels
exchanged, the default for 8 channels is accepted as the stored exchanged map,
the count 6 gives the stored 5.1(side), and the count 3 gives the empty map and
false. -/
theorem get_def_other_count_witness :
    mp_chmap_sel_get_def env0
      ⟨false, false, List.replicate 72 false, [chmap_stereo, chmap_5_1_side, chmap_5_1], false⟩
      mp_chmap_empty 6 = (true, chmap_5_1) ∧
    mp_chmap_sel_get_def env0
      ⟨false, false, List.replicate 72 false, [chmap_5_1_side, chmap_7_1_swapped], false⟩
      mp_chmap_empty 8 = (true, chmap_7_1_swapped) ∧
    mp_chmap_sel_get_def env0
      ⟨false, false, List.replicate 72 false, [chmap_5_1_side, chmap_7_1_swapped], false⟩
      mp_chmap_empty 6 = (true, chmap_5_1_side) ∧
    mp_chmap_sel_get_def env0
      ⟨false, false, List.replicate 72 false, [chmap_5_1_side, chmap_7_1_swapped], false⟩
      mp_chmap_empty 3 = (false, mp_chmap_empty) :=
  ⟨(get_def_other_count env0
      ⟨false, false, List.replicate 72 false, [chmap_stereo, chmap_5_1_side, chmap_5_1], false⟩
      mp_chmap_empty 6 (by decide)).1 (by decide),
   (get_def_other_count env0
      ⟨false, false, List.replicate 72 false, [chmap_5_1_side, chmap_7_1_swapped], false⟩
      mp_chmap_empty 8 (by decide)).1 (by decide),
   ((get_def_other_count env0
      ⟨false, false, List.replicate 72 false, [chmap_5_1_side, chmap_7_1_swapped], false⟩
      mp_chmap_empty 6 (by decide)).2 (by decide)).1 [] chmap_5_1_side [chmap_7_1_swapped]
      rfl (by decide) (by decide),
   ((get_def_other_count env0
      ⟨false, false, List.replicate 72 false, [chmap_5_1_side, chmap_7_1_swapped], false⟩
      mp_chmap_empty 3 (by decide)).2 (by decide)).2 (by decide)⟩

/-! ## Substitution before fallback -/

theorem speaker_replacements_nums (E : chmap_env) :
    ∀ p ∈ speaker_replacements E, p.1.num = p.2.num := by
  intro p hp
  simp [speaker_replacements] at hp
  rcases hp with h | h <;> rw [h] <;> rfl

theorem replace_speakers_some (E : chmap_env) (map : mp_chmap) (p : mp_chmap × mp_chmap)
    (hlen : p.1.num = p.2.num) : ∃ b t, replace_speakers E map p = some (b, t) := by
  unfold replace_speakers
  rw [if_neg (by simpa using hlen)]
  by_cases h1 : E.mp_chmap_is_valid map = false
  · exact ⟨_, _, by rw [if_pos h1]⟩
  · rw [if_neg h1]
    by_cases h2 : ((replace_dir p.2 p.1 map).1 &&
        E.mp_chmap_is_valid (replace_dir p.2 p.1 map).2) = true
    · exact ⟨_, _, by rw [if_pos h2]⟩
    · by_cases h3 : ((replace_dir p.1 p.2 map).1 &&
          E.mp_chmap_is_valid (replace_dir p.1 p.2 map).2) = true
      · exact ⟨_, _, by rw [if_neg h2, if_pos h3]⟩
      · exact ⟨_, _, by rw [if_neg h2, if_neg h3]⟩

/-- The substitution loop returns the accepted form for the first entry whose
substitution succeeds and is accepted. -/
theorem adjust_replacements_first (E : chmap_env) (s : mp_chmap_sel) (map : mp_chmap)
    (pre post : List (mp_chmap × mp_chmap)) (r : mp_chmap × mp_chmap) (t : mp_chmap)
    (hnum : ∀ q ∈ pre, q.1.num = q.2.num)
    (hpre : ∀ q ∈ pre, ∀ b t1, replace_speakers E map q = some (b, t1) →
      (b && (test_layout E s t1).1) = false)
    (hrep : replace_speakers E map r = some (true, t))
    (hacc : (test_layout E s t).1 = true) :
    adjust_replacements E s map (pre ++ r :: post) = some (some (test_layout E s t).2) := by
  induction pre with
  | nil =>
    simp only [List.nil_append, adjust_replacements, hrep, hacc, Bool.and_self, if_true]
  | cons q pre ih =>
    obtain ⟨b, t1, hq⟩ := replace_speakers_some E map q (hnum q (List.mem_cons_self _ _))
    have hno := hpre q (List.mem_cons_self _ _) b t1 hq
    simp only [List.cons_append, adjust_replacements, hq, hno, Bool.false_eq_true, if_false]
    exact ih (fun x hx => hnum x (List.mem_cons_of_mem _ hx))
      (fun x hx => hpre x (List.mem_cons_of_mem _ hx))

/-- C20: speaker substitution takes precedence over the up/down-mix fallback.
For every criteria set and every non-unknown input that `test_layout` rejects:
if `r` is the first entry of the table `speaker_replacements` for which
`replace_speakers` succeeds on the original input with a result `t` that
`test_layout` accepts, `mp_chmap_sel_adjust` returns true with the accepted
form of `t`, whatever `mp_chmap_sel_fallback` would return. -/
theorem adjust_substitution_before_fallback (E : chmap_env) (s : mp_chmap_sel) (map : mp_chmap)
    (hrej : (test_layout E s map).1 = false)
    (hnu : E.mp_chmap_is_unknown map = false)
    (pre post : List (mp_chmap × mp_chmap)) (r : mp_chmap × mp_chmap) (t : mp_chmap)
    (htab : speaker_replacements E = pre ++ r :: post)
    (hpre : ∀ q ∈ pre, ∀ b t1, replace_speakers E map q = some (b, t1) →
      (b && (test_layout E s t1).1) = false)
    (hrep : replace_speakers E map r = some (true, t))
    (hacc : (test_layout E s t).1 = true) :
    mp_chmap_sel_adjust E s map = some (true, (test_layout E s t).2) := by
  have hnum : ∀ q ∈ pre, q.1.num = q.2.num := by
    intro q hq
    apply speaker_replacements_nums E
    rw [htab]
    exact List.mem_append_left _ hq
  have hloop := adjust_replacements_first E s map pre post r t hnum hpre hrep hacc
  rw [← htab] at hloop
  have hmap := test_layout_false E s map hrej
  unfold mp_chmap_sel_adjust
  simp only [hrej, hmap, hnu, hloop, Bool.false_and, Bool.false_eq_true, if_false]

/-- Witness of C20: 5.1(side) and 7.1 stored, input 5.1. The first table
entry turns 5.1 into 5.1(side), which is accepted, so the output is 5.1(side)
although the fallback search alone would return 7.1. -/
theorem adjust_substitution_before_fallback_witness :
    mp_chmap_sel_fallback env0
      ⟨false, false, List.replicate 72 false, [chmap_5_1_side, chmap_7_1], false⟩ chmap_5_1
      = (true, chmap_7_1) ∧
    test_layout env0
      ⟨false, false, List.replicate 72 false, [chmap_5_1_side, chmap_7_1], false⟩ chmap_5_1_side
      = (true, chmap_5_1_side) ∧
    mp_chmap_sel_adjust env0
      ⟨false, false, List.replicate 72 false, [chmap_5_1_side, chmap_7_1], false⟩ chmap_5_1
      = some (true, (test_layout env0
          ⟨false, false, List.replicate 72 false, [chmap_5_1_side, chmap_7_1], false⟩
          chmap_5_1_side).2) :=
  ⟨by decide, by decide,
   adjust_substitution_before_fallback env0
     ⟨false, false, List.replicate 72 false, [chmap_5_1_side, chmap_7_1], false⟩ chmap_5_1
     (by decide) (by decide) []
     [(⟨[env0.MP_SPEAKER_ID_SL, env0.MP_SPEAKER_ID_SR]⟩,
       ⟨[env0.MP_SPEAKER_ID_SDL, env0.MP_SPEAKER_ID_SDR]⟩)]
     (⟨[env0.MP_SPEAKER_ID_SL, env0.MP_SPEAKER_ID_SR]⟩,
       ⟨[env0.MP_SPEAKER_ID_BL, env0.MP_SPEAKER_ID_BR]⟩)
     chmap_5_1_side rfl (fun q hq => by simp at hq) (by decide) (by decide)⟩

/-! ## The last resort and the unknown-layout default -/

/-- When no substitution of the table both succeeds and is accepted, the
substitution loop yields nothing. -/
theorem adjust_replacements_none (E : chmap_env) (s : mp_chmap_sel) (map : mp_chmap)
    (rs : List (mp_chmap × mp_chmap)) (hnum : ∀ q ∈ rs, q.1.num = q.2.num)
    (hsub : ∀ q ∈ rs, ∀ b t, replace_speakers E map q = some (b, t) →
      (b && (test_layout E s t).1) = false) :
    adjust_replacements E s map rs = some none := by
  induction rs with
  | nil => rfl
  | cons q rs ih =>
    obtain ⟨b, t1, hq⟩ := replace_speakers_some E map q (hnum q (List.mem_cons_self _ _))
    have hno := hsub q (List.mem_cons_self _ _) b t1 hq
    simp only [adjust_replacements, hq, hno, Bool.false_eq_true, if_false]
    exact ih (fun x hx => hnum x (List.mem_cons_of_mem _ hx))
      (fun x hx => hsub x (List.mem_cons_of_mem _ hx))

/-- C21: the last resort of `mp_chmap_sel_adjust`. When the input is rejected
by `test_layout`, the unknown-layout default does not apply, no substitution
of the table both succeeds and is accepted, and `mp_chmap_sel_fallback` fails:
the call returns true with the accepted form of standard stereo if
`test_layout` accepts stereo; otherwise true with the accepted form of
standard mono if it accepts mono; otherwise false with the empty map. -/
theorem adjust_last_resort_order (E : chmap_env) (s : mp_chmap_sel) (map : mp_chmap)
    (hrej : (test_layout E s map).1 = false)
    (hdef : (E.mp_chmap_is_unknown map &&
      (mp_chmap_sel_get_def E s mp_chmap_empty (map.num : Int)).1 &&
      (test_layout E s (mp_chmap_sel_get_def E s mp_chmap_empty (map.num : Int)).2).1) = false)
    (hsub : ∀ q ∈ speaker_replacements E, ∀ b t, replace_speakers E map q = some (b, t) →
      (b && (test_layout E s t).1) = false)
    (hfb : (mp_chmap_sel_fallback E s map).1 = false) :
    ((test_layout E s (MP_CHMAP_INIT_STEREO E)).1 = true →
      mp_chmap_sel_adjust E s map = some (true, (test_layout E s (MP_CHMAP_INIT_STEREO E)).2)) ∧
    ((test_layout E s (MP_CHMAP_INIT_STEREO E)).1 = false →
      (test_layout E s (MP_CHMAP_INIT_MONO E)).1 = true →
      mp_chmap_sel_adjust E s map = some (true, (test_layout E s (MP_CHMAP_INIT_MONO E)).2)) ∧
    ((test_layout E s (MP_CHMAP_INIT_STEREO E)).1 = false →
      (test_layout E s (MP_CHMAP_INIT_MONO E)).1 = false →
      mp_chmap_sel_adjust E s map = some (false, mp_chmap_empty)) := by
  have hmap := test_layout_false E s map hrej
  have hloop := adjust_replacements_none E s map (speaker_replacements E)
    (speaker_replacements_nums E) hsub
  have hadj : mp_chmap_sel_adjust E s map = some (adjust_last_resort E s) := by
    unfold mp_chmap_sel_adjust
    simp only [hrej, hmap, hdef, hloop, hfb, Bool.false_eq_true, if_false]
  rw [hadj]
  unfold adjust_last_resort
  refine ⟨?_, ?_, ?_⟩
  · intro h1
    simp only [h1, if_true]
  · intro h1 h2
    simp only [h1, h2, Bool.false_eq_true, if_false, if_true]
  · intro h1 h2
    simp only [h1, h2, Bool.false_eq_true, if_false]

theorem env0_mono_no_substitution :
    ∀ q ∈ speaker_replacements env0,
      replace_speakers env0 chmap_mono q = some (false, chmap_mono) := by
  decide

/-- Witness of C21: stereo stored, input mono, output stereo. -/
theorem adjust_last_resort_order_witness :
    mp_chmap_sel_adjust env0 ⟨false, false, List.replicate 72 false, [chmap_stereo], false⟩
      chmap_mono = some (true, chmap_stereo) ∧
    mp_chmap_sel_adjust env0 ⟨false, false, List.replicate 72 false, [chmap_stereo], false⟩
      chmap_mono = some (true, (test_layout env0
        ⟨false, false, List.replicate 72 false, [chmap_stereo], false⟩
        (MP_CHMAP_INIT_STEREO env0)).2) :=
  ⟨by decide,
   (adjust_last_resort_order env0
      ⟨false, false, List.replicate 72 false, [chmap_stereo], false⟩ chmap_mono
      (by decide) (by decide)
      (fun q hq b t h => by
        rw [env0_mono_no_substitution q hq] at h
        cases h
        rfl)
      (by decide)).1 (by decide)⟩

theorem test_waveext_true_eq (E : chmap_env) (s : mp_chmap_sel) (map : mp_chmap)
    (h : (test_waveext E s map).1 = true) :
    (test_waveext E s map).2 = E.mp_chmap_reorder_to_waveext map ∧ s.allow_waveext = true ∧
      E.mp_chmap_is_waveext (E.mp_chmap_reorder_to_waveext map) = true := by
  unfold test_waveext at h ⊢
  by_cases h1 : s.allow_waveext = true
  · by_cases h2 : E.mp_chmap_is_waveext (E.mp_chmap_reorder_to_waveext map) = true
    · simp [h1, h2]
    · simp [h1, h2] at h
  · simp [h1] at h

theorem test_maps_true_eq (E : chmap_env) (s : mp_chmap_sel) (map : mp_chmap)
    (h : (test_maps E s map).1 = true) :
    E.mp_chmap_equals_reordered (test_maps E s map).2 map = true := by
  unfold test_maps at h ⊢
  cases hf : s.chmaps.find? (fun e => E.mp_chmap_equals_reordered e map) with
  | none => rw [hf] at h; simp at h
  | some e =>
    have h2 := List.find?_some hf
    exact h2

/-- The map left by an acceptance is the candidate itself, its native-order
reordering, or a stored map equal to it up to reordering. -/
theorem test_layout_true_cases (E : chmap_env) (s : mp_chmap_sel) (map : mp_chmap)
    (h : (test_layout E s map).1 = true) :
    (test_layout E s map).2 = map ∨
      (test_layout E s map).2 = E.mp_chmap_reorder_to_waveext map ∨
      ((test_layout E s map).2 ∈ s.chmaps ∧
        E.mp_chmap_equals_reordered (test_layout E s map).2 map = true) := by
  unfold test_layout at h ⊢
  by_cases h1 : E.mp_chmap_is_valid map = false
  · simp [h1] at h
  · by_cases h2 : s.allow_any = true
    · left; simp [h1, h2]
    · by_cases h3 : (test_waveext E s map).1 = true
      · right; left
        simp only [h1, h2, h3, if_true, if_false]
        exact (test_waveext_true_eq E s map h3).1
      · have h3f : (test_waveext E s map).1 = false := by simpa using h3
        have hw := test_waveext_false E s map h3f
        by_cases h4 : test_speakers s map = true
        · left; simp [h1, h2, h3f, hw, h4]
        · right; right
          simp only [h1, h2, h3f, hw, h4] at h ⊢
          simp only [if_false, Bool.false_eq_true] at h ⊢
          exact ⟨test_maps_true E s map h, test_maps_true_eq E s map h⟩

/-- An acceptance keeps the channel count, when reordering to native order
and equality up to reordering do. -/
theorem test_layout_true_num (E : chmap_env)
    (hreo : ∀ m, (E.mp_chmap_reorder_to_waveext m).num = m.num)
    (heq : ∀ a b, E.mp_chmap_equals_reordered a b = true → a.num = b.num)
    (s : mp_chmap_sel) (map : mp_chmap) (h : (test_layout E s map).1 = true) :
    (test_layout E s map).2.num = map.num := by
  rcases test_layout_true_cases E s map h with h1 | h1 | h1
  · rw [h1]
  · rw [h1]; exact hreo map
  · exact heq _ _ h1.2

/-- C22: for an input that is the unknown layout of `n` channels and is not
accepted directly, if `mp_chmap_sel_get_def` resolves a default for `n`
channels and `test_layout` accepts it, `mp_chmap_sel_adjust` returns true with
that accepted default, whatever substitution, fallback and the last resort
would give; the output has exactly `n` channels. For the channel count the
helpers of the absent chmap.c are assumed to keep the count when reordering,
to compare equal up to reordering only maps of one count, and to give a
default of `n` channels or the empty map for the count `n`. -/
theorem adjust_unknown_default (E : chmap_env) (s : mp_chmap_sel) (map : mp_chmap)
    (hreo : ∀ m, (E.mp_chmap_reorder_to_waveext m).num = m.num)
    (heq : ∀ a b, E.mp_chmap_equals_reordered a b = true → a.num = b.num)
    (hfc : ∀ n : Int, 0 < (E.mp_chmap_from_channels n).num →
      ((E.mp_chmap_from_channels n).num : Int) = n)
    (hu : E.mp_chmap_is_unknown map = true)
    (hrej : (test_layout E s map).1 = false)
    (hg : (mp_chmap_sel_get_def E s mp_chmap_empty (map.num : Int)).1 = true)
    (hacc : (test_layout E s
      (mp_chmap_sel_get_def E s mp_chmap_empty (map.num : Int)).2).1 = true) :
    mp_chmap_sel_adjust E s map = some (true, (test_layout E s
      (mp_chmap_sel_get_def E s mp_chmap_empty (map.num : Int)).2).2) ∧
    (test_layout E s (mp_chmap_sel_get_def E s mp_chmap_empty (map.num : Int)).2).2.num
      = map.num := by
  have hmap := test_layout_false E s map hrej
  refine ⟨?_, ?_⟩
  · unfold mp_chmap_sel_adjust
    simp only [hrej, hmap, hu, hg, hacc, Bool.and_self, Bool.false_eq_true, if_false, if_true]
  · rw [test_layout_true_num E hreo heq s _ hacc]
    have hgnum : 0 < (mp_chmap_sel_get_def E s mp_chmap_empty (map.num : Int)).2.num := by
      have h1 : (mp_chmap_sel_get_def E s mp_chmap_empty (map.num : Int)).1 =
          decide ((mp_chmap_sel_get_def E s mp_chmap_empty (map.num : Int)).2.num > 0) := by
        unfold mp_chmap_sel_get_def
        by_cases hn : ((mp_chmap_empty.num : Nat) : Int) ≠ (map.num : Int)
        · rw [if_pos hn]
        · rw [if_neg hn]
      rw [h1] at hg
      simpa using hg
    unfold mp_chmap_sel_get_def at hgnum ⊢
    by_cases hn : ((mp_chmap_empty.num : Nat) : Int) ≠ (map.num : Int)
    · rw [if_pos hn] at hgnum ⊢
      simp only [] at hgnum ⊢
      by_cases ht : (test_layout E s
          (E.mp_chmap_reorder_to_waveext (E.mp_chmap_from_channels (map.num : Int)))).1 = true
      · rw [if_pos ht] at hgnum ⊢
        rw [test_layout_true_num E hreo heq s _ ht, hreo] at hgnum ⊢
        exact Int.ofNat_inj.1 (hfc _ hgnum)
      · rw [if_neg ht] at hgnum ⊢
        cases hf : s.chmaps.find? (fun e => decide ((e.num : Int) = (map.num : Int))) with
        | none =>
          rw [hf] at hgnum
          simp [mp_chmap_empty, mp_chmap.num] at hgnum
        | some e =>
          simp only []
          have := List.find?_some hf
          simpa using this
    · rw [if_neg hn] at hgnum
      simp [mp_chmap_empty, mp_chmap.num] at hgnum

theorem insert_sorted_length (x : Nat) (l : List Nat) :
    (insert_sorted x l).length = l.length + 1 := by
  induction l with
  | nil => rfl
  | cons y ys ih =>
    unfold insert_sorted
    by_cases h : x ≤ y
    · rw [if_pos h]; rfl
    · rw [if_neg h]; simp [ih]

theorem sort_speakers_length (l : List Nat) : (sort_speakers l).length = l.length := by
  induction l with
  | nil => rfl
  | cons x xs ih =>
    unfold sort_speakers
    rw [insert_sorted_length, ih]
    rfl

theorem env0_reorder_num :
    ∀ m, (env0.mp_chmap_reorder_to_waveext m).num = m.num := by
  intro m
  have h : env0.mp_chmap_reorder_to_waveext m
      = if spec_is_valid 8 72 m then ⟨sort_speakers m.speaker⟩ else m := rfl
  rw [h]
  by_cases hv : spec_is_valid 8 72 m = true
  · rw [if_pos hv]
    exact sort_speakers_length m.speaker
  · rw [if_neg hv]

theorem env0_equals_reordered_num :
    ∀ a b, env0.mp_chmap_equals_reordered a b = true → a.num = b.num := by
  intro a b h
  have h1 : (decide (a.num = b.num) && spec_contains a b && spec_contains b a) = true := h
  simp only [Bool.and_eq_true, decide_eq_true_eq] at h1
  exact h1.1.1

theorem env0_from_channels_num :
    ∀ n : Int, 0 < (env0.mp_chmap_from_channels n).num →
      ((env0.mp_chmap_from_channels n).num : Int) = n := by
  intro n h
  have hd : env0.mp_chmap_from_channels n = env0_from_channels n := rfl
  rw [hd] at h ⊢
  unfold env0_from_channels at h ⊢
  split_ifs at h ⊢ with h1 h2 h3 h4 h5 h6 h7 h8
  all_goals first
    | (subst_vars; rfl)
    | (exact absurd h (by simp [mp_chmap.num]))

/-- Witness of C22: stereo stored, input the unknown layout of 2 channels; the
default for 2 channels is stereo, which is accepted, and it is the output. -/
theorem adjust_unknown_default_witness :
    env0.mp_chmap_is_unknown chmap_unknown2 = true ∧
    mp_chmap_sel_adjust env0 ⟨false, false, List.replicate 72 false, [chmap_stereo], false⟩
      chmap_unknown2 = some (true, chmap_stereo) ∧
    (mp_chmap_sel_adjust env0 ⟨false, false, List.replicate 72 false, [chmap_stereo], false⟩
        chmap_unknown2 = some (true, (test_layout env0
          ⟨false, false, List.replicate 72 false, [chmap_stereo], false⟩
          (mp_chmap_sel_get_def env0
            ⟨false, false, List.replicate 72 false, [chmap_stereo], false⟩
            mp_chmap_empty (chmap_unknown2.num : Int)).2).2) ∧
      (test_layout env0 ⟨false, false, List.replicate 72 false, [chmap_stereo], false⟩
        (mp_chmap_sel_get_def env0
          ⟨false, false, List.replicate 72 false, [chmap_stereo], false⟩
          mp_chmap_empty (chmap_unknown2.num : Int)).2).2.num = chmap_unknown2.num) :=
  ⟨by decide, by decide,
   adjust_unknown_default env0
     ⟨false, false, List.replicate 72 false, [chmap_stereo], false⟩ chmap_unknown2
     env0_reorder_num env0_equals_reordered_num env0_from_channels_num
     (by decide) (by decide) (by decide) (by decide)⟩

/-! ## The rules of the acceptance predicate -/

theorem test_speakers_iff (s : mp_chmap_sel) (c : mp_chmap) :
    test_speakers s c = true ↔ ∀ sp ∈ c.speaker, s.speakers.getD sp false = true := by
  unfold test_speakers
  rw [List.all_eq_true]

theorem test_maps_iff (E : chmap_env) (s : mp_chmap_sel) (c : mp_chmap) :
    (test_maps E s c).1 = true ↔ ∃ e ∈ s.chmaps, E.mp_chmap_equals_reordered e c = true := by
  constructor
  · intro h
    exact ⟨_, test_maps_true E s c h, test_maps_true_eq E s c h⟩
  · rintro ⟨e, he, heq⟩
    unfold test_maps
    cases hf : s.chmaps.find? (fun e => E.mp_chmap_equals_reordered e c) with
    | none =>
      have := List.find?_eq_none.1 hf e he
      simp [heq] at this
    | some e1 => rfl

theorem test_waveext_iff (E : chmap_env) (s : mp_chmap_sel) (c : mp_chmap) :
    (test_waveext E s c).1 = true ↔
      (s.allow_waveext = true ∧ E.mp_chmap_is_waveext (E.mp_chmap_reorder_to_waveext c) = true) := by
  constructor
  · intro h
    exact (test_waveext_true_eq E s c h).2
  · rintro ⟨h1, h2⟩
    simp [test_waveext, h1, h2]

/-- C24: `test_layout` returns true if and only if the candidate is a valid
layout and at least one rule applies: accept-any is set; the native-ordering
flag is set and the candidate reordered to native order is a native-order
layout; every speaker of the candidate is whitelisted; the candidate equals,
up to reordering, some stored map. An invalid candidate is rejected whatever
the flags. -/
theorem test_layout_iff (E : chmap_env) (s : mp_chmap_sel) (c : mp_chmap) :
    ((test_layout E s c).1 = true ↔
      (E.mp_chmap_is_valid c = true ∧
        (s.allow_any = true ∨
          (s.allow_waveext = true ∧
            E.mp_chmap_is_waveext (E.mp_chmap_reorder_to_waveext c) = true) ∨
          (∀ sp ∈ c.speaker, s.speakers.getD sp false = true) ∨
          (∃ e ∈ s.chmaps, E.mp_chmap_equals_reordered e c = true)))) ∧
    (E.mp_chmap_is_valid c = false → test_layout E s c = (false, c)) := by
  refine ⟨?_, ?_⟩
  · rw [← test_waveext_iff, ← test_speakers_iff, ← test_maps_iff]
    unfold test_layout
    by_cases h1 : E.mp_chmap_is_valid c = false
    · simp [h1]
    · have hv : E.mp_chmap_is_valid c = true := by simpa using h1
      by_cases h2 : s.allow_any = true
      · simp [hv, h2]
      · by_cases h3 : (test_waveext E s c).1 = true
        · simp [hv, h2, h3]
        · have h3f : (test_waveext E s c).1 = false := by simpa using h3
          have hw := test_waveext_false E s c h3f
          by_cases h4 : test_speakers s c = true
          · simp [hv, h2, h3f, hw, h4]
          · simp [hv, h2, h3f, hw, h4]
  · intro h1
    unfold test_layout
    rw [if_pos h1]

/-- C25: without accept-any, for a valid candidate that neither the
native-ordering rule nor the speaker whitelist accepts and that equals, up to
reordering, some stored map, `test_layout` returns true and replaces the
candidate by the first stored map (in insertion order) equal to it up to
reordering, in that stored map's channel order. -/
theorem test_layout_takes_first_stored (E : chmap_env) (s : mp_chmap_sel) (c : mp_chmap)
    (hany : s.allow_any = false)
    (hv : E.mp_chmap_is_valid c = true)
    (hwav : (test_waveext E s c).1 = false)
    (hsp : test_speakers s c = false)
    (pre post : List mp_chmap) (e : mp_chmap)
    (hsplit : s.chmaps = pre ++ e :: post)
    (he : E.mp_chmap_equals_reordered e c = true)
    (hpre : ∀ x ∈ pre, E.mp_chmap_equals_reordered x c = false) :
    test_layout E s c = (true, e) := by
  have hw := test_waveext_false E s c hwav
  have hf : s.chmaps.find? (fun x => E.mp_chmap_equals_reordered x c) = some e := by
    rw [hsplit]
    exact find_first _ pre post e he hpre
  have hm : test_maps E s c = (true, e) := by
    simp only [test_maps, hf]
  unfold test_layout
  simp only [hv, hany, hwav, hw, hsp, hm, Bool.false_eq_true, if_false]
  simp

/-- Witness of C25: the exchanged 7.1 and the standard 7.1 are stored, in this
order; the candidate 7.1 in standard order is replaced by the exchanged map. -/
theorem test_layout_takes_first_stored_witness :
    test_layout env0
      ⟨false, false, List.replicate 72 false, [chmap_stereo, chmap_7_1_swapped, chmap_7_1], false⟩
      chmap_7_1 = (true, chmap_7_1_swapped) :=
  test_layout_takes_first_stored env0
    ⟨false, false, List.replicate 72 false, [chmap_stereo, chmap_7_1_swapped, chmap_7_1], false⟩
    chmap_7_1 rfl (by decide) (by decide) (by decide)
    [chmap_stereo] [chmap_7_1] chmap_7_1_swapped rfl (by decide) (by decide)

/-- C26: for criteria whose only rule is a speaker whitelist (no flags, no
stored maps) and a valid candidate, `test_layout` returns true exactly when
every speaker of the candidate is whitelisted, and leaves the candidate
unchanged; the result is the same for every valid reordering of the candidate,
and one speaker that is not whitelisted causes rejection. -/
theorem test_layout_whitelist_only (E : chmap_env) (s : mp_chmap_sel) (c : mp_chmap)
    (hany : s.allow_any = false) (hwav : s.allow_waveext = false) (hmaps : s.chmaps = [])
    (hv : E.mp_chmap_is_valid c = true) :
    ((test_layout E s c).1 = true ↔ ∀ sp ∈ c.speaker, s.speakers.getD sp false = true) ∧
    (test_layout E s c).2 = c ∧
    (∀ c1, c1.speaker.Perm c.speaker → E.mp_chmap_is_valid c1 = true →
      (test_layout E s c1).1 = (test_layout E s c).1) ∧
    ((∃ sp ∈ c.speaker, s.speakers.getD sp false = false) → (test_layout E s c).1 = false) := by
  have key : ∀ m, E.mp_chmap_is_valid m = true →
      test_layout E s m = (test_speakers s m, m) := by
    intro m hm
    have hw : test_waveext E s m = (false, m) := by simp [test_waveext, hwav]
    have hmp : test_maps E s m = (false, m) := by simp [test_maps, hmaps]
    unfold test_layout
    by_cases h4 : test_speakers s m = true
    · simp [hm, hany, hw, h4]
    · have h4f : test_speakers s m = false := by simpa using h4
      simp [hm, hany, hw, h4f, hmp]
  rw [key c hv]
  refine ⟨test_speakers_iff s c, rfl, ?_, ?_⟩
  · intro c1 hperm hv1
    rw [key c1 hv1]
    have h1 := test_speakers_iff s c1
    have h2 := test_speakers_iff s c
    have h3 : (∀ sp ∈ c1.speaker, s.speakers.getD sp false = true) ↔
        (∀ sp ∈ c.speaker, s.speakers.getD sp false = true) := by
      constructor
      · intro h sp hsp; exact h sp ((hperm.mem_iff).2 hsp)
      · intro h sp hsp; exact h sp ((hperm.mem_iff).1 hsp)
    show test_speakers s c1 = test_speakers s c
    rw [Bool.eq_iff_iff, h1, h2, h3]
  · rintro ⟨sp, hsp, hno⟩
    show test_speakers s c = false
    by_contra hc
    have hc1 : test_speakers s c = true := by simpa using hc
    have := (test_speakers_iff s c).1 hc1 sp hsp
    rw [hno] at this
    exact absurd this (by simp)

/-- Witness of C26: the speakers 0, 1 and 2 are whitelisted; stereo and its
reordering are accepted unchanged, 2.1 with the speaker 3 is rejected. -/
theorem test_layout_whitelist_only_witness :
    test_layout env0 ⟨false, false, [true, true, true], [], false⟩ chmap_stereo
      = (true, chmap_stereo) ∧
    test_layout env0 ⟨false, false, [true, true, true], [], false⟩ ⟨[1, 0]⟩ = (true, ⟨[1, 0]⟩) ∧
    (test_layout env0 ⟨false, false, [true, true, true], [], false⟩ chmap_2_1).1 = false ∧
    ((test_layout env0 ⟨false, false, [true, true, true], [], false⟩ chmap_stereo).1 = true ↔
      ∀ sp ∈ chmap_stereo.speaker, ([true, true, true] : List Bool).getD sp false = true) :=
  ⟨by decide, by decide, by decide,
   (test_layout_whitelist_only env0 ⟨false, false, [true, true, true], [], false⟩ chmap_stereo
      rfl rfl rfl (by decide)).1⟩

/-- C27: rule precedence in `test_layout` for a valid candidate. With
accept-any set the candidate is accepted with its channel order unchanged,
whatever the other rules. With accept-any unset and the native-ordering flag
set, a candidate whose reordering to native order is a native-order layout is
accepted and replaced by that reordered form, whatever the whitelist and the
stored maps. -/
theorem test_layout_precedence (E : chmap_env) (s : mp_chmap_sel) (c : mp_chmap)
    (hv : E.mp_chmap_is_valid c = true) :
    (s.allow_any = true → test_layout E s c = (true, c)) ∧
    (s.allow_any = false → s.allow_waveext = true →
      E.mp_chmap_is_waveext (E.mp_chmap_reorder_to_waveext c) = true →
      test_layout E s c = (true, E.mp_chmap_reorder_to_waveext c)) := by
  refine ⟨?_, ?_⟩
  · intro hany
    simp [test_layout, hv, hany]
  · intro hany hwav hnat
    have hw : test_waveext E s c = (true, E.mp_chmap_reorder_to_waveext c) := by
      simp [test_waveext, hwav, hnat]
    simp [test_layout, hv, hany, hw]

/-- Witness of C27: the exchanged 7.1 is stored and the native-ordering flag
is set; the candidate, the exchanged 7.1, becomes 7.1 in native order and not
the stored map. With accept-any also set it is kept as it is. -/
theorem test_layout_precedence_witness :
    test_layout env0 ⟨false, true, List.replicate 72 false, [chmap_7_1_swapped], false⟩
      chmap_7_1_swapped = (true, chmap_7_1) ∧
    test_layout env0 ⟨true, true, List.replicate 72 false, [chmap_7_1], false⟩
      chmap_7_1_swapped = (true, chmap_7_1_swapped) ∧
    (test_layout env0 ⟨false, true, List.replicate 72 false, [chmap_7_1_swapped], false⟩
      chmap_7_1_swapped = (true, env0.mp_chmap_reorder_to_waveext chmap_7_1_swapped)) :=
  ⟨by decide, by decide,
   (test_layout_precedence env0
      ⟨false, true, List.replicate 72 false, [chmap_7_1_swapped], false⟩ chmap_7_1_swapped
      (by decide)).2 rfl rfl (by decide)⟩

/-! ## Speaker substitution -/

theorem replace_slot_nil (dst : List Nat) (sp : Nat) : replace_slot [] dst sp = none := by
  simp [replace_slot]

theorem replace_slot_cons (a b : Nat) (src dst : List Nat) (sp : Nat) :
    replace_slot (a :: src) (b :: dst) sp =
      if a = sp then some b else replace_slot src dst sp := by
  unfold replace_slot
  by_cases h : a = sp
  · simp [List.find?, h]
  · have hb : (a == sp) = false := by simpa using h
    simp only [List.zip_cons_cons, List.find?, hb, if_neg h]
    rfl

/-- A slot is replaced exactly when it holds a speaker of the source group. -/
theorem replace_slot_isSome_iff (src dst : List Nat) (sp : Nat)
    (hlen : src.length = dst.length) :
    (replace_slot src dst sp).isSome = true ↔ sp ∈ src := by
  induction src generalizing dst with
  | nil => simp [replace_slot_nil]
  | cons a src ih =>
    cases dst with
    | nil => simp at hlen
    | cons b dst =>
      rw [replace_slot_cons]
      have hl : src.length = dst.length := by simpa using hlen
      by_cases h : a = sp
      · simp [h]
      · rw [if_neg h, ih dst hl]
        constructor
        · intro hm; exact List.mem_cons_of_mem _ hm
        · intro hm
          rcases List.mem_cons.1 hm with h1 | h1
          · exact absurd h1.symm h
          · exact h1

theorem replace_slot_not_mem (src dst : List Nat) (sp : Nat) (h : sp ∉ src) :
    replace_slot src dst sp = none := by
  induction src generalizing dst with
  | nil => exact replace_slot_nil dst sp
  | cons a src ih =>
    cases dst with
    | nil => simp [replace_slot]
    | cons b dst =>
      rw [replace_slot_cons]
      have h1 : ¬ a = sp := fun e => h (by rw [e]; exact List.mem_cons_self _ _)
      rw [if_neg h1]
      exact ih dst (fun hm => h (List.mem_cons_of_mem _ hm))

/-- The speaker at position `i` of a duplicate-free source group is replaced
by the speaker at position `i` of the destination group. -/
theorem replace_slot_at (src dst : List Nat) (i x : Nat) (hnd : src.Nodup)
    (hlen : src.length = dst.length) (hi : src[i]? = some x) :
    replace_slot src dst x = dst[i]? := by
  induction src generalizing dst i with
  | nil => simp at hi
  | cons a src ih =>
    cases dst with
    | nil => simp at hlen
    | cons b dst =>
      rw [replace_slot_cons]
      have hl : src.length = dst.length := by simpa using hlen
      have hnd1 : src.Nodup := (List.nodup_cons.1 hnd).2
      have hna : a ∉ src := (List.nodup_cons.1 hnd).1
      cases i with
      | zero =>
        have hax : a = x := by simpa using hi
        simp [hax]
      | succ j =>
        have hj : src[j]? = some x := by simpa using hi
        have hxm : x ∈ src := List.getElem?_mem hj
        have hne : ¬ a = x := fun e => hna (by rw [e]; exact hxm)
        rw [if_neg hne]
        simpa using ih dst j hnd1 hl hj

theorem replace_dir_replaced_iff (src dst map : mp_chmap) (hlen : src.num = dst.num) :
    (replace_dir src dst map).1 = true ↔ ∃ sp ∈ map.speaker, sp ∈ src.speaker := by
  unfold replace_dir
  simp only [List.any_eq_true]
  constructor
  · rintro ⟨sp, hsp, h⟩
    exact ⟨sp, hsp, (replace_slot_isSome_iff _ _ sp hlen).1 h⟩
  · rintro ⟨sp, hsp, h⟩
    exact ⟨sp, hsp, (replace_slot_isSome_iff _ _ sp hlen).2 h⟩

/-- The outcome of `replace_speakers` for an entry of two equal-length groups:
the trial of the first direction (right group to left group) if it counts,
else the trial of the second direction if it counts, else failure with the
map as it was. -/
theorem replace_speakers_eq (E : chmap_env) (map : mp_chmap) (list : mp_chmap × mp_chmap)
    (hlen : list.1.num = list.2.num) :
    replace_speakers E map list =
      if E.mp_chmap_is_valid map = false then some (false, map)
      else if ((replace_dir list.2 list.1 map).1 &&
          E.mp_chmap_is_valid (replace_dir list.2 list.1 map).2) = true then
        some (true, (replace_dir list.2 list.1 map).2)
      else if ((replace_dir list.1 list.2 map).1 &&
          E.mp_chmap_is_valid (replace_dir list.1 list.2 map).2) = true then
        some (true, (replace_dir list.1 list.2 map).2)
      else some (false, map) := by
  unfold replace_speakers
  rw [if_neg (by simpa using hlen)]

/-- C28: for an entry of two equal-length groups, `replace_speakers` returns
true if and only if the map is valid and, for at least one of the two
directions, some channel slot holds a speaker of the from-group and the map
obtained by the substitution is a valid layout; when it returns false the map
is unchanged. -/
theorem replace_speakers_iff (E : chmap_env) (map : mp_chmap) (list : mp_chmap × mp_chmap)
    (hlen : list.1.num = list.2.num) :
    ∃ b t, replace_speakers E map list = some (b, t) ∧
      (b = true ↔
        (E.mp_chmap_is_valid map = true ∧
          (((∃ sp ∈ map.speaker, sp ∈ list.2.speaker) ∧
              E.mp_chmap_is_valid (replace_dir list.2 list.1 map).2 = true) ∨
            ((∃ sp ∈ map.speaker, sp ∈ list.1.speaker) ∧
              E.mp_chmap_is_valid (replace_dir list.1 list.2 map).2 = true)))) ∧
      (b = false → t = map) := by
  rw [replace_speakers_eq E map list hlen]
  rw [← replace_dir_replaced_iff list.2 list.1 map hlen.symm,
    ← replace_dir_replaced_iff list.1 list.2 map hlen]
  by_cases h1 : E.mp_chmap_is_valid map = false
  · rw [if_pos h1]
    exact ⟨false, map, rfl, by simp [h1], fun _ => rfl⟩
  · have hv : E.mp_chmap_is_valid map = true := by simpa using h1
    rw [if_neg h1]
    by_cases h2 : ((replace_dir list.2 list.1 map).1 &&
        E.mp_chmap_is_valid (replace_dir list.2 list.1 map).2) = true
    · rw [if_pos h2]
      refine ⟨true, _, rfl, ?_, fun h => absurd h (by simp)⟩
      simp only [Bool.and_eq_true] at h2
      simp [hv, h2]
    · rw [if_neg h2]
      by_cases h3 : ((replace_dir list.1 list.2 map).1 &&
          E.mp_chmap_is_valid (replace_dir list.1 list.2 map).2) = true
      · rw [if_pos h3]
        refine ⟨true, _, rfl, ?_, fun h => absurd h (by simp)⟩
        simp only [Bool.and_eq_true] at h3
        simp [hv, h3]
      · rw [if_neg h3]
        refine ⟨false, map, rfl, ?_, fun _ => rfl⟩
        simp only [Bool.and_eq_true] at h2 h3
        simp only [Bool.false_eq_true, false_iff, not_and, not_or]
        intro _
        exact ⟨fun ha hb => h2 ⟨ha, hb⟩, fun ha hb => h3 ⟨ha, hb⟩⟩

/-- Witness of C28: with the first entry of the table, 5.1 (bl, br) is turned
into 5.1(side); mono holds no speaker of either group and is left alone. -/
theorem replace_speakers_iff_witness :
    replace_speakers env0 chmap_5_1 (⟨[9, 10]⟩, ⟨[4, 5]⟩) = some (true, chmap_5_1_side) ∧
    replace_speakers env0 chmap_mono (⟨[9, 10]⟩, ⟨[4, 5]⟩) = some (false, chmap_mono) ∧
    ∃ b t, replace_speakers env0 chmap_5_1 (⟨[9, 10]⟩, ⟨[4, 5]⟩) = some (b, t) ∧
      (b = true ↔
        (env0.mp_chmap_is_valid chmap_5_1 = true ∧
          (((∃ sp ∈ chmap_5_1.speaker, sp ∈ [4, 5]) ∧
              env0.mp_chmap_is_valid (replace_dir ⟨[4, 5]⟩ ⟨[9, 10]⟩ chmap_5_1).2 = true) ∨
            ((∃ sp ∈ chmap_5_1.speaker, sp ∈ [9, 10]) ∧
              env0.mp_chmap_is_valid (replace_dir ⟨[9, 10]⟩ ⟨[4, 5]⟩ chmap_5_1).2 = true)))) ∧
      (b = false → t = chmap_5_1) :=
  ⟨by decide, by decide,
   replace_speakers_iff env0 chmap_5_1 (⟨[9, 10]⟩, ⟨[4, 5]⟩) rfl⟩

/-- The trial map of one direction, slot by slot, for a duplicate-free
from-group `src` and a to-group `dst` of the same length. -/
theorem replace_dir_slots (src dst map : mp_chmap) (hlen : src.num = dst.num)
    (hnd : src.speaker.Nodup) :
    (replace_dir src dst map).2.num = map.num ∧
    (∀ (k i x : Nat), map.speaker[k]? = some x → src.speaker[i]? = some x →
      (replace_dir src dst map).2.speaker[k]? = dst.speaker[i]?) ∧
    (∀ (k x : Nat), map.speaker[k]? = some x → x ∉ src.speaker →
      (replace_dir src dst map).2.speaker[k]? = some x) := by
  refine ⟨?_, ?_, ?_⟩
  · simp [replace_dir, mp_chmap.num]
  · intro k i x hk hi
    have hslot := replace_slot_at src.speaker dst.speaker i x hnd hlen hi
    have hil : i < dst.speaker.length := by
      have h1 : i < src.speaker.length := by
        by_contra hc
        rw [List.getElem?_eq_none (by omega)] at hi
        exact absurd hi (by simp)
      have h2 : src.speaker.length = dst.speaker.length := hlen
      omega
    obtain ⟨y, hy⟩ : ∃ y, dst.speaker[i]? = some y :=
      ⟨dst.speaker[i], List.getElem?_eq_getElem hil⟩
    simp only [replace_dir, List.getElem?_map, hk, Option.map_some', hslot, hy, Option.getD_some]
  · intro k x hk hx
    have hslot := replace_slot_not_mem src.speaker dst.speaker x hx
    simp only [replace_dir, List.getElem?_map, hk, Option.map_some', hslot, Option.getD_none]

/-- A trial that replaced something differs from the map in some slot, when
corresponding speakers of the two groups differ. -/
theorem replace_dir_differs (src dst map : mp_chmap) (hlen : src.num = dst.num)
    (hnd : src.speaker.Nodup)
    (hne : ∀ (i x y : Nat), src.speaker[i]? = some x → dst.speaker[i]? = some y → x ≠ y)
    (hrep : (replace_dir src dst map).1 = true) :
    ∃ k : Nat, (replace_dir src dst map).2.speaker[k]? ≠ map.speaker[k]? := by
  obtain ⟨sp, hsp, hsrc⟩ := (replace_dir_replaced_iff src dst map hlen).1 hrep
  obtain ⟨k, hk⟩ := List.getElem?_of_mem hsp
  obtain ⟨i, hi⟩ := List.getElem?_of_mem hsrc
  have hslot := (replace_dir_slots src dst map hlen hnd).2.1 k i sp hk hi
  have hil : i < dst.speaker.length := by
    have h1 : i < src.speaker.length := by
      by_contra hc
      rw [List.getElem?_eq_none (by omega)] at hi
      exact absurd hi (by simp)
    have h2 : src.speaker.length = dst.speaker.length := hlen
    omega
  have hy : dst.speaker[i]? = some dst.speaker[i] := List.getElem?_eq_getElem hil
  refine ⟨k, ?_⟩
  rw [hslot, hk, hy]
  intro hc
  have : dst.speaker[i] = sp := by simpa using hc
  exact hne i sp _ hi hy this.symm

/-- C29: when `replace_speakers` succeeds on an entry of two duplicate-free
groups `a`, `b` of equal length whose corresponding speakers differ, there is
a direction (from `b` to `a`, or from `a` to `b`) such that the output has the
channel count of the input, every slot that held the `i`-th speaker of the
from-group holds the `i`-th speaker of the to-group, every other slot is
unchanged, and the output differs from the input in at least one slot. -/
theorem replace_speakers_positional (E : chmap_env) (map a b t : mp_chmap)
    (hlen : a.num = b.num) (hna : a.speaker.Nodup) (hnb : b.speaker.Nodup)
    (hne : ∀ (i x y : Nat), a.speaker[i]? = some x → b.speaker[i]? = some y → x ≠ y)
    (hrep : replace_speakers E map (a, b) = some (true, t)) :
    ∃ src dst, ((src = b ∧ dst = a) ∨ (src = a ∧ dst = b)) ∧
      t.num = map.num ∧
      (∀ (k i x : Nat), map.speaker[k]? = some x → src.speaker[i]? = some x →
        t.speaker[k]? = dst.speaker[i]?) ∧
      (∀ (k x : Nat), map.speaker[k]? = some x → x ∉ src.speaker → t.speaker[k]? = some x) ∧
      (∃ k : Nat, t.speaker[k]? ≠ map.speaker[k]?) := by
  rw [replace_speakers_eq E map (a, b) hlen] at hrep
  by_cases h1 : E.mp_chmap_is_valid map = false
  · rw [if_pos h1] at hrep
    simp at hrep
  · rw [if_neg h1] at hrep
    by_cases h2 : ((replace_dir b a map).1 && E.mp_chmap_is_valid (replace_dir b a map).2) = true
    · rw [if_pos h2] at hrep
      have ht : (replace_dir b a map).2 = t := by simpa using hrep
      simp only [Bool.and_eq_true] at h2
      obtain ⟨hnum, hslot, hother⟩ := replace_dir_slots b a map hlen.symm hnb
      have hdiff := replace_dir_differs b a map hlen.symm hnb
        (fun i x y hx hy => (hne i y x hy hx).symm) h2.1
      rw [ht] at hnum hslot hother hdiff
      exact ⟨b, a, Or.inl ⟨rfl, rfl⟩, hnum, hslot, hother, hdiff⟩
    · rw [if_neg h2] at hrep
      by_cases h3 : ((replace_dir a b map).1 &&
          E.mp_chmap_is_valid (replace_dir a b map).2) = true
      · rw [if_pos h3] at hrep
        have ht : (replace_dir a b map).2 = t := by simpa using hrep
        simp only [Bool.and_eq_true] at h3
        obtain ⟨hnum, hslot, hother⟩ := replace_dir_slots a b map hlen hna
        have hdiff := replace_dir_differs a b map hlen hna hne h3.1
        rw [ht] at hnum hslot hother hdiff
        exact ⟨a, b, Or.inr ⟨rfl, rfl⟩, hnum, hslot, hother, hdiff⟩
      · rw [if_neg h3] at hrep
        simp at hrep

/-- Witness of C29: the first entry of the table on 5.1; the slots of bl and
br now hold sl and sr. -/
theorem replace_speakers_positional_witness :
    replace_speakers env0 chmap_5_1 (⟨[9, 10]⟩, ⟨[4, 5]⟩) = some (true, chmap_5_1_side) ∧
    ∃ src dst : mp_chmap, ((src = ⟨[4, 5]⟩ ∧ dst = ⟨[9, 10]⟩) ∨ (src = ⟨[9, 10]⟩ ∧ dst = ⟨[4, 5]⟩)) ∧
      chmap_5_1_side.num = chmap_5_1.num ∧
      (∀ (k i x : Nat), chmap_5_1.speaker[k]? = some x → src.speaker[i]? = some x →
        chmap_5_1_side.speaker[k]? = dst.speaker[i]?) ∧
      (∀ (k x : Nat), chmap_5_1.speaker[k]? = some x → x ∉ src.speaker →
        chmap_5_1_side.speaker[k]? = some x) ∧
      (∃ k : Nat, chmap_5_1_side.speaker[k]? ≠ chmap_5_1.speaker[k]?) :=
  ⟨by decide,
   replace_speakers_positional env0 chmap_5_1 ⟨[9, 10]⟩ ⟨[4, 5]⟩ chmap_5_1_side rfl
     (by decide) (by decide)
     (fun i x y hx hy => by
        have hi : i < 2 := by
          by_contra hc
          have : ([9, 10] : List Nat)[i]? = none := List.getElem?_eq_none (by simp; omega)
          rw [this] at hx
          exact absurd hx (by simp)
        interval_cases i
        · simp at hx hy; omega
        · simp at hx hy; omega)
     (by decide)⟩

/-- Counterexample to C30: the map sl-br holds a speaker of each group of the
entry {sl, sr} / {bl, br} and both directions give a valid trial; the result
is the trial in which br, of the right group, became sr, of the left group,
and not the trial in which sl became bl. -/
theorem replace_speakers_direction_counterexample :
    env0.mp_chmap_is_valid ⟨[9, 5]⟩ = true ∧
    replace_dir ⟨[9, 10]⟩ ⟨[4, 5]⟩ ⟨[9, 5]⟩ = (true, ⟨[4, 5]⟩) ∧
    env0.mp_chmap_is_valid ⟨[4, 5]⟩ = true ∧
    replace_dir ⟨[4, 5]⟩ ⟨[9, 10]⟩ ⟨[9, 5]⟩ = (true, ⟨[9, 10]⟩) ∧
    env0.mp_chmap_is_valid ⟨[9, 10]⟩ = true ∧
    replace_speakers env0 ⟨[9, 5]⟩ (⟨[9, 10]⟩, ⟨[4, 5]⟩) = some (true, ⟨[9, 10]⟩) ∧
    replace_speakers env0 ⟨[9, 5]⟩ (⟨[9, 10]⟩, ⟨[4, 5]⟩) ≠ some (true, ⟨[4, 5]⟩) := by
  decide

/-- C30, amended: for a valid map and an entry of two equal-length groups,
the trial tried first replaces speakers of the entry's right (second) group by
the corresponding speakers of its left (first) group; when that trial counts
(something was replaced and the trial is valid) it is the result, also when
the other direction would give a valid trial. The trial that replaces speakers
of the left group by those of the right group is the result only when the
first trial does not count. -/
theorem replace_speakers_direction_order (E : chmap_env) (map : mp_chmap)
    (list : mp_chmap × mp_chmap) (hlen : list.1.num = list.2.num)
    (hv : E.mp_chmap_is_valid map = true) :
    ((replace_dir list.2 list.1 map).1 = true →
      E.mp_chmap_is_valid (replace_dir list.2 list.1 map).2 = true →
      replace_speakers E map list = some (true, (replace_dir list.2 list.1 map).2)) ∧
    (((replace_dir list.2 list.1 map).1 &&
        E.mp_chmap_is_valid (replace_dir list.2 list.1 map).2) = false →
      (replace_dir list.1 list.2 map).1 = true →
      E.mp_chmap_is_valid (replace_dir list.1 list.2 map).2 = true →
      replace_speakers E map list = some (true, (replace_dir list.1 list.2 map).2)) := by
  rw [replace_speakers_eq E map list hlen]
  have h1 : ¬ (E.mp_chmap_is_valid map = false) := by simp [hv]
  rw [if_neg h1]
  refine ⟨?_, ?_⟩
  · intro ha hb
    simp [ha, hb]
  · intro h0 ha hb
    simp [h0, ha, hb]

/-- Witness of C30, amended: on sl-br the first direction gives sl-sr; on
5.1(side), which holds no speaker of the right group, the second direction
gives 5.1. -/
theorem replace_speakers_direction_order_witness :
    replace_speakers env0 ⟨[9, 5]⟩ (⟨[9, 10]⟩, ⟨[4, 5]⟩)
      = some (true, (replace_dir ⟨[4, 5]⟩ ⟨[9, 10]⟩ ⟨[9, 5]⟩).2) ∧
    replace_speakers env0 chmap_5_1_side (⟨[9, 10]⟩, ⟨[4, 5]⟩)
      = some (true, (replace_dir ⟨[9, 10]⟩ ⟨[4, 5]⟩ chmap_5_1_side).2) ∧
    (replace_dir ⟨[9, 10]⟩ ⟨[4, 5]⟩ chmap_5_1_side).2 = chmap_5_1 :=
  ⟨(replace_speakers_direction_order env0 ⟨[9, 5]⟩ (⟨[9, 10]⟩, ⟨[4, 5]⟩) rfl (by decide)).1
     (by decide) (by decide),
   (replace_speakers_direction_order env0 chmap_5_1_side (⟨[9, 10]⟩, ⟨[4, 5]⟩) rfl
     (by decide)).2 (by decide) (by decide) (by decide),
   by decide⟩

/-! ## Section 6 of the specification and the tests -/

/-- Helpers that compute `diff` and `contains` on 5.1 and the exchanged 7.1 as
section 6 of the specification describes them make the search return true for
the exchanged 7.1 stored and 5.1 requested, the input on which tests/all.c
(lines 134-149) expects false. -/
theorem section6_diff_selects_exchanged (E : chmap_env)
    (hdiff : ∀ a b, (E.mp_chmap_diff a b).speaker
      = a.speaker.filter (fun sp => !(b.speaker.contains sp)))
    (hiff : (E.mp_chmap_diff chmap_5_1 chmap_7_1_swapped).speaker = [] ↔
      E.mp_chmap_contains chmap_7_1_swapped chmap_5_1 = true) :
    (mp_chmap_sel_fallback E ⟨false, false, [], [chmap_7_1_swapped], false⟩ chmap_5_1).1
      = true := by
  have h1 : (E.mp_chmap_diff chmap_5_1 chmap_7_1_swapped).speaker = [] := by
    rw [hdiff]; decide
  have hc : E.mp_chmap_contains chmap_7_1_swapped chmap_5_1 = true := hiff.1 h1
  have hfit : ∀ e ∈ [chmap_7_1_swapped], (E.mp_chmap_diff e chmap_5_1).num ≤ UINT8_MAX := by
    intro e he
    have : e = chmap_7_1_swapped := by simpa using he
    rw [this]
    unfold mp_chmap.num
    rw [hdiff]
    decide
  obtain ⟨_, out, _, _, hf, _⟩ := fallback_upmix_first_min E
    ⟨false, false, [], [chmap_7_1_swapped], false⟩ chmap_5_1 hfit
    ⟨chmap_7_1_swapped, by simp, hc⟩
  rw [hf]

/-! ## Frame and monotonicity of the acceptance predicate -/

/-- C33: when `test_layout` returns false the candidate is unchanged, so
`mp_chmap_sel_adjust` runs the unknown-layout default, the substitution loop,
the fallback search and the last resort on the caller's original input. -/
theorem test_layout_reject_frame (E : chmap_env) (s : mp_chmap_sel) (c : mp_chmap)
    (h : (test_layout E s c).1 = false) :
    test_layout E s c = (false, c) ∧
    mp_chmap_sel_adjust E s c =
      (if (E.mp_chmap_is_unknown c &&
          (mp_chmap_sel_get_def E s mp_chmap_empty (c.num : Int)).1 &&
          (test_layout E s (mp_chmap_sel_get_def E s mp_chmap_empty (c.num : Int)).2).1) = true
        then
        some (true, (test_layout E s
          (mp_chmap_sel_get_def E s mp_chmap_empty (c.num : Int)).2).2)
      else
        match adjust_replacements E s c (speaker_replacements E) with
        | none => none
        | some (some t) => some (true, t)
        | some none =>
          if (mp_chmap_sel_fallback E s c).1 = true then some (true, (mp_chmap_sel_fallback E s c).2)
          else some (adjust_last_resort E s)) := by
  have hmap := test_layout_false E s c h
  refine ⟨?_, ?_⟩
  · exact Prod.ext h hmap
  · unfold mp_chmap_sel_adjust
    simp only [h, hmap, Bool.false_eq_true, if_false]

/-- Witness of C33: 7.1 stored, candidate 5.1: the candidate is rejected and
left as it is; the fallback search then answers for 5.1. -/
theorem test_layout_reject_frame_witness :
    test_layout env0 ⟨false, false, List.replicate 72 false, [chmap_7_1], false⟩ chmap_5_1
      = (false, chmap_5_1) ∧
    mp_chmap_sel_adjust env0 ⟨false, false, List.replicate 72 false, [chmap_7_1], false⟩ chmap_5_1
      = some (true, chmap_7_1) :=
  ⟨(test_layout_reject_frame env0
      ⟨false, false, List.replicate 72 false, [chmap_7_1], false⟩ chmap_5_1 (by decide)).1,
   by decide⟩

/-- The accepting cases of `test_layout`. -/
theorem test_layout_accepted_iff (E : chmap_env) (s : mp_chmap_sel) (c : mp_chmap) :
    (test_layout E s c).1 = true ↔
      (E.mp_chmap_is_valid c = true ∧
        (s.allow_any = true ∨ (test_waveext E s c).1 = true ∨ test_speakers s c = true ∨
          (test_maps E s c).1 = true)) := by
  unfold test_layout
  by_cases h1 : E.mp_chmap_is_valid c = false
  · simp [h1]
  · have hv : E.mp_chmap_is_valid c = true := by simpa using h1
    by_cases h2 : s.allow_any = true
    · simp [hv, h2]
    · by_cases h3 : (test_waveext E s c).1 = true
      · simp [hv, h2, h3]
      · have h3f : (test_waveext E s c).1 = false := by simpa using h3
        have hw := test_waveext_false E s c h3f
        by_cases h4 : test_speakers s c = true
        · simp [hv, h2, h3f, hw, h4]
        · simp [hv, h2, h3f, hw, h4]

theorem getD_set_true (l : List Bool) (i j : Nat) (h : l.getD j false = true) :
    (l.set i true).getD j false = true := by
  by_cases hij : i = j
  · subst hij
    have hlt : i < l.length := by
      by_contra hc
      have : l.getD i false = false := by
        simp [List.getD_eq_getElem?_getD, List.getElem?_eq_none (by omega : l.length ≤ i)]
      rw [this] at h
      exact absurd h (by simp)
    simp [List.getD_eq_getElem?_getD, List.getElem?_set, hlt]
  · simp only [List.getD_eq_getElem?_getD, List.getElem?_set, hij, if_false] at h ⊢
    exact h

/-- Acceptance of a candidate survives a change of the criteria that keeps
every rule that held. -/
theorem test_layout_mono (E : chmap_env) (s s1 : mp_chmap_sel) (c : mp_chmap)
    (hany : s.allow_any = true → s1.allow_any = true)
    (hwav : s.allow_waveext = true → s1.allow_waveext = true)
    (hsp : ∀ j, s.speakers.getD j false = true → s1.speakers.getD j false = true)
    (hmaps : ∀ e ∈ s.chmaps, e ∈ s1.chmaps)
    (h : (test_layout E s c).1 = true) : (test_layout E s1 c).1 = true := by
  rw [test_layout_accepted_iff] at h ⊢
  obtain ⟨hv, hr⟩ := h
  refine ⟨hv, ?_⟩
  rcases hr with h1 | h1 | h1 | h1
  · exact Or.inl (hany h1)
  · right; left
    obtain ⟨ha, hb⟩ := (test_waveext_iff E s c).1 h1
    exact (test_waveext_iff E s1 c).2 ⟨hwav ha, hb⟩
  · right; right; left
    rw [test_speakers_iff] at h1 ⊢
    exact fun sp hsp1 => hsp sp (h1 sp hsp1)
  · right; right; right
    rw [test_maps_iff] at h1 ⊢
    obtain ⟨e, he, heq⟩ := h1
    exact ⟨e, hmaps e he, heq⟩

/-- C34: acceptance is monotone in the criteria. A candidate that
`test_layout` accepts under `s` is accepted under the criteria obtained from
`s` by `mp_chmap_sel_add_any`, by `mp_chmap_sel_add_waveext`, by
`mp_chmap_sel_add_speaker` with an id in range, and by `mp_chmap_sel_add_map`
with any map. -/
theorem test_layout_monotone (E : chmap_env) (s : mp_chmap_sel) (c : mp_chmap)
    (h : (test_layout E s c).1 = true) :
    (test_layout E (mp_chmap_sel_add_any s) c).1 = true ∧
    (test_layout E (mp_chmap_sel_add_waveext s) c).1 = true ∧
    (∀ id s1, mp_chmap_sel_add_speaker E s id = some s1 → (test_layout E s1 c).1 = true) ∧
    (∀ m, (test_layout E (mp_chmap_sel_add_map E s m) c).1 = true) := by
  refine ⟨?_, ?_, ?_, ?_⟩
  · exact test_layout_mono E s _ c (fun _ => rfl) (fun hw => hw) (fun _ hj => hj)
      (fun _ he => he) h
  · exact test_layout_mono E s _ c (fun ha => ha) (fun _ => rfl) (fun _ hj => hj)
      (fun _ he => he) h
  · intro id s1 hs1
    unfold mp_chmap_sel_add_speaker at hs1
    by_cases hid : 0 ≤ id ∧ id < (E.MP_SPEAKER_ID_COUNT : Int)
    · rw [if_pos hid] at hs1
      have hs : { s with speakers := s.speakers.set id.toNat true } = s1 := by simpa using hs1
      rw [← hs]
      exact test_layout_mono E s _ c (fun ha => ha) (fun hw => hw)
        (fun j hj => getD_set_true s.speakers id.toNat j hj) (fun _ he => he) h
    · rw [if_neg hid] at hs1
      simp at hs1
  · intro m
    unfold mp_chmap_sel_add_map
    by_cases h1 : E.mp_chmap_is_valid m = false
    · rw [if_pos h1]; exact h
    · rw [if_neg h1]
      by_cases h2 : s.num_chmaps = E.chmaps_storage_size ∧ s.tmp = false
      · rw [if_pos h2]; exact h
      · rw [if_neg h2]
        exact test_layout_mono E s _ c (fun ha => ha) (fun hw => hw) (fun _ hj => hj)
          (fun e he => List.mem_append_left _ he) h

/-- Witness of C34: stereo is accepted under the criteria that store stereo,
and under each extension of them. -/
theorem test_layout_monotone_witness :
    (test_layout env0 ⟨false, false, List.replicate 72 false, [chmap_stereo], false⟩
      chmap_stereo).1 = true ∧
    (test_layout env0 (mp_chmap_sel_add_waveext
      ⟨false, false, List.replicate 72 false, [chmap_stereo], false⟩) chmap_stereo).1 = true ∧
    (test_layout env0 (mp_chmap_sel_add_map env0
      ⟨false, false, List.replicate 72 false, [chmap_stereo], false⟩ chmap_7_1)
      chmap_stereo).1 = true :=
  ⟨by decide,
   (test_layout_monotone env0 ⟨false, false, List.replicate 72 false, [chmap_stereo], false⟩
      chmap_stereo (by decide)).2.1,
   (test_layout_monotone env0 ⟨false, false, List.replicate 72 false, [chmap_stereo], false⟩
      chmap_stereo (by decide)).2.2.2 chmap_7_1⟩

/-! ## Fallback on the empty request; acceptance only reorders -/

/-- C35: `mp_chmap_sel_fallback` does not validate its input. For the empty
requested map and criteria with at least one stored map it returns true with
the stored map of fewest channels, the first inserted among those. The
helpers of the absent chmap.c are assumed to report every map as containing
the empty map and `diff(e, empty)` as having the channels of `e`; the channel
counts are values of a `uint8_t` field. -/
theorem fallback_empty_request (E : chmap_env) (s : mp_chmap_sel)
    (hc : ∀ e, E.mp_chmap_contains e mp_chmap_empty = true)
    (hd : ∀ e, (E.mp_chmap_diff e mp_chmap_empty).num = e.num)
    (hfit : ∀ e ∈ s.chmaps, e.num ≤ UINT8_MAX)
    (hne : s.chmaps ≠ []) :
    ∃ pre out post, s.chmaps = pre ++ out :: post ∧
      mp_chmap_sel_fallback E s mp_chmap_empty = (true, out) ∧
      (∀ x ∈ pre, out.num < x.num) ∧ (∀ x ∈ post, out.num ≤ x.num) := by
  have hex : ∃ e ∈ s.chmaps, E.mp_chmap_contains e mp_chmap_empty = true := by
    cases hl : s.chmaps with
    | nil => exact absurd hl hne
    | cons e l => exact ⟨e, List.mem_cons_self _ _, hc e⟩
  obtain ⟨pre, out, post, hsplit, hf, _, hpre, hpost⟩ :=
    fallback_upmix_first_min E s mp_chmap_empty
      (fun e he => by rw [hd e]; exact hfit e he) hex
  refine ⟨pre, out, post, hsplit, hf, ?_, ?_⟩
  · intro x hx
    have := hpre x hx (hc x)
    rwa [hd, hd] at this
  · intro x hx
    have := hpost x hx (hc x)
    rwa [hd, hd] at this

theorem env0_contains_empty : ∀ e, env0.mp_chmap_contains e mp_chmap_empty = true := by
  intro e
  rfl

theorem env0_diff_empty : ∀ e, (env0.mp_chmap_diff e mp_chmap_empty).num = e.num := by
  intro e
  have h : env0.mp_chmap_diff e mp_chmap_empty
      = ⟨e.speaker.filter (fun sp => !(([] : List Nat).contains sp))⟩ := rfl
  rw [h]
  simp [mp_chmap.num]

/-- Witness of C35: 5.1, stereo, 7.1 and the exchanged stereo are stored; the
empty request gets stereo, the first of the two maps with two channels. -/
theorem fallback_empty_request_witness :
    mp_chmap_sel_fallback env0
      ⟨false, false, List.replicate 72 false, [chmap_5_1, chmap_stereo, chmap_7_1, ⟨[1, 0]⟩], false⟩
      mp_chmap_empty = (true, chmap_stereo) ∧
    ∃ pre out post, [chmap_5_1, chmap_stereo, chmap_7_1, ⟨[1, 0]⟩] = pre ++ out :: post ∧
      mp_chmap_sel_fallback env0
        ⟨false, false, List.replicate 72 false,
          [chmap_5_1, chmap_stereo, chmap_7_1, ⟨[1, 0]⟩], false⟩
        mp_chmap_empty = (true, out) ∧
      (∀ x ∈ pre, out.num < x.num) ∧ (∀ x ∈ post, out.num ≤ x.num) :=
  ⟨by decide,
   fallback_empty_request env0
     ⟨false, false, List.replicate 72 false, [chmap_5_1, chmap_stereo, chmap_7_1, ⟨[1, 0]⟩], false⟩
     env0_contains_empty env0_diff_empty (by decide) (by decide)⟩

/-- C32: acceptance only reorders. For criteria whose stored maps are valid,
when `test_layout` returns true the map it leaves is a valid layout with the
same set of speakers and the same channel count as the candidate. The helpers
of the absent chmap.c are assumed to accept as native-order layouts valid maps
only, to permute a map when reordering it, and to compare equal up to
reordering only maps of one count and one speaker set. -/
theorem test_layout_only_reorders (E : chmap_env)
    (hwv : ∀ t, E.mp_chmap_is_waveext t = true → E.mp_chmap_is_valid t = true)
    (hperm : ∀ m, (E.mp_chmap_reorder_to_waveext m).speaker.Perm m.speaker)
    (heq : ∀ a b, E.mp_chmap_equals_reordered a b = true →
      a.num = b.num ∧ ∀ sp, sp ∈ a.speaker ↔ sp ∈ b.speaker)
    (s : mp_chmap_sel) (hs : ∀ e ∈ s.chmaps, E.mp_chmap_is_valid e = true) (c : mp_chmap)
    (h : (test_layout E s c).1 = true) :
    E.mp_chmap_is_valid (test_layout E s c).2 = true ∧
    (∀ sp, sp ∈ (test_layout E s c).2.speaker ↔ sp ∈ c.speaker) ∧
    (test_layout E s c).2.num = c.num := by
  refine ⟨test_layout_true_valid E hwv s hs c h, ?_⟩
  rcases test_layout_true_cases E s c h with h1 | h1 | h1
  · rw [h1]
    exact ⟨fun _ => Iff.rfl, rfl⟩
  · rw [h1]
    exact ⟨fun _ => (hperm c).mem_iff, (hperm c).length_eq⟩
  · exact ⟨(heq _ _ h1.2).2, (heq _ _ h1.2).1⟩

theorem insert_sorted_perm (x : Nat) (l : List Nat) : (insert_sorted x l).Perm (x :: l) := by
  induction l with
  | nil => exact List.Perm.refl _
  | cons y ys ih =>
    unfold insert_sorted
    by_cases h : x ≤ y
    · rw [if_pos h]
    · rw [if_neg h]
      exact (List.Perm.cons y ih).trans (List.Perm.swap x y ys)

theorem sort_speakers_perm (l : List Nat) : (sort_speakers l).Perm l := by
  induction l with
  | nil => exact List.Perm.refl _
  | cons x xs ih =>
    unfold sort_speakers
    exact (insert_sorted_perm x (sort_speakers xs)).trans (List.Perm.cons x ih)

theorem env0_reorder_perm :
    ∀ m, (env0.mp_chmap_reorder_to_waveext m).speaker.Perm m.speaker := by
  intro m
  have h : env0.mp_chmap_reorder_to_waveext m
      = if spec_is_valid 8 72 m then ⟨sort_speakers m.speaker⟩ else m := rfl
  rw [h]
  by_cases hv : spec_is_valid 8 72 m = true
  · rw [if_pos hv]
    exact sort_speakers_perm m.speaker
  · rw [if_neg hv]

theorem env0_equals_reordered_set :
    ∀ a b, env0.mp_chmap_equals_reordered a b = true →
      a.num = b.num ∧ ∀ sp, sp ∈ a.speaker ↔ sp ∈ b.speaker := by
  intro a b h
  have h1 : (decide (a.num = b.num) && spec_contains a b && spec_contains b a) = true := h
  simp only [Bool.and_eq_true, decide_eq_true_eq] at h1
  exact ⟨h1.1.1, fun sp => ⟨spec_contains_mem b a h1.2 sp, spec_contains_mem a b h1.1.2 sp⟩⟩

/-- Witness of C32: the exchanged 7.1 is stored, the candidate is 7.1; the
accepted form is the stored map, with the speakers and the count of 7.1. -/
theorem test_layout_only_reorders_witness :
    test_layout env0 ⟨false, false, List.replicate 72 false, [chmap_7_1_swapped], false⟩
      chmap_7_1 = (true, chmap_7_1_swapped) ∧
    (env0.mp_chmap_is_valid (test_layout env0
        ⟨false, false, List.replicate 72 false, [chmap_7_1_swapped], false⟩ chmap_7_1).2 = true ∧
      (∀ sp, sp ∈ (test_layout env0
          ⟨false, false, List.replicate 72 false, [chmap_7_1_swapped], false⟩
          chmap_7_1).2.speaker ↔ sp ∈ chmap_7_1.speaker) ∧
      (test_layout env0 ⟨false, false, List.replicate 72 false, [chmap_7_1_swapped], false⟩
        chmap_7_1).2.num = chmap_7_1.num) :=
  ⟨by decide,
   test_layout_only_reorders env0 env0_waveext_valid env0_reorder_perm env0_equals_reordered_set
     ⟨false, false, List.replicate 72 false, [chmap_7_1_swapped], false⟩ (by decide)
     chmap_7_1 (by decide)⟩

/-! ## Whitelist reads stay in bounds -/

theorem test_speakers_checked_eq (E : chmap_env) (s : mp_chmap_sel) (l : List Nat)
    (h : ∀ sp ∈ l, sp < E.MP_SPEAKER_ID_COUNT) :
    test_speakers_checked E s l = some (l.all (fun sp => s.speakers.getD sp false)) := by
  induction l with
  | nil => rfl
  | cons sp rest ih =>
    have h1 : sp < E.MP_SPEAKER_ID_COUNT := h sp (List.mem_cons_self _ _)
    have h2 := ih (fun x hx => h x (List.mem_cons_of_mem _ hx))
    unfold test_speakers_checked
    simp only [speakers_read, if_pos h1, List.all_cons]
    cases hb : s.speakers.getD sp false
    · simp
    · simp [h2]

theorem test_layout_checked_eq (E : chmap_env)
    (hrange : ∀ m, E.mp_chmap_is_valid m = true → ∀ sp ∈ m.speaker, sp < E.MP_SPEAKER_ID_COUNT)
    (s : mp_chmap_sel) (map : mp_chmap) :
    test_layout_checked E s map = some (test_layout E s map) := by
  unfold test_layout_checked test_layout
  by_cases hv : E.mp_chmap_is_valid map = false
  · simp only [hv, if_true]
  · have hv1 : E.mp_chmap_is_valid map = true := by simpa using hv
    by_cases ha : s.allow_any = true
    · simp only [hv1, ha, Bool.true_eq_false, if_false, if_true]
    · by_cases hw : (test_waveext E s map).1 = true
      · simp only [hv1, ha, hw, Bool.true_eq_false, Bool.false_eq_true, if_false, if_true]
      · have hw1 : (test_waveext E s map).1 = false := by simpa using hw
        have hw2 := test_waveext_false E s map hw1
        simp only [hv1, ha, hw1, hw2, Bool.true_eq_false, Bool.false_eq_true, if_false]
        rw [test_speakers_checked_eq E s map.speaker (hrange map hv1)]
        unfold test_speakers
        cases hb : map.speaker.all (fun sp => s.speakers.getD sp false)
        · simp
        · simp

theorem get_def_checked_eq (E : chmap_env)
    (hrange : ∀ m, E.mp_chmap_is_valid m = true → ∀ sp ∈ m.speaker, sp < E.MP_SPEAKER_ID_COUNT)
    (s : mp_chmap_sel) (map : mp_chmap) (num : Int) :
    mp_chmap_sel_get_def_checked E s map num = some (mp_chmap_sel_get_def E s map num) := by
  unfold mp_chmap_sel_get_def_checked mp_chmap_sel_get_def
  by_cases h : (map.num : Int) ≠ num
  · simp only [if_pos h, test_layout_checked_eq E hrange]
  · simp only [if_neg h]

theorem adjust_replacements_checked_eq (E : chmap_env)
    (hrange : ∀ m, E.mp_chmap_is_valid m = true → ∀ sp ∈ m.speaker, sp < E.MP_SPEAKER_ID_COUNT)
    (s : mp_chmap_sel) (map : mp_chmap) (l : List (mp_chmap × mp_chmap)) :
    adjust_replacements_checked E s map l =
      (match adjust_replacements E s map l with
       | none => checked.assert_failed
       | some r => checked.done r) := by
  induction l with
  | nil => rfl
  | cons r rest ih =>
    unfold adjust_replacements_checked adjust_replacements
    cases hr : replace_speakers E map r with
    | none => rfl
    | some p =>
      obtain ⟨b, t⟩ := p
      cases b with
      | false =>
        simp only [Bool.false_and, Bool.false_eq_true, if_false]
        exact ih
      | true =>
        simp only [test_layout_checked_eq E hrange, Bool.true_and]
        cases hq : test_layout E s t with
        | mk b1 t1 =>
          cases b1 with
          | false =>
            simp only [Bool.false_eq_true, if_false]
            exact ih
          | true => simp only [if_true]

theorem adjust_last_resort_checked_eq (E : chmap_env)
    (hrange : ∀ m, E.mp_chmap_is_valid m = true → ∀ sp ∈ m.speaker, sp < E.MP_SPEAKER_ID_COUNT)
    (s : mp_chmap_sel) :
    adjust_last_resort_checked E s = some (adjust_last_resort E s) := by
  unfold adjust_last_resort_checked adjust_last_resort
  simp only [test_layout_checked_eq E hrange]
  cases h1 : test_layout E s (MP_CHMAP_INIT_STEREO E) with
  | mk b1 t1 =>
    cases b1 with
    | true => simp only [if_true]
    | false =>
      simp only [Bool.false_eq_true, if_false]
      cases h2 : test_layout E s (MP_CHMAP_INIT_MONO E) with
      | mk b2 t2 =>
        cases b2 with
        | true => simp only [if_true]
        | false => simp only [Bool.false_eq_true, if_false]

theorem adjust_unknown_checked_eq (E : chmap_env)
    (hrange : ∀ m, E.mp_chmap_is_valid m = true → ∀ sp ∈ m.speaker, sp < E.MP_SPEAKER_ID_COUNT)
    (s : mp_chmap_sel) (map : mp_chmap) :
    adjust_unknown_checked E s map =
      some (if (E.mp_chmap_is_unknown map &&
                (mp_chmap_sel_get_def E s mp_chmap_empty (map.num : Int)).1 &&
                (test_layout E s (mp_chmap_sel_get_def E s mp_chmap_empty (map.num : Int)).2).1) = true
            then some (test_layout E s
              (mp_chmap_sel_get_def E s mp_chmap_empty (map.num : Int)).2).2
            else none) := by
  unfold adjust_unknown_checked
  simp only [get_def_checked_eq E hrange, test_layout_checked_eq E hrange]
  cases hu : E.mp_chmap_is_unknown map with
  | false => simp
  | true =>
    cases hg : mp_chmap_sel_get_def E s mp_chmap_empty (map.num : Int) with
    | mk b t =>
      cases b with
      | false => simp
      | true =>
        cases hq : test_layout E s t with
        | mk b1 t1 =>
          cases b1 with
          | false => simp [hq]
          | true => simp [hq]

theorem adjust_checked_eq (E : chmap_env)
    (hrange : ∀ m, E.mp_chmap_is_valid m = true → ∀ sp ∈ m.speaker, sp < E.MP_SPEAKER_ID_COUNT)
    (s : mp_chmap_sel) (map : mp_chmap) :
    mp_chmap_sel_adjust_checked E s map = checked_of (mp_chmap_sel_adjust E s map) := by
  unfold mp_chmap_sel_adjust_checked mp_chmap_sel_adjust
  simp only [test_layout_checked_eq E hrange]
  cases h0 : test_layout E s map with
  | mk b0 t0 =>
    cases b0 with
    | true => simp only [if_true]; rfl
    | false =>
      simp only [Bool.false_eq_true, if_false, adjust_unknown_checked_eq E hrange,
        adjust_replacements_checked_eq E hrange, adjust_last_resort_checked_eq E hrange]
      by_cases hu : (E.mp_chmap_is_unknown t0 &&
                (mp_chmap_sel_get_def E s mp_chmap_empty (t0.num : Int)).1 &&
                (test_layout E s (mp_chmap_sel_get_def E s mp_chmap_empty (t0.num : Int)).2).1) = true
      · simp only [if_pos hu]; rfl
      · simp only [if_neg hu]
        cases hr : adjust_replacements E s t0 (speaker_replacements E) with
        | none => rfl
        | some o =>
          cases o with
          | some t => rfl
          | none =>
            simp only []
            by_cases hf : (mp_chmap_sel_fallback E s t0).1 = true
            · simp only [if_pos hf]; rfl
            · simp only [if_neg hf]; rfl

/-- C36: whitelist lookups stay in bounds. With every read of `s->speakers[]`
checked against the `MP_SPEAKER_ID_COUNT` entries of the array,
`mp_chmap_sel_adjust` and `mp_chmap_sel_get_def` never take the out-of-range
outcome and return what the unchecked functions return, for arbitrary criteria
and maps: `test_speakers` is reached only on a map that passed
`mp_chmap_is_valid`. The validity check of the absent chmap.c is assumed to
pass only maps whose speakers are identifiers below `MP_SPEAKER_ID_COUNT`. -/
theorem whitelist_lookups_in_bounds (E : chmap_env)
    (hrange : ∀ m, E.mp_chmap_is_valid m = true → ∀ sp ∈ m.speaker, sp < E.MP_SPEAKER_ID_COUNT)
    (s : mp_chmap_sel) (map : mp_chmap) (num : Int) :
    mp_chmap_sel_adjust_checked E s map ≠ checked.out_of_range ∧
    mp_chmap_sel_adjust_checked E s map = checked_of (mp_chmap_sel_adjust E s map) ∧
    mp_chmap_sel_get_def_checked E s map num = some (mp_chmap_sel_get_def E s map num) := by
  have h1 := adjust_checked_eq E hrange s map
  refine ⟨?_, h1, get_def_checked_eq E hrange s map num⟩
  rw [h1]
  cases mp_chmap_sel_adjust E s map with
  | none => simp [checked_of]
  | some p => simp [checked_of]

theorem env0_valid_range :
    ∀ m, env0.mp_chmap_is_valid m = true → ∀ sp ∈ m.speaker, sp < env0.MP_SPEAKER_ID_COUNT := by
  intro m hv sp hsp
  have h1 : (decide (0 < m.num) && decide (m.num ≤ 8) &&
      m.speaker.all (fun sp => decide (sp < 72)) && decide m.speaker.Nodup) = true := hv
  simp only [Bool.and_eq_true, List.all_eq_true, decide_eq_true_eq] at h1
  exact h1.1.2 sp hsp

/-- Witness of C36: the whitelist holds fl and fr only; the request names the
speaker 200, outside the 72 identifiers. The validity check rejects it before
any lookup, and the negotiation ends with stereo through the last resort; the
default for one channel, mono, is looked up and refused. -/
theorem whitelist_lookups_in_bounds_witness :
    mp_chmap_sel_adjust_checked env0
      ⟨false, false, (List.replicate 72 false).set 0 true |>.set 1 true, [], false⟩ ⟨[0, 200]⟩
      = checked.done (true, chmap_stereo) ∧
    mp_chmap_sel_adjust_checked env0
      ⟨false, false, (List.replicate 72 false).set 0 true |>.set 1 true, [], false⟩ ⟨[0, 200]⟩
      ≠ checked.out_of_range ∧
    mp_chmap_sel_get_def_checked env0
      ⟨false, false, (List.replicate 72 false).set 0 true |>.set 1 true, [], false⟩ ⟨[0, 200]⟩ 1
      = some (false, mp_chmap_empty) :=
  ⟨by decide,
   (whitelist_lookups_in_bounds env0 env0_valid_range
      ⟨false, false, (List.replicate 72 false).set 0 true |>.set 1 true, [], false⟩
      ⟨[0, 200]⟩ 2).1,
   by decide⟩

/-! ## Idempotence of the negotiation -/

/-- The outcome of `mp_chmap_sel_adjust`, with the success of the fallback
search kept apart: a failure leaves the empty map, a success leaves the result
of an acceptance or the result of `mp_chmap_sel_fallback` on the input. -/
theorem adjust_outcome_fallback (E : chmap_env) (s : mp_chmap_sel) (map : mp_chmap) :
    mp_chmap_sel_adjust E s map = some (false, mp_chmap_empty) ∨
      (∃ t0, (test_layout E s t0).1 = true ∧
        mp_chmap_sel_adjust E s map = some (true, (test_layout E s t0).2)) ∨
      ((mp_chmap_sel_fallback E s map).1 = true ∧
        mp_chmap_sel_adjust E s map = some (true, (mp_chmap_sel_fallback E s map).2)) := by
  unfold mp_chmap_sel_adjust
  by_cases h0 : (test_layout E s map).1 = true
  · right; left
    exact ⟨map, h0, by simp only [h0, if_true]⟩
  · have h0f : (test_layout E s map).1 = false := by simpa using h0
    have hmap := test_layout_false E s map h0f
    simp only [h0f, hmap, Bool.false_eq_true, if_false]
    by_cases h1 : (E.mp_chmap_is_unknown map &&
        (mp_chmap_sel_get_def E s mp_chmap_empty (map.num : Int)).1 &&
        (test_layout E s (mp_chmap_sel_get_def E s mp_chmap_empty (map.num : Int)).2).1) = true
    · right; left
      refine ⟨(mp_chmap_sel_get_def E s mp_chmap_empty (map.num : Int)).2, ?_, ?_⟩
      · simp at h1; exact h1.2
      · rw [if_pos h1]
    · rw [if_neg h1]
      obtain ⟨r, hr, hrt⟩ := adjust_replacements_table E s map
      rw [hr]
      cases r with
      | some t =>
        right; left
        obtain ⟨t0, ht0, ht⟩ := hrt t rfl
        exact ⟨t0, ht0, by simp only [ht]⟩
      | none =>
        simp only []
        by_cases hf : (mp_chmap_sel_fallback E s map).1 = true
        · right; right
          exact ⟨hf, by rw [if_pos hf]⟩
        · rw [if_neg hf]
          unfold adjust_last_resort
          by_cases h2 : (test_layout E s (MP_CHMAP_INIT_STEREO E)).1 = true
          · right; left
            exact ⟨_, h2, by rw [if_pos h2]⟩
          · by_cases h3 : (test_layout E s (MP_CHMAP_INIT_MONO E)).1 = true
            · right; left
              exact ⟨_, h3, by rw [if_neg h2, if_pos h3]⟩
            · left
              rw [if_neg h2, if_neg h3]

/-- Two first-match searches of one list that find each other's result find
the same entry. -/
theorem find_agree (p q : mp_chmap → Bool) (l : List mp_chmap) (a b : mp_chmap)
    (ha : l.find? p = some a) (hb : l.find? q = some b)
    (hpb : p b = true) (hqa : q a = true) : a = b := by
  induction l with
  | nil => simp at ha
  | cons x xs ih =>
    by_cases hpx : p x = true
    · have hax : x = a := by simpa [List.find?_cons, hpx] using ha
      by_cases hqx : q x = true
      · have hbx : x = b := by simpa [List.find?_cons, hqx] using hb
        rw [← hax, ← hbx]
      · rw [← hax] at hqa
        exact absurd hqa hqx
    · by_cases hqx : q x = true
      · have hbx : x = b := by simpa [List.find?_cons, hqx] using hb
        rw [← hbx] at hpb
        exact absurd hpb hpx
      · have ha1 : xs.find? p = some a := by simpa [List.find?_cons, hpx] using ha
        have hb1 : xs.find? q = some b := by simpa [List.find?_cons, hqx] using hb
        exact ih ha1 hb1

/-- A search whose predicate holds of a member succeeds. -/
theorem find_of_mem (p : mp_chmap → Bool) (l : List mp_chmap) (e : mp_chmap)
    (he : e ∈ l) (hp : p e = true) : ∃ b, l.find? p = some b := by
  cases h : l.find? p with
  | some b => exact ⟨b, rfl⟩
  | none =>
    rw [List.find?_eq_none] at h
    exact absurd hp (h e he)

/-- A successful acceptance run hands on its result to `mp_chmap_sel_adjust`. -/
theorem adjust_of_accepted (E : chmap_env) (s : mp_chmap_sel) (m t : mp_chmap)
    (h : test_layout E s m = (true, t)) : mp_chmap_sel_adjust E s m = some (true, t) := by
  unfold mp_chmap_sel_adjust
  simp only [h, if_true]

/-- Without the native-ordering flag, a valid map that the accept-any flag or
the whitelist admits, or that is the first stored map equal to itself up to
reordering, is accepted as it stands. -/
theorem test_layout_fixed (E : chmap_env) (s : mp_chmap_sel) (m : mp_chmap)
    (hnw : s.allow_waveext = false) (hv : E.mp_chmap_is_valid m = true)
    (h : s.allow_any = true ∨ test_speakers s m = true ∨
      s.chmaps.find? (fun e => E.mp_chmap_equals_reordered e m) = some m) :
    test_layout E s m = (true, m) := by
  by_cases ha : s.allow_any = true
  · simp [test_layout, hv, ha]
  · by_cases hsp : test_speakers s m = true
    · simp [test_layout, test_waveext, hnw, hv, ha, hsp]
    · rcases h with h | h | h
      · exact absurd h ha
      · exact absurd h hsp
      · simp [test_layout, test_waveext, test_maps, hnw, hv, ha, hsp, h]

/-- Without the native-ordering flag the acceptance predicate is idempotent:
its result is accepted as it stands. -/
theorem test_layout_idem (E : chmap_env)
    (hrefl : ∀ a, E.mp_chmap_is_valid a = true → E.mp_chmap_equals_reordered a a = true)
    (htrans : ∀ a b c, E.mp_chmap_equals_reordered a b = true →
      E.mp_chmap_equals_reordered b c = true → E.mp_chmap_equals_reordered a c = true)
    (s : mp_chmap_sel) (hs : ∀ e ∈ s.chmaps, E.mp_chmap_is_valid e = true)
    (hnw : s.allow_waveext = false) (x : mp_chmap) (h : (test_layout E s x).1 = true) :
    test_layout E s (test_layout E s x).2 = (true, (test_layout E s x).2) := by
  have hacc := (test_layout_accepted_iff E s x).1 h
  have hv := hacc.1
  by_cases ha : s.allow_any = true
  · have hx : test_layout E s x = (true, x) := by simp [test_layout, hv, ha]
    rw [hx]
    exact test_layout_fixed E s x hnw hv (Or.inl ha)
  · by_cases hsp : test_speakers s x = true
    · have hx : test_layout E s x = (true, x) := by
        simp [test_layout, test_waveext, hnw, hv, ha, hsp]
      rw [hx]
      exact test_layout_fixed E s x hnw hv (Or.inr (Or.inl hsp))
    · have hx : test_layout E s x = test_maps E s x := by
        simp [test_layout, test_waveext, hnw, hv, ha, hsp]
      rw [hx] at h ⊢
      have hmem := test_maps_true E s x h
      have heq := test_maps_true_eq E s x h
      have hfind : s.chmaps.find? (fun e => E.mp_chmap_equals_reordered e x)
          = some (test_maps E s x).2 := by
        unfold test_maps at h ⊢
        cases hf : s.chmaps.find? (fun e => E.mp_chmap_equals_reordered e x) with
        | none => simp [hf] at h
        | some e => rfl
      have hve := hs _ hmem
      obtain ⟨b, hb⟩ := find_of_mem
        (fun e => E.mp_chmap_equals_reordered e (test_maps E s x).2) s.chmaps
        (test_maps E s x).2 hmem (hrefl _ hve)
      have hb2 : E.mp_chmap_equals_reordered b (test_maps E s x).2 = true := by
        have := List.find?_some hb
        exact this
      have hab : (test_maps E s x).2 = b :=
        find_agree (fun e => E.mp_chmap_equals_reordered e x)
          (fun e => E.mp_chmap_equals_reordered e (test_maps E s x).2) s.chmaps
          (test_maps E s x).2 b hfind hb (htrans _ _ _ hb2 heq) (hrefl _ hve)
      rw [← hab] at hb
      exact test_layout_fixed E s _ hnw hve (Or.inr (Or.inr hb))

theorem spec_contains_iff (a b : mp_chmap) :
    spec_contains a b = true ↔ ∀ sp ∈ b.speaker, sp ∈ a.speaker := by
  unfold spec_contains
  simp [List.all_eq_true]

theorem env0_equals_reordered_refl :
    ∀ a, env0.mp_chmap_is_valid a = true → env0.mp_chmap_equals_reordered a a = true := by
  intro a _
  have h : env0.mp_chmap_equals_reordered a a
      = (decide (a.num = a.num) && spec_contains a a && spec_contains a a) := rfl
  rw [h]
  have hc : spec_contains a a = true := (spec_contains_iff a a).2 (fun _ hsp => hsp)
  simp [hc]

theorem env0_equals_reordered_trans :
    ∀ a b c, env0.mp_chmap_equals_reordered a b = true →
      env0.mp_chmap_equals_reordered b c = true → env0.mp_chmap_equals_reordered a c = true := by
  intro a b c h1 h2
  have k1 : (decide (a.num = b.num) && spec_contains a b && spec_contains b a) = true := h1
  have k2 : (decide (b.num = c.num) && spec_contains b c && spec_contains c b) = true := h2
  have k3 : env0.mp_chmap_equals_reordered a c
      = (decide (a.num = c.num) && spec_contains a c && spec_contains c a) := rfl
  simp only [Bool.and_eq_true, decide_eq_true_eq, spec_contains_iff] at k1 k2
  rw [k3]
  simp only [Bool.and_eq_true, decide_eq_true_eq, spec_contains_iff]
  exact ⟨⟨k1.1.1.trans k2.1.1, fun sp hsp => k1.1.2 sp (k2.1.2 sp hsp)⟩,
    fun sp hsp => k2.2 sp (k1.2 sp hsp)⟩

/-- Outcomes as tests/all.c lines 51-62 and 134-149 assert them (a stored map
`m` is returned for the request `x`; with only a reordering `sw` of `m`
stored the search fails) make the containment test tell `m` from `sw`, for
any implementation of the helpers. -/
theorem fallback_tests_separate_orderings (E : chmap_env) (s1 s2 : mp_chmap_sel)
    (m sw x : mp_chmap) (h2 : s2.chmaps = [sw])
    (hfit : (E.mp_chmap_diff sw x).num ≤ UINT8_MAX ∧ (E.mp_chmap_diff x sw).num ≤ UINT8_MAX)
    (ht1 : mp_chmap_sel_fallback E s1 x = (true, m))
    (ht2 : (mp_chmap_sel_fallback E s2 x).1 = false) :
    ¬ (E.mp_chmap_contains m x = E.mp_chmap_contains sw x ∧
       E.mp_chmap_contains x m = E.mp_chmap_contains x sw) := by
  have hup : E.mp_chmap_contains sw x = false := by
    by_contra hc
    have hc1 : E.mp_chmap_contains sw x = true := by simpa using hc
    obtain ⟨_, out, _, _, hf, _⟩ := fallback_upmix_first_min E s2 x
      (fun e he => by
        rw [h2] at he
        have : e = sw := by simpa using he
        rw [this]; exact hfit.1)
      ⟨sw, by rw [h2]; simp, hc1⟩
    rw [hf] at ht2
    simp at ht2
  have hdown : E.mp_chmap_contains x sw = false := by
    by_contra hc
    have hc1 : E.mp_chmap_contains x sw = true := by simpa using hc
    obtain ⟨_, out, _, _, hf, _⟩ := fallback_downmix_first_min E s2 x
      (fun e he => by
        rw [h2] at he
        have : e = sw := by simpa using he
        rw [this]; exact hfit.2)
      (fun e he => by
        rw [h2] at he
        have : e = sw := by simpa using he
        rw [this]; exact hup)
      ⟨sw, by rw [h2]; simp, hc1⟩
    rw [hf] at ht2
    simp at ht2
  have hsel : (mp_chmap_sel_fallback E s1 x).1 = true := by rw [ht1]
  have hk := (fallback_result_kind E s1 x hsel).2
  rw [ht1] at hk
  intro hboth
  rcases hk with h | h
  · rw [hboth.1, hup] at h
    simp at h
  · rw [hboth.2, hdown] at h
    simp at h

/-- Counterexample to C31: 7.1 with its first two channels exchanged is stored
before 7.1 (both by `mp_chmap_sel_add_map`, no flag set), with helpers that
meet tests/all.c. For the request 5.1 the fallback search passes over the
exchanged map (tests/all.c lines 134-149) and returns 7.1 (lines 51-62); run
again on 7.1, `test_maps` takes the first stored map equal to 7.1 up to
reordering, so `mp_chmap_sel_adjust` returns true with the exchanged map, not
with 7.1. -/
theorem adjust_not_idempotent_counterexample :
    sel_build env1 false [sel_op.add_map chmap_7_1_swapped, sel_op.add_map chmap_7_1]
      = some ⟨false, false, List.replicate 72 false, [chmap_7_1_swapped, chmap_7_1], false⟩ ∧
    mp_chmap_sel_adjust env1
      ⟨false, false, List.replicate 72 false, [chmap_7_1_swapped, chmap_7_1], false⟩ chmap_5_1
      = some (true, chmap_7_1) ∧
    mp_chmap_sel_adjust env1
      ⟨false, false, List.replicate 72 false, [chmap_7_1_swapped, chmap_7_1], false⟩ chmap_7_1
      = some (true, chmap_7_1_swapped) ∧
    chmap_7_1_swapped ≠ chmap_7_1 := by
  decide

/-- C31, amended: for a criteria set built by the accumulation operations with
the native-ordering flag unset and any input map, when `mp_chmap_sel_adjust`
returns true with output `m`, the acceptance predicate accepts `m` and
`mp_chmap_sel_adjust` on `m` returns true; when no stored map is a reordering
of a different stored map, `m` is accepted as it stands and the second run
leaves `m` unchanged. Equality up to reordering, a helper of the absent
chmap.c, is assumed reflexive on valid maps and transitive (section 6); no
assumption is made on `mp_chmap_contains` and `mp_chmap_diff`. -/
theorem adjust_idempotent_distinct_orderings (E : chmap_env)
    (hrefl : ∀ a, E.mp_chmap_is_valid a = true → E.mp_chmap_equals_reordered a a = true)
    (htrans : ∀ a b c, E.mp_chmap_equals_reordered a b = true →
      E.mp_chmap_equals_reordered b c = true → E.mp_chmap_equals_reordered a c = true)
    (tmp : Bool) (ops : List sel_op) (s : mp_chmap_sel) (hb : sel_build E tmp ops = some s)
    (hnw : s.allow_waveext = false) (map m : mp_chmap)
    (h : mp_chmap_sel_adjust E s map = some (true, m)) :
    (test_layout E s m).1 = true ∧
    (∃ m1, mp_chmap_sel_adjust E s m = some (true, m1)) ∧
    ((∀ a ∈ s.chmaps, ∀ b ∈ s.chmaps, E.mp_chmap_equals_reordered a b = true → a = b) →
      test_layout E s m = (true, m) ∧ mp_chmap_sel_adjust E s m = some (true, m)) := by
  have hs := sel_build_valid E tmp ops s hb
  rcases adjust_outcome_fallback E s map with h1 | ⟨t0, ht0, h1⟩ | ⟨hf, h1⟩
  · rw [h1] at h
    simp at h
  · rw [h1] at h
    have hm : (test_layout E s t0).2 = m := by simpa using h
    have key : test_layout E s m = (true, m) := by
      rw [← hm]
      exact test_layout_idem E hrefl htrans s hs hnw t0 ht0
    exact ⟨by rw [key], ⟨m, adjust_of_accepted E s m m key⟩,
      fun _ => ⟨key, adjust_of_accepted E s m m key⟩⟩
  · rw [h1] at h
    have hm : (mp_chmap_sel_fallback E s map).2 = m := by simpa using h
    have hmem := (fallback_result_kind E s map hf).1
    rw [hm] at hmem
    have hv := hs m hmem
    have hacc : (test_layout E s m).1 = true :=
      (test_layout_accepted_iff E s m).2
        ⟨hv, Or.inr (Or.inr (Or.inr ((test_maps_iff E s m).2 ⟨m, hmem, hrefl m hv⟩)))⟩
    refine ⟨hacc, ⟨(test_layout E s m).2, adjust_of_accepted E s m _ (Prod.ext hacc rfl)⟩, ?_⟩
    intro hdistinct
    obtain ⟨b, hfind⟩ := find_of_mem (fun e => E.mp_chmap_equals_reordered e m) s.chmaps m hmem
      (hrefl m hv)
    have hbm : b ∈ s.chmaps := List.mem_of_find?_eq_some hfind
    have hbe : E.mp_chmap_equals_reordered b m = true := by
      have := List.find?_some hfind
      exact this
    rw [hdistinct b hbm m hmem hbe] at hfind
    have key := test_layout_fixed E s m hnw hv (Or.inr (Or.inr hfind))
    exact ⟨key, adjust_of_accepted E s m m key⟩

/-- Witness of C31, amended: stereo, the speaker fc and 7.1 are whitelisted,
with helpers that meet tests/all.c; the input 5.1 is settled by the fallback
search with 7.1, which the acceptance predicate and a second negotiation
leave as it is. -/
theorem adjust_idempotent_distinct_orderings_witness :
    mp_chmap_sel_adjust env1
      ⟨false, false, (List.replicate 72 false).set 2 true, [chmap_stereo, chmap_7_1], false⟩
      chmap_5_1 = some (true, chmap_7_1) ∧
    test_layout env1
      ⟨false, false, (List.replicate 72 false).set 2 true, [chmap_stereo, chmap_7_1], false⟩
      chmap_7_1 = (true, chmap_7_1) ∧
    mp_chmap_sel_adjust env1
      ⟨false, false, (List.replicate 72 false).set 2 true, [chmap_stereo, chmap_7_1], false⟩
      chmap_7_1 = some (true, chmap_7_1) :=
  ⟨by decide,
   (adjust_idempotent_distinct_orderings env1 env0_equals_reordered_refl
     env0_equals_reordered_trans false
     [sel_op.add_map chmap_stereo, sel_op.add_speaker 2, sel_op.add_map chmap_7_1]
     ⟨false, false, (List.replicate 72 false).set 2 true, [chmap_stereo, chmap_7_1], false⟩
     (by decide) rfl chmap_5_1 chmap_7_1 (by decide)).2.2 (by decide)⟩
